import Mathlib

/-!
# pr-service: the reviewer assignment engine

A shallow embedding of `internal/storage/sqlite/sqlite.go` (the `Storage`
methods behind `storage.Repository`) and of the projections of
`internal/storage/storage.go`.

Modelling conventions

* The four SQLite tables are lists of rows, in insertion order.  A `SELECT`
  without `ORDER BY` returns the rows in table order; a `JOIN` is the nested
  loop over the tables in the order of the `FROM` clause; `QueryRow(...).Scan`
  takes the first row of the result.  SQL leaves the order of such a result
  open, and SQLite may walk an index instead of the table (the reviewers of a
  pull request come in the order of the key `(pr_id, reviewer_id)`): a list read
  by one statement is compared with a list read by another one through
  membership, length and permutation only.
* `INTEGER PRIMARY KEY AUTOINCREMENT` gives one more than the largest id of the
  table (`nextID`); no statement of the program deletes a row of `teams`,
  `users` or `pull_requests`.  Ids are natural numbers (`int64` in the source,
  never computed with).
* The uniqueness and foreign-key constraints of the schema are not enforced by
  the lists.  They are stated as a predicate on the store (`SchemaOK`) and shown
  to hold in every reachable state, after every single repair of the cascade
  included.  Failures of the driver itself (connection, disk) are not modelled.
* `CURRENT_TIMESTAMP` is the argument `now`.
* `rand.Shuffle` is the Fisher-Yates loop of `math/rand/v2`, driven by an
  explicit list of raw draws (`Rand`); quantifying over that list quantifies
  over every outcome of the shuffle.
* Every method returns its result together with the store it leaves behind:
  a transaction that returns before `tx.Commit()` is rolled back by the deferred
  `tx.Rollback()` and leaves the store as it was.
* A result set is the one of the moment the statement is issued (the cursor
  `prRows` of the bulk cascade is read while `pr_reviewers` is updated).
* `GROUP BY` gives one row for every value of the key met in the join, with its
  `COUNT(*)`; `ORDER BY` sorts these rows.  `TEXT` values are compared as under the
  default collation `BINARY`.
-/

namespace PRService

/-! ## Errors (`storage.go`) -/

/-- The sentinel errors of `storage.go`; `Internal` stands for every error built
with `fmt.Errorf` (a wrapped driver error, `empty userIDs`). -/
inductive Error where
  | ErrTeamExists
  | ErrPRExists
  | ErrNotFound
  | ErrPRMerged
  | ErrNotAssigned
  | ErrNoCandidate
  | Internal
  deriving DecidableEq, Repr

/-! ## Tables (the schema of `New`) -/

/-- The column `status`, with `CHECK (status IN ('OPEN', 'MERGED'))`. -/
inductive Status where
  | OPEN
  | MERGED
  deriving DecidableEq, Repr

/-- A row of `teams`. -/
structure TeamRow where
  id : Nat
  name : String
  deriving DecidableEq, Repr

/-- A row of `users`; `is_active` is the integer column written by `boolToInt`. -/
structure UserRow where
  id : Nat
  user_id : String
  username : String
  team_id : Nat
  is_active : Nat
  deriving DecidableEq, Repr

/-- A row of `pull_requests`. -/
structure PullRequestRow where
  id : Nat
  pull_request_id : String
  name : String
  author_id : Nat
  status : Status
  created_at : Nat
  merged_at : Option Nat
  deriving DecidableEq, Repr

/-- A row of `pr_reviewers`. -/
structure ReviewerRow where
  pr_id : Nat
  reviewer_id : Nat
  deriving DecidableEq, Repr

/-- The database behind `Storage`. -/
structure Store where
  teams : List TeamRow
  users : List UserRow
  pull_requests : List PullRequestRow
  pr_reviewers : List ReviewerRow
  deriving DecidableEq, Repr

/-- The store right after `New` on a fresh file: four empty tables. -/
def Store.empty : Store := ⟨[], [], [], []⟩

/-! ## Projections (`storage.go`) -/

structure TeamMember where
  UserID : String
  Username : String
  IsActive : Bool
  deriving DecidableEq, Repr

structure Team where
  TeamName : String
  Members : List TeamMember
  deriving DecidableEq, Repr

structure User where
  UserID : String
  Username : String
  TeamName : String
  IsActive : Bool
  deriving DecidableEq, Repr

structure PullRequest where
  ID : String
  Name : String
  AuthorID : String
  Status : Status
  AssignedReviewers : List String
  CreatedAt : Option Nat
  MergedAt : Option Nat
  deriving DecidableEq, Repr

structure PullRequestShort where
  ID : String
  Name : String
  AuthorID : String
  Status : Status
  deriving DecidableEq, Repr

structure UserReviews where
  UserID : String
  PullRequests : List PullRequestShort
  deriving DecidableEq, Repr

structure BulkDeactivateResult where
  TeamName : String
  DeactivatedUserIDs : List String
  ReassignedCount : Nat
  RemovedAssignments : Nat
  deriving DecidableEq, Repr

/-! ## Helpers -/

def boolToInt (b : Bool) : Nat := if b then 1 else 0

/-- The id given by `AUTOINCREMENT`: one more than the largest id in use. -/
def nextID (ids : List Nat) : Nat := ids.foldr max 0 + 1

/-- The raw draws of the process-wide random generator. -/
abbrev Rand := List Nat

/-- One draw `rand.IntN(n)`: a value below `n`, and the rest of the stream. -/
def IntN (r : Rand) (n : Nat) : Nat × Rand :=
  match r with
  | [] => (0, [])
  | x :: rest => (x % n, rest)

/-- The callback of `rand.Shuffle`:
`candidates[i], candidates[j] = candidates[j], candidates[i]`. -/
def swap {α : Type} (l : List α) (i j : Nat) : List α :=
  match l[i]?, l[j]? with
  | some a, some b => (l.set i b).set j a
  | _, _ => l

/-- The loop of `rand.Shuffle`, from index `i` down to 1:
`for i := n - 1; i > 0; i-- { j := IntN(i + 1); swap(i, j) }`. -/
def shuffleLoop {α : Type} : Nat → List α → Rand → List α × Rand
  | 0, l, r => (l, r)
  | i + 1, l, r =>
    let d := IntN r (i + 2)
    shuffleLoop i (swap l (i + 1) d.1) d.2

/-- The call `rand.Shuffle(len(l), swap)`. -/
def Shuffle {α : Type} (l : List α) (r : Rand) : List α × Rand :=
  shuffleLoop (l.length - 1) l r

/-! ## `getPullRequestByExternalID` -/

/-- The method `getPullRequestByExternalID`: the PR row joined with its author, then
the external ids of its reviewers. -/
def getPullRequestByExternalID (s : Store) (prID : String) : Except Error PullRequest :=
  let joined := s.pull_requests.flatMap fun pr =>
    (s.users.filter fun au => pr.author_id = au.id ∧ pr.pull_request_id = prID).map
      fun au => (pr, au)
  match joined.head? with
  | none => .error .ErrNotFound
  | some (pr, au) =>
    let reviewers := s.pr_reviewers.flatMap fun r =>
      (s.users.filter fun u => r.reviewer_id = u.id).flatMap fun u =>
        (s.pull_requests.filter fun p => r.pr_id = p.id ∧ p.pull_request_id = prID).map
          fun _ => u.user_id
    .ok
      { ID := pr.pull_request_id
        Name := pr.name
        AuthorID := au.user_id
        Status := pr.status
        AssignedReviewers := reviewers
        CreatedAt := some pr.created_at
        MergedAt := pr.merged_at }

/-! ## Users -/

/-- The method `SetUserIsActive` (no transaction: the `UPDATE` is kept whatever the
following `SELECT` gives). -/
def SetUserIsActive (s : Store) (userID : String) (isActive : Bool) :
    Except Error User × Store :=
  let affected := (s.users.filter fun u => u.user_id = userID).length
  let s1 : Store :=
    { s with users := s.users.map fun u =>
        if u.user_id = userID then { u with is_active := boolToInt isActive } else u }
  if affected = 0 then (.error .ErrNotFound, s1)
  else
    let joined := s1.users.flatMap fun u =>
      (s1.teams.filter fun t => u.team_id = t.id ∧ u.user_id = userID).map fun t => (u, t)
    match joined.head? with
    | none => (.error .Internal, s1)
    | some (u, t) =>
      (.ok
        { UserID := u.user_id
          Username := u.username
          TeamName := t.name
          IsActive := u.is_active = 1 }, s1)

/-! ## Pull requests -/

/-- The candidates of `CreatePullRequestWithAutoAssign`: the active users of the author's
team, the author apart (`WHERE team_id = ? AND is_active = 1 AND id != ?`). -/
def createCandidates (s : Store) (teamID authorID : Nat) : List (String × Nat) :=
  (s.users.filter fun u => u.team_id = teamID ∧ u.is_active = 1 ∧ u.id ≠ authorID).map
    fun u => (u.user_id, u.id)

/-- Shuffle the candidates and keep at most two of them. -/
def shuffleTakeTwo (candidates : List (String × Nat)) (rnd : Rand) : List (String × Nat) :=
  let candidates := (Shuffle candidates rnd).1
  if candidates.length > 2 then candidates.take 2 else candidates

/-- The method `CreatePullRequestWithAutoAssign`. -/
def CreatePullRequestWithAutoAssign (s : Store) (now : Nat) (rnd : Rand)
    (prID prName authorExternalID : String) : Except Error PullRequest × Store :=
  match s.pull_requests.find? fun pr => pr.pull_request_id = prID with
  | some _ => (.error .ErrPRExists, s)
  | none =>
    match s.users.find? fun u => u.user_id = authorExternalID with
    | none => (.error .ErrNotFound, s)
    | some au =>
      let authorID := au.id
      let teamID := au.team_id
      let candidates := createCandidates s teamID authorID
      let candidates := shuffleTakeTwo candidates rnd
      let prIntID := nextID (s.pull_requests.map fun pr => pr.id)
      let tx : Store :=
        { s with pull_requests := s.pull_requests ++
            [{ id := prIntID, pull_request_id := prID, name := prName, author_id := authorID,
               status := .OPEN, created_at := now, merged_at := none }] }
      let tx : Store :=
        { tx with pr_reviewers := tx.pr_reviewers ++
            candidates.map fun c => { pr_id := prIntID, reviewer_id := c.2 } }
      (getPullRequestByExternalID tx prID, tx)

/-- The method `MergePullRequest`. -/
def MergePullRequest (s : Store) (now : Nat) (prID : String) :
    Except Error PullRequest × Store :=
  match s.pull_requests.find? fun pr => pr.pull_request_id = prID with
  | none => (.error .ErrNotFound, s)
  | some row =>
    let intID := row.id
    let tx : Store :=
      if row.status ≠ .MERGED then
        { s with pull_requests := s.pull_requests.map fun pr =>
            if pr.id = intID then { pr with status := .MERGED, merged_at := some now } else pr }
      else s
    (getPullRequestByExternalID tx prID, tx)

/-- The statement `UPDATE pr_reviewers SET reviewer_id = ? WHERE pr_id = ? AND reviewer_id = ?`. -/
def updateReviewer (rows : List ReviewerRow) (chosen prIntID oldIntID : Nat) : List ReviewerRow :=
  rows.map fun r =>
    if r.pr_id = prIntID ∧ r.reviewer_id = oldIntID then { r with reviewer_id := chosen } else r

/-- The statement `DELETE FROM pr_reviewers WHERE pr_id = ? AND reviewer_id = ?`. -/
def deleteReviewer (rows : List ReviewerRow) (prIntID uid : Nat) : List ReviewerRow :=
  rows.filter fun r => ¬ (r.pr_id = prIntID ∧ r.reviewer_id = uid)

/-- The candidates of `ReassignReviewer`: the active users of the old reviewer's team
(`WHERE team_id = ? AND is_active = 1`), without the old reviewer, the author and the users
already assigned to the pull request. -/
def reassignCandidates (s : Store) (prIntID authorIntID oldIntID teamID : Nat) :
    List (Nat × String) :=
  let assigned : List Nat :=
    (s.pr_reviewers.filter fun r => r.pr_id = prIntID).map fun r => r.reviewer_id
  let candRows := s.users.filter fun u => u.team_id = teamID ∧ u.is_active = 1
  (candRows.filter fun u => u.id ≠ oldIntID ∧ u.id ≠ authorIntID ∧ u.id ∉ assigned).map
    fun u => (u.id, u.user_id)

/-- The method `ReassignReviewer`. -/
def ReassignReviewer (s : Store) (rnd : Rand) (prID oldUserID : String) :
    Except Error (PullRequest × String) × Store :=
  match s.pull_requests.find? fun pr => pr.pull_request_id = prID with
  | none => (.error .ErrNotFound, s)
  | some row =>
    let prIntID := row.id
    let authorIntID := row.author_id
    if row.status = .MERGED then (.error .ErrPRMerged, s)
    else
      match s.users.find? fun u => u.user_id = oldUserID with
      | none => (.error .ErrNotFound, s)
      | some old =>
        let oldIntID := old.id
        let teamID := old.team_id
        match s.pr_reviewers.find? fun r => r.pr_id = prIntID ∧ r.reviewer_id = oldIntID with
        | none => (.error .ErrNotAssigned, s)
        | some _ =>
          match reassignCandidates s prIntID authorIntID oldIntID teamID with
          | [] => (.error .ErrNoCandidate, s)
          | c :: cs =>
            let chosen := (Shuffle (c :: cs) rnd).1.headD c
            let tx : Store :=
              { s with pr_reviewers := updateReviewer s.pr_reviewers chosen.1 prIntID oldIntID }
            match getPullRequestByExternalID tx prID with
            | .error e => (.error e, tx)
            | .ok pr => (.ok (pr, chosen.2), tx)

/-- The method `GetUserReviews`: the pull requests joined to the assignment rows of the user. -/
def GetUserReviews (s : Store) (userID : String) : Except Error UserReviews :=
  match s.users.find? fun u => u.user_id = userID with
  | none => .error .ErrNotFound
  | some _ =>
    let prs : List PullRequestShort := s.pr_reviewers.flatMap fun r =>
      (s.pull_requests.filter fun pr => r.pr_id = pr.id).flatMap fun pr =>
        (s.users.filter fun au => pr.author_id = au.id).flatMap fun au =>
          (s.users.filter fun u => r.reviewer_id = u.id ∧ u.user_id = userID).map fun _ =>
            { ID := pr.pull_request_id, Name := pr.name, AuthorID := au.user_id,
              Status := pr.status }
    .ok { UserID := userID, PullRequests := prs }

/-! ## Teams -/

/-- The method `GetTeam`. -/
def GetTeam (s : Store) (teamName : String) : Except Error Team :=
  match s.teams.find? fun t => t.name = teamName with
  | none => .error .ErrNotFound
  | some t =>
    let members := (s.users.filter fun u => u.team_id = t.id).map fun u =>
      ({ UserID := u.user_id, Username := u.username, IsActive := u.is_active = 1 } : TeamMember)
    .ok { TeamName := teamName, Members := members }

/-- One turn of the member loop of `CreateTeam`: insert the user, or update the
existing one. -/
def upsertMember (teamID : Nat) (users : List UserRow) (m : TeamMember) : List UserRow :=
  match users.find? fun u => u.user_id = m.UserID with
  | none =>
    users ++ [{ id := nextID (users.map fun u => u.id), user_id := m.UserID,
                username := m.Username, team_id := teamID, is_active := boolToInt m.IsActive }]
  | some _ =>
    users.map fun u =>
      if u.user_id = m.UserID then
        { u with username := m.Username, team_id := teamID, is_active := boolToInt m.IsActive }
      else u

/-- The method `CreateTeam`. -/
def CreateTeam (s : Store) (teamName : String) (members : List TeamMember) :
    Except Error Team × Store :=
  match s.teams.find? fun t => t.name = teamName with
  | some _ => (.error .ErrTeamExists, s)
  | none =>
    let teamID := nextID (s.teams.map fun t => t.id)
    let tx : Store :=
      { s with teams := s.teams ++ [{ id := teamID, name := teamName }]
               users := members.foldl (upsertMember teamID) s.users }
    (GetTeam tx teamName, tx)

/-! ## Bulk deactivation -/

/-- The first loop of `BulkDeactivateUsersAndReassign`: resolve every external id to
a user of the team, or fail on the first that is not one. -/
def resolveUsers (users : List UserRow) (teamID : Nat) :
    List String → Option (List (Nat × String))
  | [] => some []
  | uid :: rest =>
    match users.find? fun u => u.team_id = teamID ∧ u.user_id = uid with
    | none => none
    | some u =>
      match resolveUsers users teamID rest with
      | none => none
      | some ds => some ((u.id, uid) :: ds)

/-- The statement `UPDATE users SET is_active = 0 WHERE id = ?`. -/
def deactivateUser (users : List UserRow) (id : Nat) : List UserRow :=
  users.map fun u => if u.id = id then { u with is_active := 0 } else u

/-- What the cascade loops carry: the assignment table, the two counters and the
random stream. -/
structure CascadeState where
  pr_reviewers : List ReviewerRow
  reassignedCount : Nat
  removedCount : Nat
  rnd : Rand
  deriving DecidableEq, Repr

/-- The body of the inner loop of the cascade, for the deactivated user `uid` and
one row `(pr.id, pr.author_id)` of `prRows`. -/
def cascadeStep (activeUserIDs : List Nat) (uid : Nat) (st : CascadeState)
    (row : Nat × Nat) : CascadeState :=
  let prIntID := row.1
  let authorIntID := row.2
  let assigned : List Nat :=
    (st.pr_reviewers.filter fun r => r.pr_id = prIntID).map fun r => r.reviewer_id
  let assigned := assigned.filter fun r => r ≠ uid
  let candidates := activeUserIDs.filter fun c => c ≠ authorIntID ∧ c ∉ assigned
  match candidates with
  | [] =>
    { st with
      pr_reviewers := deleteReviewer st.pr_reviewers prIntID uid
      removedCount := st.removedCount + 1 }
  | c :: cs =>
    let sh := Shuffle (c :: cs) st.rnd
    let chosen := sh.1.headD c
    { pr_reviewers := updateReviewer st.pr_reviewers chosen prIntID uid
      reassignedCount := st.reassignedCount + 1
      removedCount := st.removedCount
      rnd := sh.2 }

/-- The body of the outer loop of the cascade: the open PRs reviewed by `uid`, each
repaired in turn. -/
def cascadeUser (prs : List PullRequestRow) (activeUserIDs : List Nat) (st : CascadeState)
    (uid : Nat) : CascadeState :=
  let prRows : List (Nat × Nat) := st.pr_reviewers.flatMap fun r =>
    (prs.filter fun pr => r.pr_id = pr.id ∧ r.reviewer_id = uid ∧ pr.status = .OPEN).map
      fun pr => (pr.id, pr.author_id)
  prRows.foldl (cascadeStep activeUserIDs uid) st

/-- The method `BulkDeactivateUsersAndReassign`. -/
def BulkDeactivateUsersAndReassign (s : Store) (rnd : Rand) (teamName : String)
    (userIDs : List String) : Except Error BulkDeactivateResult × Store :=
  if userIDs.length = 0 then (.error .Internal, s)
  else
    match s.teams.find? fun t => t.name = teamName with
    | none => (.error .ErrNotFound, s)
    | some t =>
      let teamID := t.id
      match resolveUsers s.users teamID userIDs with
      | none => (.error .ErrNotFound, s)
      | some deactivated =>
        let users := deactivated.foldl (fun us u => deactivateUser us u.1) s.users
        let activeUserIDs : List Nat :=
          (users.filter fun u => u.team_id = teamID ∧ u.is_active = 1).map fun u => u.id
        let st := deactivated.foldl
          (fun st u => cascadeUser s.pull_requests activeUserIDs st u.1)
          { pr_reviewers := s.pr_reviewers, reassignedCount := 0, removedCount := 0, rnd := rnd }
        (.ok
          { TeamName := teamName
            DeactivatedUserIDs := deactivated.map fun u => u.2
            ReassignedCount := st.reassignedCount
            RemovedAssignments := st.removedCount },
         { s with users := users, pr_reviewers := st.pr_reviewers })

/-! ## Calls and reachable states -/

/-- A call of one of the six mutating methods, with the clock reading and the random
draws it consumes. -/
inductive Call where
  | createTeam (teamName : String) (members : List TeamMember)
  | setUserIsActive (userID : String) (isActive : Bool)
  | createPullRequest (now : Nat) (rnd : Rand) (prID prName authorID : String)
  | mergePullRequest (now : Nat) (prID : String)
  | reassignReviewer (rnd : Rand) (prID oldUserID : String)
  | bulkDeactivate (rnd : Rand) (teamName : String) (userIDs : List String)

/-- The store a call leaves behind. -/
def Call.exec (s : Store) : Call → Store
  | .createTeam n ms => (CreateTeam s n ms).2
  | .setUserIsActive u a => (SetUserIsActive s u a).2
  | .createPullRequest now rnd p n a => (CreatePullRequestWithAutoAssign s now rnd p n a).2
  | .mergePullRequest now p => (MergePullRequest s now p).2
  | .reassignReviewer rnd p o => (ReassignReviewer s rnd p o).2
  | .bulkDeactivate rnd t us => (BulkDeactivateUsersAndReassign s rnd t us).2

/-- The store after a sequence of calls, starting from `s`. -/
def runCalls (s : Store) (calls : List Call) : Store := calls.foldl Call.exec s

/-- The states reachable from the empty store. -/
def Reachable (s : Store) : Prop := ∃ calls : List Call, runCalls Store.empty calls = s

/-! ## The constraints of the schema and the invariants of the engine -/

/-- The constraints declared by the schema of `New`: primary keys, `UNIQUE` columns and
foreign keys. -/
structure SchemaOK (s : Store) : Prop where
  teams_pk : (s.teams.map fun t => t.id).Nodup
  teams_name : (s.teams.map fun t => t.name).Nodup
  users_pk : (s.users.map fun u => u.id).Nodup
  users_user_id : (s.users.map fun u => u.user_id).Nodup
  users_team : ∀ u ∈ s.users, u.team_id ∈ s.teams.map fun t => t.id
  prs_pk : (s.pull_requests.map fun p => p.id).Nodup
  prs_pull_request_id : (s.pull_requests.map fun p => p.pull_request_id).Nodup
  prs_author : ∀ p ∈ s.pull_requests, p.author_id ∈ s.users.map fun u => u.id
  revs_pk : s.pr_reviewers.Nodup
  revs_pr : ∀ r ∈ s.pr_reviewers, r.pr_id ∈ s.pull_requests.map fun p => p.id
  revs_reviewer : ∀ r ∈ s.pr_reviewers, r.reviewer_id ∈ s.users.map fun u => u.id

/-- The rows of `pr_reviewers` of the pull request with internal id `prIntID`. -/
def reviewersOf (s : Store) (prIntID : Nat) : List ReviewerRow :=
  s.pr_reviewers.filter fun r => r.pr_id = prIntID

/-- The user rows joined to the assignment rows of the pull request `prIntID`
(`pr_reviewers r JOIN users u ON r.reviewer_id = u.id`). -/
def assignedUsers (s : Store) (prIntID : Nat) : List UserRow :=
  (reviewersOf s prIntID).flatMap fun r => s.users.filter fun u => r.reviewer_id = u.id

/-- The row of `users` with the internal id `id`. -/
def userByID (s : Store) (id : Nat) : Option UserRow :=
  s.users.find? fun u => u.id = id

/-- The invariants of the engine on top of the schema: the author of a pull request is
not among its reviewers, a pull request has at most two reviewers, and the merge timestamp
is present exactly on merged pull requests. -/
structure Inv (s : Store) : Prop where
  schema : SchemaOK s
  author_not_reviewer :
    ∀ p ∈ s.pull_requests, ∀ r ∈ s.pr_reviewers, r.pr_id = p.id → r.reviewer_id ≠ p.author_id
  at_most_two : ∀ prIntID, (reviewersOf s prIntID).length ≤ 2
  merged_stamp : ∀ p ∈ s.pull_requests, p.status = .MERGED ↔ p.merged_at.isSome = true

/-- The part of the schema and of the invariants that speaks of the assignment table alone,
for fixed user ids and pull requests: what the loops of the cascade maintain. -/
structure RevsOK (userIDs : List Nat) (prs : List PullRequestRow) (rows : List ReviewerRow) :
    Prop where
  pk : rows.Nodup
  pr : ∀ r ∈ rows, r.pr_id ∈ prs.map fun p => p.id
  reviewer : ∀ r ∈ rows, r.reviewer_id ∈ userIDs
  author : ∀ p ∈ prs, ∀ r ∈ rows, r.pr_id = p.id → r.reviewer_id ≠ p.author_id
  two : ∀ prIntID, (rows.filter fun r => r.pr_id = prIntID).length ≤ 2

/-! ## Scenarios -/

/-- Scenario A of the specification: a team of three active users and one pull request of
`author`, then the merge. -/
def scenarioA : List Call :=
  [.createTeam "T" [⟨"author", "Author", true⟩, ⟨"r1", "R1", true⟩, ⟨"r2", "R2", true⟩],
   .createPullRequest 10 [1] "p1" "PR 1" "author",
   .mergePullRequest 20 "p1"]

/-- A re-parenting: team `A` with `a`, `r1`, `x`; a pull request of `a`, reviewed by `r1` and
`x`; then team `B` is created with `r1` (moved out of `A`) and `y`. -/
def scenarioMove : List Call :=
  [.createTeam "A" [⟨"a", "A", true⟩, ⟨"r1", "R1", true⟩, ⟨"x", "X", true⟩],
   .createPullRequest 5 [] "p" "n" "a",
   .createTeam "B" [⟨"r1", "R1", true⟩, ⟨"y", "Y", true⟩]]

/-- The property claimed of a freshly assigned reviewer: its team is the team of the author of
the pull request. -/
def SameTeamAsAuthor (s : Store) (r : ReviewerRow) : Prop :=
  ∀ p ∈ s.pull_requests, p.id = r.pr_id →
    (userByID s r.reviewer_id).map (fun u => u.team_id) =
      (userByID s p.author_id).map fun u => u.team_id

/-- The pool of the specification for the creation of a pull request: the active users of the
author's current team, other than the author, by external id. -/
def creationPool (s : Store) (authorExternalID : String) : List String :=
  match s.users.find? fun u => u.user_id = authorExternalID with
  | none => []
  | some au =>
    (s.users.filter fun u =>
      u.team_id = au.team_id ∧ u.is_active = 1 ∧ u.user_id ≠ authorExternalID).map
      fun u => u.user_id

/-- The pool of the specification for a manual reassignment: the active users of the old
reviewer's team, without the old reviewer, the author of the pull request and the users
already assigned to it, by external id. -/
def reassignPool (s : Store) (prID oldUserID : String) : List String :=
  match getPullRequestByExternalID s prID, s.users.find? fun u => u.user_id = oldUserID with
  | .ok pr, some old =>
    (s.users.filter fun u =>
      u.team_id = old.team_id ∧ u.is_active = 1 ∧ u.user_id ≠ oldUserID ∧
        u.user_id ≠ pr.AuthorID ∧ u.user_id ∉ pr.AssignedReviewers).map fun u => u.user_id
  | _, _ => []

/-! ## The bulk cascade in the words of the specification -/

/-- Whether the pull request with internal id `prIntID` is OPEN. -/
def isOpenPR (prs : List PullRequestRow) (prIntID : Nat) : Bool :=
  prs.any fun p => p.id = prIntID ∧ p.status = .OPEN

/-- The pool of the specification for the repair of the assignment `w` of a deactivated user:
the users of the named team that are active (after the deactivations), without the author of
the pull request and without the users assigned to it at that step other than the deactivated
user, by internal id. -/
def cascadePool (users : List UserRow) (prs : List PullRequestRow) (teamID : Nat)
    (rows : List ReviewerRow) (w : ReviewerRow) : List Nat :=
  (users.filter fun x =>
    x.team_id = teamID ∧ x.is_active = 1 ∧
      (∀ p ∈ prs, p.id = w.pr_id → x.id ≠ p.author_id) ∧
      (∀ r ∈ rows, r.pr_id = w.pr_id → r.reviewer_id ≠ w.reviewer_id →
        x.id ≠ r.reviewer_id)).map fun x => x.id

/-- The cascade of the specification over a list of assignments to repair, on the assignment
table and the two counters: each assignment, present in the table when its turn comes, is
repointed to a member of its pool, counted in `reassignedCount`, or, when the pool is empty,
removed, counted in `removedCount`. -/
inductive SpecCascade (users : List UserRow) (prs : List PullRequestRow) (teamID : Nat) :
    List ReviewerRow → List ReviewerRow × Nat × Nat → List ReviewerRow × Nat × Nat → Prop where
  | done (st : List ReviewerRow × Nat × Nat) : SpecCascade users prs teamID [] st st
  | repoint {w : ReviewerRow} {ws rows : List ReviewerRow} {re rm : Nat}
      {fin : List ReviewerRow × Nat × Nat} (c : Nat) (hw : w ∈ rows)
      (hc : c ∈ cascadePool users prs teamID rows w)
      (rest : SpecCascade users prs teamID ws
        (updateReviewer rows c w.pr_id w.reviewer_id, re + 1, rm) fin) :
      SpecCascade users prs teamID (w :: ws) (rows, re, rm) fin
  | remove {w : ReviewerRow} {ws rows : List ReviewerRow} {re rm : Nat}
      {fin : List ReviewerRow × Nat × Nat} (hw : w ∈ rows)
      (hc : cascadePool users prs teamID rows w = [])
      (rest : SpecCascade users prs teamID ws
        (deleteReviewer rows w.pr_id w.reviewer_id, re, rm + 1) fin) :
      SpecCascade users prs teamID (w :: ws) (rows, re, rm) fin

/-- The assignments of the named users on OPEN pull requests. -/
def namedOpenAssignments (s : Store) (userIDs : List String) : List ReviewerRow :=
  s.pr_reviewers.filter fun r =>
    (∃ u ∈ s.users, u.id = r.reviewer_id ∧ u.user_id ∈ userIDs) ∧
      isOpenPR s.pull_requests r.pr_id = true

/-- Scenario B of the specification: a team of three active users, five pull requests of
`bu1`, each reviewed by `bu2` and `bu3`. -/
def scenarioB : List Call :=
  [.createTeam "T2" [⟨"bu1", "BulkUser1", true⟩, ⟨"bu2", "BulkUser2", true⟩,
     ⟨"bu3", "BulkUser3", true⟩],
   .createPullRequest 1 [0] "pr-bulk-0" "Bulk test PR 0" "bu1",
   .createPullRequest 2 [1] "pr-bulk-1" "Bulk test PR 1" "bu1",
   .createPullRequest 3 [0] "pr-bulk-2" "Bulk test PR 2" "bu1",
   .createPullRequest 4 [1] "pr-bulk-3" "Bulk test PR 3" "bu1",
   .createPullRequest 5 [0] "pr-bulk-4" "Bulk test PR 4" "bu1"]

/-- A team of four active users, two pull requests of `a`; the second is merged. -/
def scenarioC : List Call :=
  [.createTeam "T" [⟨"a", "A", true⟩, ⟨"b", "B", true⟩, ⟨"c", "C", true⟩, ⟨"d", "D", true⟩],
   .createPullRequest 1 [0, 0] "p1" "one" "a",
   .createPullRequest 2 [1, 1] "p2" "two" "a",
   .mergePullRequest 3 "p2"]

/-! ## Statistics -/

structure ReviewerAssignmentStat where
  UserID : String
  AssignedCount : Nat
  deriving DecidableEq, Repr

structure Stats where
  TotalPullRequests : Nat
  TotalOpenPullRequests : Nat
  TotalMergedPullRequests : Nat
  AssignmentsByReviewer : List ReviewerAssignmentStat
  deriving DecidableEq, Repr

/-- The comparison of two byte strings by `memcmp`, then by length, on lists of numbers:
whether the first is at most the second. -/
def lexLE : List Nat → List Nat → Bool
  | [], _ => true
  | _ :: _, [] => false
  | a :: as, b :: bs => if a < b then true else if b < a then false else lexLE as bs

/-- The order of `TEXT` values under the default collation `BINARY`, which compares the
UTF-8 encodings byte by byte; UTF-8 keeps the order of the code points, so this is the
lexicographic order of the code points. -/
def textLE (a b : String) : Bool :=
  lexLE (a.toList.map Char.toNat) (b.toList.map Char.toNat)

/-- The order of `ORDER BY assigned_count DESC, u.user_id ASC`: the larger count first, and
for equal counts the smaller external id first. -/
def statBefore (a b : ReviewerAssignmentStat) : Prop :=
  b.AssignedCount < a.AssignedCount ∨
    (a.AssignedCount = b.AssignedCount ∧ textLE a.UserID b.UserID = true)

instance statBefore.decidable : DecidableRel statBefore := fun a b => by
  unfold statBefore
  infer_instance

/-- The rows of `pr_reviewers r JOIN users u ON r.reviewer_id = u.id`, projected on
`u.user_id`. -/
def reviewerJoin (s : Store) : List String :=
  s.pr_reviewers.flatMap fun r =>
    (s.users.filter fun u => r.reviewer_id = u.id).map fun u => u.user_id

/-- The method `GetStats`: the three counts of pull requests, then one group per value of
`u.user_id` in the join with its `COUNT(*)`, sorted for the `ORDER BY` (no two groups
compare equal, so every sort gives the same list). -/
def GetStats (s : Store) : Except Error Stats :=
  let joined := reviewerJoin s
  let groups : List ReviewerAssignmentStat :=
    joined.dedup.map fun uid => { UserID := uid, AssignedCount := joined.count uid }
  .ok
    { TotalPullRequests := s.pull_requests.length
      TotalOpenPullRequests := (s.pull_requests.filter fun p => p.status = .OPEN).length
      TotalMergedPullRequests := (s.pull_requests.filter fun p => p.status = .MERGED).length
      AssignmentsByReviewer := groups.insertionSort statBefore }

/-- A team of four active users and two pull requests of `a`, the second one merged: `b`
reviews both, `c` and `d` one each. -/
def scenarioStats : List Call :=
  [.createTeam "T" [⟨"a", "A", true⟩, ⟨"d", "D", true⟩, ⟨"c", "C", true⟩, ⟨"b", "B", true⟩],
   .createPullRequest 1 [0, 0] "p1" "one" "a",
   .createPullRequest 2 [1, 1] "p2" "two" "a",
   .mergePullRequest 3 "p2"]

/-- Two authors in one team: the pull requests `p1` of `a1` and `p2` of `a2` are both
reviewed by `u` and `v`. -/
def scenarioTwoAuthors : List Call :=
  [.createTeam "T" [⟨"a1", "A1", true⟩, ⟨"a2", "A2", true⟩, ⟨"u", "U", true⟩,
     ⟨"v", "V", true⟩],
   .createPullRequest 1 [0, 1] "p1" "one" "a1",
   .createPullRequest 2 [0, 1] "p2" "two" "a2"]

/-- The last occurrence of the external id `uid` in a member list. -/
def lastMember : List TeamMember → String → Option TeamMember
  | [], _ => none
  | m :: rest, uid =>
    match lastMember rest uid with
    | some x => some x
    | none => if m.UserID = uid then some m else none

/-- A member list that names `b` twice, with different names and flags, and a new user. -/
def membersWithRepeat : List TeamMember :=
  [⟨"b", "B2", false⟩, ⟨"y", "Y", true⟩, ⟨"b", "B3", true⟩]

/-! ## Lists: ids, updates, the shuffle -/

theorem lt_nextID {ids : List Nat} {i : Nat} (h : i ∈ ids) : i < nextID ids := by
  unfold nextID
  induction ids with
  | nil => cases h
  | cons a t ih =>
    simp only [List.foldr_cons]
    rcases List.mem_cons.mp h with rfl | h
    · omega
    · have := ih h
      omega

theorem nextID_not_mem (ids : List Nat) : nextID ids ∉ ids :=
  fun h => Nat.lt_irrefl _ (lt_nextID h)

theorem swap_perm {α : Type} (l : List α) (i j : Nat) : (swap l i j).Perm l := by
  classical
  unfold swap
  cases hi : l[i]? with
  | none => exact List.Perm.refl _
  | some a =>
    cases hj : l[j]? with
    | none => exact List.Perm.refl _
    | some b =>
      obtain ⟨hil, hia⟩ := List.getElem?_eq_some.mp hi
      obtain ⟨hjl, hjb⟩ := List.getElem?_eq_some.mp hj
      refine List.perm_iff_count.mpr fun x => ?_
      have hjl2 : j < (l.set i b).length := by simpa using hjl
      rw [List.count_set _ _ _ _ hjl2, List.count_set _ _ _ _ hil]
      have hpos : ∀ (k : Nat) (hk : k < l.length), l[k] = x → 0 < l.count x := fun k hk e =>
        List.count_pos_iff.mpr (e ▸ List.getElem_mem hk)
      by_cases hij : i = j
      · subst hij
        have hab : a = b := by rw [← hia, ← hjb]
        subst hab
        simp only [List.getElem_set_self, hia]
        by_cases hax : a = x
        · have := hpos i hil (hia.trans hax)
          simp [hax]
          omega
        · simp [hax]
      · rw [List.getElem_set_ne hij]
        simp only [hia, hjb]
        by_cases hax : a = x <;> by_cases hbx : b = x
        · have := hpos i hil (hia.trans hax)
          simp [hax, hbx]
          omega
        · have := hpos i hil (hia.trans hax)
          simp [hax, hbx]
          omega
        · simp [hax, hbx]
        · simp [hax, hbx]

theorem shuffleLoop_perm {α : Type} (n : Nat) (l : List α) (r : Rand) :
    (shuffleLoop n l r).1.Perm l := by
  induction n generalizing l r with
  | zero => exact List.Perm.refl _
  | succ i ih =>
    simp only [shuffleLoop]
    exact (ih _ _).trans (swap_perm _ _ _)

theorem Shuffle_perm {α : Type} (l : List α) (r : Rand) : (Shuffle l r).1.Perm l :=
  shuffleLoop_perm _ _ _

theorem Shuffle_headD_mem {α : Type} (c : α) (cs : List α) (r : Rand) :
    (Shuffle (c :: cs) r).1.headD c ∈ c :: cs := by
  have hp := Shuffle_perm (c :: cs) r
  cases hs : (Shuffle (c :: cs) r).1 with
  | nil => simp
  | cons a t =>
    rw [hs] at hp
    exact hp.subset (by simp)

/-- Rows with pairwise different keys: the rows with the key of `a` are `[a]`. -/
theorem filter_key_eq {α β : Type} [DecidableEq β] (f : α → β) :
    ∀ (l : List α), (l.map f).Nodup → ∀ a ∈ l, (l.filter fun b => f a = f b) = [a]
  | [], _, _, h => by cases h
  | x :: t, hn, a, h => by
    rw [List.map_cons, List.nodup_cons] at hn
    rcases List.mem_cons.mp h with rfl | h
    · have : t.filter (fun b => f a = f b) = [] := by
        rw [List.filter_eq_nil_iff]
        intro b hb hab
        simp only [decide_eq_true_eq] at hab
        exact hn.1 (hab ▸ List.mem_map_of_mem f hb)
      simp [List.filter_cons, this]
    · have hne : ¬ f a = f x := fun e => hn.1 (e ▸ List.mem_map_of_mem f h)
      simp [List.filter_cons, hne, filter_key_eq f t hn.2 a h]

theorem key_inj {α β : Type} (f : α → β) {l : List α} (hn : (l.map f).Nodup)
    {a b : α} (ha : a ∈ l) (hb : b ∈ l) (h : f a = f b) : a = b :=
  List.inj_on_of_nodup_map hn ha hb h

/-! ## The two statements on `pr_reviewers` -/

theorem updateReviewer_pr_id (rows : List ReviewerRow) (c p o : Nat) :
    (updateReviewer rows c p o).map (fun r => r.pr_id) = rows.map fun r => r.pr_id := by
  unfold updateReviewer
  rw [List.map_map]
  apply List.map_congr_left
  intro r _
  simp only [Function.comp]
  split <;> rfl

theorem mem_updateReviewer {rows : List ReviewerRow} {c p o : Nat} {r : ReviewerRow}
    (h : r ∈ updateReviewer rows c p o) :
    (r ∈ rows ∧ ¬ (r.pr_id = p ∧ r.reviewer_id = o)) ∨ (r = ⟨p, c⟩ ∧ ⟨p, o⟩ ∈ rows) := by
  unfold updateReviewer at h
  obtain ⟨x, hx, rfl⟩ := List.mem_map.mp h
  by_cases hc : x.pr_id = p ∧ x.reviewer_id = o
  · right
    rw [if_pos hc]
    obtain ⟨x1, x2⟩ := x
    obtain ⟨h1, h2⟩ := hc
    simp only at h1 h2
    subst h1 h2
    exact ⟨rfl, hx⟩
  · left
    rw [if_neg hc]
    exact ⟨hx, hc⟩

theorem mem_updateReviewer_of_mem {rows : List ReviewerRow} {c p o : Nat} {r : ReviewerRow}
    (h : r ∈ rows) (hne : ¬ (r.pr_id = p ∧ r.reviewer_id = o)) :
    r ∈ updateReviewer rows c p o := by
  unfold updateReviewer
  exact List.mem_map.mpr ⟨r, h, by rw [if_neg hne]⟩

theorem mem_updateReviewer_new {rows : List ReviewerRow} {c p o : Nat}
    (h : (⟨p, o⟩ : ReviewerRow) ∈ rows) : (⟨p, c⟩ : ReviewerRow) ∈ updateReviewer rows c p o := by
  unfold updateReviewer
  exact List.mem_map.mpr ⟨⟨p, o⟩, h, by simp⟩

theorem updateReviewer_nodup {rows : List ReviewerRow} {c p o : Nat} (hn : rows.Nodup)
    (hc : (⟨p, c⟩ : ReviewerRow) ∉ rows) : (updateReviewer rows c p o).Nodup := by
  unfold updateReviewer
  refine List.Nodup.map_on ?_ hn
  intro x hx y hy hxy
  by_cases h1 : x.pr_id = p ∧ x.reviewer_id = o <;>
    by_cases h2 : y.pr_id = p ∧ y.reviewer_id = o
  · obtain ⟨x1, x2⟩ := x
    obtain ⟨y1, y2⟩ := y
    simp only at h1 h2
    rw [h1.1, h1.2, h2.1, h2.2]
  · rw [if_pos h1, if_neg h2] at hxy
    have hy2 : y = ⟨p, c⟩ := by rw [← hxy, h1.1]
    exact absurd (hy2 ▸ hy) hc
  · rw [if_neg h1, if_pos h2] at hxy
    have hx2 : x = ⟨p, c⟩ := by rw [hxy, h2.1]
    exact absurd (hx2 ▸ hx) hc
  · rw [if_neg h1, if_neg h2] at hxy
    exact hxy

theorem filter_updateReviewer (rows : List ReviewerRow) (c p o q : Nat) :
    ((updateReviewer rows c p o).filter fun r => r.pr_id = q) =
      updateReviewer (rows.filter fun r => r.pr_id = q) c p o := by
  unfold updateReviewer
  rw [List.filter_map]
  congr 1
  apply List.filter_congr
  intro r _
  simp only [Function.comp]
  split <;> rfl

theorem updateReviewer_length (rows : List ReviewerRow) (c p o : Nat) :
    (updateReviewer rows c p o).length = rows.length := by
  unfold updateReviewer
  exact List.length_map _ _

theorem filter_updateReviewer_of_ne (rows : List ReviewerRow) (c p o q : Nat) (h : q ≠ p) :
    ((updateReviewer rows c p o).filter fun r => r.pr_id = q) =
      rows.filter fun r => r.pr_id = q := by
  rw [filter_updateReviewer]
  unfold updateReviewer
  conv_rhs => rw [← List.map_id (rows.filter fun r => r.pr_id = q)]
  apply List.map_congr_left
  intro r hr
  have hrq : r.pr_id = q := by simpa using (List.mem_filter.mp hr).2
  rw [if_neg (fun hc => h (hrq ▸ hc.1)), id]

theorem deleteReviewer_sublist (rows : List ReviewerRow) (p u : Nat) :
    (deleteReviewer rows p u).Sublist rows :=
  List.filter_sublist _

theorem mem_deleteReviewer {rows : List ReviewerRow} {p u : Nat} {r : ReviewerRow} :
    r ∈ deleteReviewer rows p u ↔ r ∈ rows ∧ ¬ (r.pr_id = p ∧ r.reviewer_id = u) := by
  unfold deleteReviewer
  rw [List.mem_filter, decide_eq_true_eq]

theorem filter_deleteReviewer (rows : List ReviewerRow) (p u q : Nat) :
    ((deleteReviewer rows p u).filter fun r => r.pr_id = q) =
      deleteReviewer (rows.filter fun r => r.pr_id = q) p u := by
  unfold deleteReviewer
  rw [List.filter_filter, List.filter_filter]
  apply List.filter_congr
  intro r _
  exact Bool.and_comm _ _

theorem filter_deleteReviewer_of_ne (rows : List ReviewerRow) (p u q : Nat) (h : q ≠ p) :
    ((deleteReviewer rows p u).filter fun r => r.pr_id = q) =
      rows.filter fun r => r.pr_id = q := by
  rw [filter_deleteReviewer]
  unfold deleteReviewer
  rw [List.filter_eq_self]
  intro r hr
  have hrq : r.pr_id = q := by simpa using (List.mem_filter.mp hr).2
  simp only [decide_eq_true_eq]
  exact fun hc => h (hrq ▸ hc.1)

theorem RevsOK.update {userIDs : List Nat} {prs : List PullRequestRow}
    {rows : List ReviewerRow} (h : RevsOK userIDs prs rows)
    (hpk : (prs.map fun p => p.id).Nodup) {p : PullRequestRow} (hp : p ∈ prs) {c : Nat}
    (hc : c ∈ userIDs) (hca : c ≠ p.author_id) (hnew : (⟨p.id, c⟩ : ReviewerRow) ∉ rows)
    (o : Nat) : RevsOK userIDs prs (updateReviewer rows c p.id o) where
  pk := updateReviewer_nodup h.pk hnew
  pr := by
    intro r hr
    rcases mem_updateReviewer hr with ⟨hr, _⟩ | ⟨rfl, _⟩
    · exact h.pr r hr
    · exact List.mem_map_of_mem (fun p => p.id) hp
  reviewer := by
    intro r hr
    rcases mem_updateReviewer hr with ⟨hr, _⟩ | ⟨rfl, _⟩
    · exact h.reviewer r hr
    · exact hc
  author := by
    intro q hq r hr hrq
    rcases mem_updateReviewer hr with ⟨hr, _⟩ | ⟨rfl, _⟩
    · exact h.author q hq r hr hrq
    · have : p = q := key_inj (fun p => p.id) hpk hp hq hrq
      subst this
      exact hca
  two := by
    intro q
    rw [filter_updateReviewer, updateReviewer_length]
    exact h.two q

theorem RevsOK.delete {userIDs : List Nat} {prs : List PullRequestRow}
    {rows : List ReviewerRow} (h : RevsOK userIDs prs rows) (p u : Nat) :
    RevsOK userIDs prs (deleteReviewer rows p u) where
  pk := h.pk.sublist (deleteReviewer_sublist _ _ _)
  pr := fun r hr => h.pr r (mem_deleteReviewer.mp hr).1
  reviewer := fun r hr => h.reviewer r (mem_deleteReviewer.mp hr).1
  author := fun q hq r hr => h.author q hq r (mem_deleteReviewer.mp hr).1
  two := by
    intro q
    rw [filter_deleteReviewer]
    exact Nat.le_trans (deleteReviewer_sublist _ _ _).length_le (h.two q)

/-! ## The cascade -/

theorem foldl_inv {σ α : Type} (P : σ → Prop) (f : σ → α → σ) :
    ∀ (l : List α), (∀ st, P st → ∀ a ∈ l, P (f st a)) → ∀ st, P st → P (l.foldl f st)
  | [], _, _, h => h
  | a :: t, hf, st, h =>
    foldl_inv P f t (fun st' h' b hb => hf st' h' b (List.mem_cons_of_mem _ hb)) (f st a)
      (hf st h a (List.mem_cons_self _ _))

/-- The candidates of one repair of the cascade. -/
theorem cascadeStep_eq (activeUserIDs : List Nat) (uid : Nat) (st : CascadeState)
    (row : Nat × Nat) :
    (activeUserIDs.filter (fun c => c ≠ row.2 ∧
        c ∉ ((st.pr_reviewers.filter fun r => r.pr_id = row.1).map
          fun r => r.reviewer_id).filter fun r => r ≠ uid) = [] ∧
      cascadeStep activeUserIDs uid st row =
        { st with pr_reviewers := deleteReviewer st.pr_reviewers row.1 uid
                  removedCount := st.removedCount + 1 }) ∨
    (∃ c, c ∈ activeUserIDs.filter (fun c => c ≠ row.2 ∧
        c ∉ ((st.pr_reviewers.filter fun r => r.pr_id = row.1).map
          fun r => r.reviewer_id).filter fun r => r ≠ uid) ∧
      cascadeStep activeUserIDs uid st row =
        { pr_reviewers := updateReviewer st.pr_reviewers c row.1 uid
          reassignedCount := st.reassignedCount + 1
          removedCount := st.removedCount
          rnd := (Shuffle (activeUserIDs.filter (fun c => c ≠ row.2 ∧
            c ∉ ((st.pr_reviewers.filter fun r => r.pr_id = row.1).map
              fun r => r.reviewer_id).filter fun r => r ≠ uid)) st.rnd).2 }) := by
  unfold cascadeStep
  simp only []
  split
  · rename_i heq
    left
    exact ⟨heq, rfl⟩
  · rename_i c cs heq
    right
    refine ⟨(Shuffle (c :: cs) st.rnd).1.headD c, ?_, ?_⟩
    · rw [heq]
      exact Shuffle_headD_mem c cs st.rnd
    · rw [heq]

/-- A candidate of the cascade is an active user of the snapshot, is not the author, and
is not assigned to the pull request (the deactivated user apart). -/
theorem mem_cascade_candidates {activeUserIDs : List Nat} {uid : Nat}
    {rows : List ReviewerRow} {row : Nat × Nat} {c : Nat}
    (h : c ∈ activeUserIDs.filter (fun c => c ≠ row.2 ∧
        c ∉ ((rows.filter fun r => r.pr_id = row.1).map
          fun r => r.reviewer_id).filter fun r => r ≠ uid)) :
    c ∈ activeUserIDs ∧ c ≠ row.2 ∧ ((⟨row.1, c⟩ : ReviewerRow) ∈ rows → c = uid) := by
  obtain ⟨h1, h2⟩ := List.mem_filter.mp h
  simp only [decide_eq_true_eq] at h2
  refine ⟨h1, h2.1, fun hm => ?_⟩
  by_contra hne
  apply h2.2
  rw [List.mem_filter]
  refine ⟨List.mem_map.mpr ⟨⟨row.1, c⟩, List.mem_filter.mpr ⟨hm, by simp⟩, rfl⟩, by simpa using hne⟩

theorem cascadeStep_revsOK {userIDs : List Nat} {prs : List PullRequestRow}
    (hpk : (prs.map fun p => p.id).Nodup) {activeUserIDs : List Nat} {uid : Nat}
    (hact : ∀ c ∈ activeUserIDs, c ∈ userIDs) (huid : uid ∉ activeUserIDs)
    {st : CascadeState} (h : RevsOK userIDs prs st.pr_reviewers) {row : Nat × Nat}
    (hrow : ∃ p ∈ prs, p.id = row.1 ∧ p.author_id = row.2) :
    RevsOK userIDs prs (cascadeStep activeUserIDs uid st row).pr_reviewers := by
  rcases cascadeStep_eq activeUserIDs uid st row with ⟨_, he⟩ | ⟨c, hc, he⟩
  · rw [he]
    exact h.delete _ _
  · rw [he]
    obtain ⟨p, hp, hp1, hp2⟩ := hrow
    obtain ⟨hc1, hc2, hc3⟩ := mem_cascade_candidates hc
    have := h.update hpk hp (hact c hc1) (hp2 ▸ hc2)
      (fun hm => huid ((hc3 (hp1 ▸ hm)) ▸ hc1)) uid
    rw [hp1] at this
    exact this

theorem mem_prRows {prs : List PullRequestRow} {rows : List ReviewerRow} {uid : Nat}
    {row : Nat × Nat}
    (h : row ∈ rows.flatMap fun r =>
      (prs.filter fun pr => r.pr_id = pr.id ∧ r.reviewer_id = uid ∧ pr.status = .OPEN).map
        fun pr => (pr.id, pr.author_id)) :
    ∃ p ∈ prs, p.id = row.1 ∧ p.author_id = row.2 ∧ p.status = .OPEN ∧
      (⟨row.1, uid⟩ : ReviewerRow) ∈ rows := by
  obtain ⟨r, hr, hrow⟩ := List.mem_flatMap.mp h
  obtain ⟨p, hp, rfl⟩ := List.mem_map.mp hrow
  obtain ⟨hp1, hp2⟩ := List.mem_filter.mp hp
  simp only [decide_eq_true_eq] at hp2
  refine ⟨p, hp1, rfl, rfl, hp2.2.2, ?_⟩
  obtain ⟨r1, r2⟩ := r
  simp only at hp2
  rw [← hp2.1, ← hp2.2.1]
  exact hr

theorem cascadeUser_revsOK {userIDs : List Nat} {prs : List PullRequestRow}
    (hpk : (prs.map fun p => p.id).Nodup) {activeUserIDs : List Nat} {uid : Nat}
    (hact : ∀ c ∈ activeUserIDs, c ∈ userIDs) (huid : uid ∉ activeUserIDs)
    {st : CascadeState} (h : RevsOK userIDs prs st.pr_reviewers) :
    RevsOK userIDs prs (cascadeUser prs activeUserIDs st uid).pr_reviewers := by
  unfold cascadeUser
  simp only []
  refine foldl_inv (fun st' => RevsOK userIDs prs st'.pr_reviewers) _ _ ?_ st h
  intro st' h' row hrow
  obtain ⟨p, hp, hp1, hp2, _⟩ := mem_prRows hrow
  exact cascadeStep_revsOK hpk hact huid h' ⟨p, hp, hp1, hp2⟩

/-! ### Deactivation -/

theorem deactivateUser_id (users : List UserRow) (id : Nat) :
    (deactivateUser users id).map (fun u => u.id) = users.map fun u => u.id := by
  unfold deactivateUser
  rw [List.map_map]
  apply List.map_congr_left
  intro u _
  simp only [Function.comp]
  split <;> rfl

theorem deactivateUser_user_id (users : List UserRow) (id : Nat) :
    (deactivateUser users id).map (fun u => u.user_id) = users.map fun u => u.user_id := by
  unfold deactivateUser
  rw [List.map_map]
  apply List.map_congr_left
  intro u _
  simp only [Function.comp]
  split <;> rfl

theorem deactivateUser_team_id (users : List UserRow) (id : Nat) :
    (deactivateUser users id).map (fun u => u.team_id) = users.map fun u => u.team_id := by
  unfold deactivateUser
  rw [List.map_map]
  apply List.map_congr_left
  intro u _
  simp only [Function.comp]
  split <;> rfl

theorem deactivateAll_id (ds : List (Nat × String)) (users : List UserRow) :
    (ds.foldl (fun us u => deactivateUser us u.1) users).map (fun u => u.id) =
      users.map fun u => u.id := by
  induction ds generalizing users with
  | nil => rfl
  | cons d t ih => rw [List.foldl_cons, ih, deactivateUser_id]

theorem deactivateAll_user_id (ds : List (Nat × String)) (users : List UserRow) :
    (ds.foldl (fun us u => deactivateUser us u.1) users).map (fun u => u.user_id) =
      users.map fun u => u.user_id := by
  induction ds generalizing users with
  | nil => rfl
  | cons d t ih => rw [List.foldl_cons, ih, deactivateUser_user_id]

theorem deactivateAll_team_id (ds : List (Nat × String)) (users : List UserRow) :
    (ds.foldl (fun us u => deactivateUser us u.1) users).map (fun u => u.team_id) =
      users.map fun u => u.team_id := by
  induction ds generalizing users with
  | nil => rfl
  | cons d t ih => rw [List.foldl_cons, ih, deactivateUser_team_id]

/-- A row of the table after the deactivations is a row of the table before, with the same
id, external id, name and team, inactive when it is one of the deactivated users and with
its previous flag otherwise. -/
theorem mem_deactivateAll (ds : List (Nat × String)) :
    ∀ (users : List UserRow) (u : UserRow),
      u ∈ ds.foldl (fun us u => deactivateUser us u.1) users →
      ∃ v ∈ users, u.id = v.id ∧ u.user_id = v.user_id ∧ u.username = v.username ∧
        u.team_id = v.team_id ∧
        ((v.id ∈ ds.map fun d => d.1) → u.is_active = 0) ∧
        ((v.id ∉ ds.map fun d => d.1) → u.is_active = v.is_active) ∧
        (u.is_active = 0 ∨ u.is_active = v.is_active) := by
  induction ds with
  | nil =>
    intro users u hu
    exact ⟨u, hu, rfl, rfl, rfl, rfl, fun h => (by cases h), fun _ => rfl, Or.inr rfl⟩
  | cons d t ih =>
    intro users u hu
    rw [List.foldl_cons] at hu
    obtain ⟨v, hv, h1, h2, h3, h4, h5, h6, h7⟩ := ih _ u hu
    unfold deactivateUser at hv
    obtain ⟨w, hw, rfl⟩ := List.mem_map.mp hv
    by_cases hd : w.id = d.1
    · rw [if_pos hd] at h1 h2 h3 h4 h5 h6 h7
      simp only at h1 h2 h3 h4 h5 h6 h7
      have h0 : u.is_active = 0 := by
        rcases h7 with h | h
        · exact h
        · exact h
      exact ⟨w, hw, h1, h2, h3, h4, fun _ => h0, fun hn => absurd (by simp [hd]) hn, Or.inl h0⟩
    · rw [if_neg hd] at h1 h2 h3 h4 h5 h6 h7
      refine ⟨w, hw, h1, h2, h3, h4, ?_, ?_, h7⟩
      · intro hm
        rw [List.map_cons, List.mem_cons] at hm
        rcases hm with hm | hm
        · exact absurd hm hd
        · exact h5 hm
      · intro hm
        rw [List.map_cons, List.mem_cons, not_or] at hm
        exact h6 hm.2

/-- A deactivated user is not in the snapshot of active users. -/
theorem not_mem_active_of_deactivated (ds : List (Nat × String)) (users : List UserRow)
    (teamID : Nat) {uid : Nat} (h : uid ∈ ds.map fun d => d.1) :
    uid ∉ ((ds.foldl (fun us u => deactivateUser us u.1) users).filter
      fun u => u.team_id = teamID ∧ u.is_active = 1).map fun u => u.id := by
  intro hm
  obtain ⟨u, hu, rfl⟩ := List.mem_map.mp hm
  obtain ⟨hu1, hu2⟩ := List.mem_filter.mp hu
  simp only [decide_eq_true_eq] at hu2
  obtain ⟨v, _, h1, _, _, _, h5, _, _⟩ := mem_deactivateAll ds users u hu1
  have := h5 (h1 ▸ h)
  omega

/-! ### What the cascade touches -/

theorem cascadeStep_mem {activeUserIDs : List Nat} {uid : Nat} {st : CascadeState}
    {row : Nat × Nat} {r : ReviewerRow}
    (h : r ∈ (cascadeStep activeUserIDs uid st row).pr_reviewers) :
    r ∈ st.pr_reviewers ∨ r.reviewer_id ∈ activeUserIDs := by
  rcases cascadeStep_eq activeUserIDs uid st row with ⟨_, he⟩ | ⟨c, hc, he⟩
  · rw [he] at h
    exact Or.inl (mem_deleteReviewer.mp h).1
  · rw [he] at h
    rcases mem_updateReviewer h with ⟨h, _⟩ | ⟨rfl, _⟩
    · exact Or.inl h
    · exact Or.inr (mem_cascade_candidates hc).1

theorem cascadeUser_mem {prs : List PullRequestRow} {activeUserIDs : List Nat} {uid : Nat}
    {st : CascadeState} {r : ReviewerRow}
    (h : r ∈ (cascadeUser prs activeUserIDs st uid).pr_reviewers) :
    r ∈ st.pr_reviewers ∨ r.reviewer_id ∈ activeUserIDs := by
  unfold cascadeUser at h
  simp only [] at h
  revert h r
  refine foldl_inv (fun st' : CascadeState => ∀ {r : ReviewerRow}, r ∈ st'.pr_reviewers →
    r ∈ st.pr_reviewers ∨ r.reviewer_id ∈ activeUserIDs) _ _ ?_ st (fun h => Or.inl h)
  intro st' h' row _ r hr
  rcases cascadeStep_mem hr with hr | hr
  · exact h' hr
  · exact Or.inr hr

/-- A row of the assignment table after the cascade is a row from before it, or names a
user of the snapshot of active users. -/
theorem cascade_mem {prs : List PullRequestRow} {activeUserIDs : List Nat}
    (ds : List (Nat × String)) (st : CascadeState) {r : ReviewerRow}
    (h : r ∈ (ds.foldl (fun st u => cascadeUser prs activeUserIDs st u.1) st).pr_reviewers) :
    r ∈ st.pr_reviewers ∨ r.reviewer_id ∈ activeUserIDs := by
  revert h r
  refine foldl_inv (fun st' : CascadeState => ∀ {r : ReviewerRow}, r ∈ st'.pr_reviewers →
    r ∈ st.pr_reviewers ∨ r.reviewer_id ∈ activeUserIDs) _ ds ?_ st (fun h => Or.inl h)
  intro st' h' d _ r hr
  rcases cascadeUser_mem hr with hr | hr
  · exact h' hr
  · exact Or.inr hr

theorem cascadeStep_filter {activeUserIDs : List Nat} {uid : Nat} {st : CascadeState}
    {row : Nat × Nat} {q : Nat} (hq : q ≠ row.1) :
    ((cascadeStep activeUserIDs uid st row).pr_reviewers.filter fun r => r.pr_id = q) =
      st.pr_reviewers.filter fun r => r.pr_id = q := by
  rcases cascadeStep_eq activeUserIDs uid st row with ⟨_, he⟩ | ⟨c, _, he⟩
  · rw [he]
    exact filter_deleteReviewer_of_ne _ _ _ _ hq
  · rw [he]
    exact filter_updateReviewer_of_ne _ _ _ _ _ hq

theorem cascadeUser_filter {prs : List PullRequestRow} (hpk : (prs.map fun p => p.id).Nodup)
    {activeUserIDs : List Nat} {uid : Nat} {st : CascadeState} {p : PullRequestRow}
    (hp : p ∈ prs) (hst : p.status = .MERGED) :
    ((cascadeUser prs activeUserIDs st uid).pr_reviewers.filter fun r => r.pr_id = p.id) =
      st.pr_reviewers.filter fun r => r.pr_id = p.id := by
  unfold cascadeUser
  simp only []
  refine foldl_inv (fun st' : CascadeState =>
    (st'.pr_reviewers.filter fun r => r.pr_id = p.id) =
      st.pr_reviewers.filter fun r => r.pr_id = p.id) _ _ ?_ st rfl
  intro st' h' row hrow
  obtain ⟨q, hq, hq1, _, hq3, _⟩ := mem_prRows hrow
  rw [← h']
  refine cascadeStep_filter fun e => ?_
  have : p = q := key_inj (fun p : PullRequestRow => p.id) hpk hp hq (e.trans hq1.symm)
  subst this
  rw [hst] at hq3
  cases hq3

/-- The cascade leaves the assignment rows of a merged pull request as they are. -/
theorem cascade_filter {prs : List PullRequestRow} (hpk : (prs.map fun p => p.id).Nodup)
    {activeUserIDs : List Nat} (ds : List (Nat × String)) (st : CascadeState)
    {p : PullRequestRow} (hp : p ∈ prs) (hst : p.status = .MERGED) :
    ((ds.foldl (fun st u => cascadeUser prs activeUserIDs st u.1) st).pr_reviewers.filter
        fun r => r.pr_id = p.id) =
      st.pr_reviewers.filter fun r => r.pr_id = p.id := by
  refine foldl_inv (fun st' : CascadeState =>
    (st'.pr_reviewers.filter fun r => r.pr_id = p.id) =
      st.pr_reviewers.filter fun r => r.pr_id = p.id) _ ds ?_ st rfl
  intro st' h' d _
  rw [← h']
  exact cascadeUser_filter hpk hp hst

/-! ## Preservation of the invariants -/

theorem Inv.revsOK {s : Store} (h : Inv s) :
    RevsOK (s.users.map fun u => u.id) s.pull_requests s.pr_reviewers where
  pk := h.schema.revs_pk
  pr := h.schema.revs_pr
  reviewer := h.schema.revs_reviewer
  author := h.author_not_reviewer
  two := h.at_most_two

/-- The invariants after a change of `users` that keeps ids, external ids and teams, and a
change of `pr_reviewers` that keeps its own part of them. -/
theorem Inv.replace_users_revs {s : Store} (h : Inv s) {users : List UserRow}
    {rows : List ReviewerRow}
    (hid : users.map (fun u => u.id) = s.users.map fun u => u.id)
    (hext : users.map (fun u => u.user_id) = s.users.map fun u => u.user_id)
    (hteam : users.map (fun u => u.team_id) = s.users.map fun u => u.team_id)
    (hr : RevsOK (s.users.map fun u => u.id) s.pull_requests rows) :
    Inv { s with users := users, pr_reviewers := rows } where
  schema :=
    { teams_pk := h.schema.teams_pk
      teams_name := h.schema.teams_name
      users_pk := by simpa only [hid] using h.schema.users_pk
      users_user_id := by simpa only [hext] using h.schema.users_user_id
      users_team := by
        intro u hu
        have : u.team_id ∈ users.map fun u => u.team_id := List.mem_map_of_mem _ hu
        rw [hteam] at this
        obtain ⟨v, hv, hv2⟩ := List.mem_map.mp this
        rw [← hv2]
        exact h.schema.users_team v hv
      prs_pk := h.schema.prs_pk
      prs_pull_request_id := h.schema.prs_pull_request_id
      prs_author := by
        intro p hp
        simp only [hid]
        exact h.schema.prs_author p hp
      revs_pk := hr.pk
      revs_pr := hr.pr
      revs_reviewer := by
        intro r hr'
        simp only [hid]
        exact hr.reviewer r hr' }
  author_not_reviewer := hr.author
  at_most_two := hr.two
  merged_stamp := h.merged_stamp

/-! ### `SetUserIsActive` -/

theorem SetUserIsActive_store (s : Store) (userID : String) (isActive : Bool) :
    (SetUserIsActive s userID isActive).2 =
      { s with users := s.users.map fun u =>
          if u.user_id = userID then { u with is_active := boolToInt isActive } else u } := by
  unfold SetUserIsActive
  simp only []
  split
  · rfl
  · split <;> rfl

theorem SetUserIsActive_inv {s : Store} (h : Inv s) (userID : String) (isActive : Bool) :
    Inv (SetUserIsActive s userID isActive).2 := by
  rw [SetUserIsActive_store]
  refine h.replace_users_revs ?_ ?_ ?_ h.revsOK <;>
  · rw [List.map_map]
    apply List.map_congr_left
    intro u _
    simp only [Function.comp]
    split <;> rfl

/-! ### `MergePullRequest` -/

/-- The statement `UPDATE pull_requests SET status = 'MERGED', merged_at = CURRENT_TIMESTAMP
WHERE id = ?`, as the source applies it. -/
theorem MergePullRequest_store (s : Store) (now : Nat) (prID : String) :
    (MergePullRequest s now prID).2 = s ∨
    ∃ row ∈ s.pull_requests, row.pull_request_id = prID ∧ row.status ≠ .MERGED ∧
      (MergePullRequest s now prID).2 =
        { s with pull_requests := s.pull_requests.map fun pr =>
            if pr.id = row.id then { pr with status := .MERGED, merged_at := some now }
            else pr } := by
  unfold MergePullRequest
  split
  · left; rfl
  · rename_i row hfind
    by_cases hs : row.status = .MERGED
    · left
      simp [hs]
    · right
      refine ⟨row, List.mem_of_find?_eq_some hfind, ?_, hs, ?_⟩
      · simpa using List.find?_some hfind
      · simp [hs]

theorem merge_rows_mem {prs : List PullRequestRow} {i now : Nat} {p : PullRequestRow}
    (hp : p ∈ prs.map fun pr =>
      if pr.id = i then { pr with status := .MERGED, merged_at := some now } else pr) :
    ∃ q ∈ prs, p.id = q.id ∧ p.pull_request_id = q.pull_request_id ∧ p.name = q.name ∧
      p.author_id = q.author_id ∧ p.created_at = q.created_at ∧
      ((q.id = i ∧ p.status = .MERGED ∧ p.merged_at = some now) ∨
       (q.id ≠ i ∧ p = q)) := by
  obtain ⟨q, hq, rfl⟩ := List.mem_map.mp hp
  refine ⟨q, hq, ?_⟩
  by_cases hi : q.id = i
  · rw [if_pos hi]
    exact ⟨rfl, rfl, rfl, rfl, rfl, Or.inl ⟨hi, rfl, rfl⟩⟩
  · rw [if_neg hi]
    exact ⟨rfl, rfl, rfl, rfl, rfl, Or.inr ⟨hi, rfl⟩⟩

theorem MergePullRequest_inv {s : Store} (h : Inv s) (now : Nat) (prID : String) :
    Inv (MergePullRequest s now prID).2 := by
  rcases MergePullRequest_store s now prID with he | ⟨row, _, _, _, he⟩
  · rw [he]; exact h
  · rw [he]
    have hid : (s.pull_requests.map fun pr =>
        if pr.id = row.id then { pr with status := .MERGED, merged_at := some now }
        else pr).map (fun p => p.id) = s.pull_requests.map fun p => p.id := by
      rw [List.map_map]
      apply List.map_congr_left
      intro u _
      simp only [Function.comp]
      split <;> rfl
    have hext : (s.pull_requests.map fun pr =>
        if pr.id = row.id then { pr with status := .MERGED, merged_at := some now }
        else pr).map (fun p => p.pull_request_id) =
          s.pull_requests.map fun p => p.pull_request_id := by
      rw [List.map_map]
      apply List.map_congr_left
      intro u _
      simp only [Function.comp]
      split <;> rfl
    exact
      { schema :=
          { teams_pk := h.schema.teams_pk
            teams_name := h.schema.teams_name
            users_pk := h.schema.users_pk
            users_user_id := h.schema.users_user_id
            users_team := h.schema.users_team
            prs_pk := by simpa only [hid] using h.schema.prs_pk
            prs_pull_request_id := by simpa only [hext] using h.schema.prs_pull_request_id
            prs_author := by
              intro p hp
              obtain ⟨q, hq, _, _, _, ha, _⟩ := merge_rows_mem hp
              rw [ha]
              exact h.schema.prs_author q hq
            revs_pk := h.schema.revs_pk
            revs_pr := by
              intro r hr
              simp only [hid]
              exact h.schema.revs_pr r hr
            revs_reviewer := h.schema.revs_reviewer }
        author_not_reviewer := by
          intro p hp r hr hrp
          obtain ⟨q, hq, hi, _, _, ha, _⟩ := merge_rows_mem hp
          rw [ha]
          exact h.author_not_reviewer q hq r hr (hrp.trans hi)
        at_most_two := h.at_most_two
        merged_stamp := by
          intro p hp
          obtain ⟨q, hq, _, _, _, _, _, hc⟩ := merge_rows_mem hp
          rcases hc with ⟨_, h1, h2⟩ | ⟨_, rfl⟩
          · simp [h1, h2]
          · exact h.merged_stamp p hq }

/-! ### `ReassignReviewer` -/

theorem mem_reassignCandidates {s : Store} {prIntID authorIntID oldIntID teamID : Nat}
    {c : Nat × String} (h : c ∈ reassignCandidates s prIntID authorIntID oldIntID teamID) :
    ∃ u ∈ s.users, u.id = c.1 ∧ u.user_id = c.2 ∧ u.team_id = teamID ∧ u.is_active = 1 ∧
      u.id ≠ oldIntID ∧ u.id ≠ authorIntID ∧ (⟨prIntID, u.id⟩ : ReviewerRow) ∉ s.pr_reviewers := by
  unfold reassignCandidates at h
  obtain ⟨u, hu, rfl⟩ := List.mem_map.mp h
  obtain ⟨hu1, hu2⟩ := List.mem_filter.mp hu
  obtain ⟨hu3, hu4⟩ := List.mem_filter.mp hu1
  simp only [decide_eq_true_eq] at hu2 hu4
  refine ⟨u, hu3, rfl, rfl, hu4.1, hu4.2, hu2.1, hu2.2.1, fun hm => hu2.2.2 ?_⟩
  exact List.mem_map.mpr ⟨⟨prIntID, u.id⟩, List.mem_filter.mpr ⟨hm, by simp⟩, rfl⟩

/-- The store after `ReassignReviewer`: untouched, or one assignment repointed to a
candidate. -/
theorem ReassignReviewer_store (s : Store) (rnd : Rand) (prID oldUserID : String) :
    (ReassignReviewer s rnd prID oldUserID).2 = s ∨
    ∃ row ∈ s.pull_requests, ∃ old ∈ s.users, ∃ c ∈ s.users,
      row.pull_request_id = prID ∧ row.status ≠ .MERGED ∧ old.user_id = oldUserID ∧
      (⟨row.id, old.id⟩ : ReviewerRow) ∈ s.pr_reviewers ∧
      (c.id, c.user_id) ∈ reassignCandidates s row.id row.author_id old.id old.team_id ∧
      (c.team_id = old.team_id ∧ c.is_active = 1 ∧ c.id ≠ old.id ∧ c.id ≠ row.author_id ∧
        (⟨row.id, c.id⟩ : ReviewerRow) ∉ s.pr_reviewers) ∧
      (ReassignReviewer s rnd prID oldUserID).2 =
        { s with pr_reviewers := updateReviewer s.pr_reviewers c.id row.id old.id } := by
  unfold ReassignReviewer
  split
  · left; rfl
  · rename_i row hrow
    simp only []
    split
    · left; rfl
    · rename_i hst
      split
      · left; rfl
      · rename_i old hold
        split
        · left; rfl
        · rename_i r hr
          split
          · left; rfl
          · rename_i c cs hcs
            right
            have hmem : (Shuffle (c :: cs) rnd).1.headD c ∈
                reassignCandidates s row.id row.author_id old.id old.team_id := by
              rw [hcs]
              exact Shuffle_headD_mem c cs rnd
            obtain ⟨u, hu, hu1, hu2, hu3⟩ := mem_reassignCandidates hmem
            refine ⟨row, List.mem_of_find?_eq_some hrow, old, List.mem_of_find?_eq_some hold,
              u, hu, ?_, hst, ?_, ?_, ?_, hu3, ?_⟩
            · simpa using List.find?_some hrow
            · simpa using List.find?_some hold
            · have h1 := List.mem_of_find?_eq_some hr
              have h2 := List.find?_some hr
              simp only [decide_eq_true_eq] at h2
              obtain ⟨r1, r2⟩ := r
              simp only at h2
              rw [← h2.1, ← h2.2]
              exact h1
            · rw [hu1, hu2]
              exact hmem
            · rw [hu1]
              split <;> rfl

theorem ReassignReviewer_inv {s : Store} (h : Inv s) (rnd : Rand) (prID oldUserID : String) :
    Inv (ReassignReviewer s rnd prID oldUserID).2 := by
  rcases ReassignReviewer_store s rnd prID oldUserID with he |
    ⟨row, hrow, old, _, c, hc, _, _, _, _, _, hc2, he⟩
  · rw [he]; exact h
  · rw [he]
    exact h.replace_users_revs rfl rfl rfl
      (h.revsOK.update h.schema.prs_pk hrow (List.mem_map_of_mem (fun u => u.id) hc)
        hc2.2.2.2.1 hc2.2.2.2.2 old.id)

/-! ### `BulkDeactivateUsersAndReassign` -/

/-- The store after `BulkDeactivateUsersAndReassign`: untouched, or the named users
deactivated and the cascade run over their open reviews. -/
theorem BulkDeactivateUsersAndReassign_store (s : Store) (rnd : Rand) (teamName : String)
    (userIDs : List String) :
    (BulkDeactivateUsersAndReassign s rnd teamName userIDs).2 = s ∨
    ∃ t ∈ s.teams, ∃ ds, t.name = teamName ∧ resolveUsers s.users t.id userIDs = some ds ∧
      (BulkDeactivateUsersAndReassign s rnd teamName userIDs).2 =
        { s with
          users := ds.foldl (fun us u => deactivateUser us u.1) s.users
          pr_reviewers := (ds.foldl
            (fun st u => cascadeUser s.pull_requests
              (((ds.foldl (fun us u => deactivateUser us u.1) s.users).filter
                fun u => u.team_id = t.id ∧ u.is_active = 1).map fun u => u.id) st u.1)
            { pr_reviewers := s.pr_reviewers, reassignedCount := 0, removedCount := 0,
              rnd := rnd }).pr_reviewers } := by
  unfold BulkDeactivateUsersAndReassign
  split
  · left; rfl
  · split
    · left; rfl
    · rename_i t ht
      simp only []
      split
      · left; rfl
      · rename_i ds hds
        right
        exact ⟨t, List.mem_of_find?_eq_some ht, ds, by simpa using List.find?_some ht, hds, rfl⟩

theorem BulkDeactivateUsersAndReassign_inv {s : Store} (h : Inv s) (rnd : Rand)
    (teamName : String) (userIDs : List String) :
    Inv (BulkDeactivateUsersAndReassign s rnd teamName userIDs).2 := by
  rcases BulkDeactivateUsersAndReassign_store s rnd teamName userIDs with he |
    ⟨t, _, ds, _, _, he⟩
  · rw [he]; exact h
  · rw [he]
    refine h.replace_users_revs (deactivateAll_id _ _) (deactivateAll_user_id _ _)
      (deactivateAll_team_id _ _) ?_
    refine foldl_inv
      (fun st : CascadeState =>
        RevsOK (s.users.map fun u => u.id) s.pull_requests st.pr_reviewers) _ ds ?_
      { pr_reviewers := s.pr_reviewers, reassignedCount := 0, removedCount := 0, rnd := rnd }
      h.revsOK
    intro st hst d hd
    refine cascadeUser_revsOK h.schema.prs_pk ?_ ?_ hst
    · intro c hc
      obtain ⟨u, hu, rfl⟩ := List.mem_map.mp hc
      rw [← deactivateAll_id ds s.users]
      exact List.mem_map_of_mem (fun u => u.id) (List.mem_filter.mp hu).1
    · exact not_mem_active_of_deactivated ds s.users t.id (List.mem_map_of_mem (fun d => d.1) hd)

/-! ### `CreatePullRequestWithAutoAssign` -/

theorem shuffleTakeTwo_eq (candidates : List (String × Nat)) (rnd : Rand) :
    shuffleTakeTwo candidates rnd = (Shuffle candidates rnd).1.take 2 := by
  unfold shuffleTakeTwo
  simp only []
  split
  · rfl
  · rename_i h
    exact (List.take_of_length_le (by omega)).symm

theorem shuffleTakeTwo_length (candidates : List (String × Nat)) (rnd : Rand) :
    (shuffleTakeTwo candidates rnd).length = min candidates.length 2 := by
  rw [shuffleTakeTwo_eq, List.length_take, (Shuffle_perm candidates rnd).length_eq]
  exact Nat.min_comm _ _

theorem shuffleTakeTwo_subset {candidates : List (String × Nat)} {rnd : Rand}
    {c : String × Nat} (h : c ∈ shuffleTakeTwo candidates rnd) : c ∈ candidates := by
  rw [shuffleTakeTwo_eq] at h
  exact (Shuffle_perm candidates rnd).subset (List.mem_of_mem_take h)

theorem shuffleTakeTwo_nodup {β : Type} (f : String × Nat → β)
    {candidates : List (String × Nat)} (rnd : Rand) (h : (candidates.map f).Nodup) :
    ((shuffleTakeTwo candidates rnd).map f).Nodup := by
  rw [shuffleTakeTwo_eq]
  have h1 : ((Shuffle candidates rnd).1.map f).Nodup :=
    ((Shuffle_perm candidates rnd).map f).nodup_iff.mpr h
  exact h1.sublist ((List.take_sublist _ _).map f)

theorem mem_createCandidates {s : Store} {teamID authorID : Nat} {c : String × Nat} :
    c ∈ createCandidates s teamID authorID ↔
      ∃ u ∈ s.users, u.user_id = c.1 ∧ u.id = c.2 ∧ u.team_id = teamID ∧ u.is_active = 1 ∧
        u.id ≠ authorID := by
  unfold createCandidates
  constructor
  · intro h
    obtain ⟨u, hu, rfl⟩ := List.mem_map.mp h
    obtain ⟨hu1, hu2⟩ := List.mem_filter.mp hu
    simp only [decide_eq_true_eq] at hu2
    exact ⟨u, hu1, rfl, rfl, hu2.1, hu2.2.1, hu2.2.2⟩
  · rintro ⟨u, hu, h1, h2, h3, h4, h5⟩
    refine List.mem_map.mpr ⟨u, List.mem_filter.mpr ⟨hu, ?_⟩, ?_⟩
    · simp only [decide_eq_true_eq]
      exact ⟨h3, h4, h5⟩
    · rw [h1, h2]

theorem createCandidates_ids_nodup {s : Store} (h : (s.users.map fun u => u.id).Nodup)
    (teamID authorID : Nat) :
    ((createCandidates s teamID authorID).map fun c => c.2).Nodup := by
  unfold createCandidates
  rw [List.map_map]
  exact h.sublist ((List.filter_sublist _).map _)

theorem createCandidates_ext_nodup {s : Store} (h : (s.users.map fun u => u.user_id).Nodup)
    (teamID authorID : Nat) :
    ((createCandidates s teamID authorID).map fun c => c.1).Nodup := by
  unfold createCandidates
  rw [List.map_map]
  exact h.sublist ((List.filter_sublist _).map _)

/-- The store after `CreatePullRequestWithAutoAssign`: untouched, or one pull request and the
rows of its reviewers added. -/
theorem CreatePullRequestWithAutoAssign_store (s : Store) (now : Nat) (rnd : Rand)
    (prID prName authorExternalID : String) :
    (CreatePullRequestWithAutoAssign s now rnd prID prName authorExternalID).2 = s ∨
    ∃ au ∈ s.users, au.user_id = authorExternalID ∧
      (∀ p ∈ s.pull_requests, p.pull_request_id ≠ prID) ∧
      (CreatePullRequestWithAutoAssign s now rnd prID prName authorExternalID).2 =
        { s with
          pull_requests := s.pull_requests ++
            [{ id := nextID (s.pull_requests.map fun pr => pr.id), pull_request_id := prID,
               name := prName, author_id := au.id, status := .OPEN, created_at := now,
               merged_at := none }]
          pr_reviewers := s.pr_reviewers ++
            (shuffleTakeTwo (createCandidates s au.team_id au.id) rnd).map fun c =>
              { pr_id := nextID (s.pull_requests.map fun pr => pr.id), reviewer_id := c.2 } } := by
  unfold CreatePullRequestWithAutoAssign
  split
  · left; rfl
  · rename_i hpr
    split
    · left; rfl
    · rename_i au hau
      right
      refine ⟨au, List.mem_of_find?_eq_some hau, by simpa using List.find?_some hau, ?_, rfl⟩
      intro p hp
      simpa using List.find?_eq_none.mp hpr p hp

theorem createCandidates_chosen {s : Store} {au : UserRow} {rnd : Rand} {nid : Nat}
    {r : ReviewerRow}
    (hr : r ∈ (shuffleTakeTwo (createCandidates s au.team_id au.id) rnd).map
      (fun c => ({ pr_id := nid, reviewer_id := c.2 } : ReviewerRow))) :
    r.pr_id = nid ∧ r.reviewer_id ≠ au.id ∧ r.reviewer_id ∈ s.users.map fun u => u.id := by
  obtain ⟨c, hc, rfl⟩ := List.mem_map.mp hr
  obtain ⟨u, hu, _, hu2, _, _, hu5⟩ := mem_createCandidates.mp (shuffleTakeTwo_subset hc)
  exact ⟨rfl, hu2 ▸ hu5, hu2 ▸ List.mem_map_of_mem (fun u => u.id) hu⟩

theorem CreatePullRequestWithAutoAssign_schemaOK {s : Store} (h : SchemaOK s) (now : Nat)
    (rnd : Rand) (prID prName authorExternalID : String) :
    SchemaOK (CreatePullRequestWithAutoAssign s now rnd prID prName authorExternalID).2 := by
  rcases CreatePullRequestWithAutoAssign_store s now rnd prID prName authorExternalID with
    he | ⟨au, hau, _, hfresh, he⟩
  · rw [he]; exact h
  · rw [he]
    have hnew : ∀ r ∈ s.pr_reviewers, r.pr_id ≠ nextID (s.pull_requests.map fun pr => pr.id) :=
      fun r hr e => nextID_not_mem _ (e ▸ h.revs_pr r hr)
    exact
      { teams_pk := h.teams_pk
        teams_name := h.teams_name
        users_pk := h.users_pk
        users_user_id := h.users_user_id
        users_team := h.users_team
        prs_pk := by
          simp only [List.map_append, List.map_cons, List.map_nil]
          refine List.Nodup.append h.prs_pk (List.nodup_singleton _) ?_
          intro i hi hx
          rw [List.mem_singleton] at hx
          exact nextID_not_mem _ (hx ▸ hi)
        prs_pull_request_id := by
          simp only [List.map_append, List.map_cons, List.map_nil]
          refine List.Nodup.append h.prs_pull_request_id (List.nodup_singleton _) ?_
          intro e he hx
          rw [List.mem_singleton] at hx
          obtain ⟨p, hp, rfl⟩ := List.mem_map.mp he
          exact hfresh p hp hx
        prs_author := by
          intro p hp
          rcases List.mem_append.mp hp with hp | hp
          · exact h.prs_author p hp
          · rw [List.mem_singleton] at hp
            subst hp
            exact List.mem_map_of_mem (fun u => u.id) hau
        revs_pk := by
          refine List.Nodup.append h.revs_pk ?_ ?_
          · have := shuffleTakeTwo_nodup (fun c => c.2) rnd
              (createCandidates_ids_nodup h.users_pk au.team_id au.id)
            refine List.Nodup.of_map (fun r : ReviewerRow => r.reviewer_id) ?_
            rw [List.map_map]
            exact this
          · intro r hr hr2
            exact hnew r hr (createCandidates_chosen hr2).1
        revs_pr := by
          intro r hr
          simp only [List.map_append, List.map_cons, List.map_nil, List.mem_append,
            List.mem_singleton]
          rcases List.mem_append.mp hr with hr | hr
          · exact Or.inl (h.revs_pr r hr)
          · exact Or.inr (createCandidates_chosen hr).1
        revs_reviewer := by
          intro r hr
          rcases List.mem_append.mp hr with hr | hr
          · exact h.revs_reviewer r hr
          · exact (createCandidates_chosen hr).2.2 }

theorem CreatePullRequestWithAutoAssign_inv {s : Store} (h : Inv s) (now : Nat) (rnd : Rand)
    (prID prName authorExternalID : String) :
    Inv (CreatePullRequestWithAutoAssign s now rnd prID prName authorExternalID).2 := by
  have hsch := CreatePullRequestWithAutoAssign_schemaOK h.schema now rnd prID prName
    authorExternalID
  rcases CreatePullRequestWithAutoAssign_store s now rnd prID prName authorExternalID with
    he | ⟨au, hau, _, hfresh, he⟩
  · rw [he]; exact h
  · rw [he] at hsch ⊢
    have hnew : ∀ r ∈ s.pr_reviewers, r.pr_id ≠ nextID (s.pull_requests.map fun pr => pr.id) :=
      fun r hr e => nextID_not_mem _ (e ▸ h.schema.revs_pr r hr)
    exact
      { schema := hsch
        author_not_reviewer := by
          intro p hp r hr hrp
          rcases List.mem_append.mp hp with hp | hp <;> rcases List.mem_append.mp hr with hr | hr
          · exact h.author_not_reviewer p hp r hr hrp
          · have hm : p.id ∈ s.pull_requests.map fun p => p.id := List.mem_map_of_mem _ hp
            rw [← hrp, (createCandidates_chosen hr).1] at hm
            exact absurd hm (nextID_not_mem _)
          · rw [List.mem_singleton] at hp
            subst hp
            exact absurd hrp (hnew r hr)
          · rw [List.mem_singleton] at hp
            subst hp
            exact (createCandidates_chosen hr).2.1
        at_most_two := by
          intro q
          unfold reviewersOf
          simp only [List.filter_append, List.length_append]
          by_cases hq : q = nextID (s.pull_requests.map fun pr => pr.id)
          · have h0 : (s.pr_reviewers.filter fun r => r.pr_id = q) = [] := by
              rw [List.filter_eq_nil_iff]
              intro r hr
              simpa [hq] using hnew r hr
            rw [h0]
            have := (List.filter_sublist
              (p := fun r : ReviewerRow => decide (r.pr_id = q))
              (l := (shuffleTakeTwo (createCandidates s au.team_id au.id) rnd).map
                (fun c => ({ pr_id := nextID (s.pull_requests.map fun pr => pr.id),
                             reviewer_id := c.2 } : ReviewerRow)))).length_le
            have h2 := shuffleTakeTwo_length (createCandidates s au.team_id au.id) rnd
            rw [List.length_map] at this
            simp only [List.length_nil, Nat.zero_add]
            omega
          · have h0 : (((shuffleTakeTwo (createCandidates s au.team_id au.id) rnd).map
                (fun c => ({ pr_id := nextID (s.pull_requests.map fun pr => pr.id),
                             reviewer_id := c.2 } : ReviewerRow))).filter
                  fun r => r.pr_id = q) = [] := by
              rw [List.filter_eq_nil_iff]
              intro r hr
              simpa [(createCandidates_chosen hr).1] using Ne.symm hq
            rw [h0]
            exact h.at_most_two q
        merged_stamp := by
          intro p hp
          rcases List.mem_append.mp hp with hp | hp
          · exact h.merged_stamp p hp
          · rw [List.mem_singleton] at hp
            subst hp
            simp }

/-! ### `CreateTeam` -/

theorem upsertMember_cases (teamID : Nat) (users : List UserRow) (m : TeamMember) :
    ((∀ u ∈ users, u.user_id ≠ m.UserID) ∧
      upsertMember teamID users m =
        users ++ [{ id := nextID (users.map fun u => u.id), user_id := m.UserID,
                    username := m.Username, team_id := teamID,
                    is_active := boolToInt m.IsActive }]) ∨
    ((∃ u ∈ users, u.user_id = m.UserID) ∧
      upsertMember teamID users m =
        users.map fun u =>
          if u.user_id = m.UserID then
            { u with username := m.Username, team_id := teamID,
                     is_active := boolToInt m.IsActive }
          else u) := by
  unfold upsertMember
  split
  · rename_i hf
    left
    exact ⟨fun u hu => by simpa using List.find?_eq_none.mp hf u hu, rfl⟩
  · rename_i u hf
    right
    exact ⟨⟨u, List.mem_of_find?_eq_some hf, by simpa using List.find?_some hf⟩, rfl⟩

theorem upsertMember_id (teamID : Nat) (users : List UserRow) (m : TeamMember) :
    (upsertMember teamID users m).map (fun u => u.id) = users.map (fun u => u.id) ∨
    (upsertMember teamID users m).map (fun u => u.id) =
      users.map (fun u => u.id) ++ [nextID (users.map fun u => u.id)] := by
  rcases upsertMember_cases teamID users m with ⟨_, he⟩ | ⟨_, he⟩
  · right
    rw [he, List.map_append]
    rfl
  · left
    rw [he, List.map_map]
    apply List.map_congr_left
    intro u _
    simp only [Function.comp]
    split <;> rfl

theorem upsertMember_id_nodup {teamID : Nat} {users : List UserRow} (m : TeamMember)
    (h : (users.map fun u => u.id).Nodup) :
    ((upsertMember teamID users m).map fun u => u.id).Nodup := by
  rcases upsertMember_id teamID users m with he | he
  · rw [he]; exact h
  · rw [he]
    refine List.Nodup.append h (List.nodup_singleton _) ?_
    intro i hi hx
    rw [List.mem_singleton] at hx
    exact nextID_not_mem _ (hx ▸ hi)

theorem upsertMember_id_subset {teamID : Nat} {users : List UserRow} (m : TeamMember) {i : Nat}
    (h : i ∈ users.map fun u => u.id) : i ∈ (upsertMember teamID users m).map fun u => u.id := by
  rcases upsertMember_id teamID users m with he | he
  · rw [he]; exact h
  · rw [he]; exact List.mem_append_left _ h

theorem upsertMember_user_id_nodup {teamID : Nat} {users : List UserRow} (m : TeamMember)
    (h : (users.map fun u => u.user_id).Nodup) :
    ((upsertMember teamID users m).map fun u => u.user_id).Nodup := by
  rcases upsertMember_cases teamID users m with ⟨hn, he⟩ | ⟨_, he⟩
  · rw [he, List.map_append]
    refine List.Nodup.append h (List.nodup_singleton _) ?_
    intro e he' hx
    rw [List.map_cons, List.map_nil, List.mem_singleton] at hx
    obtain ⟨u, hu, rfl⟩ := List.mem_map.mp he'
    exact hn u hu hx
  · have : (upsertMember teamID users m).map (fun u => u.user_id) =
        users.map fun u => u.user_id := by
      rw [he, List.map_map]
      apply List.map_congr_left
      intro u _
      simp only [Function.comp]
      split <;> rfl
    rw [this]; exact h

theorem upsertMember_team {teamID : Nat} {users : List UserRow} (m : TeamMember)
    {u : UserRow} (h : u ∈ upsertMember teamID users m) :
    u.team_id = teamID ∨ ∃ v ∈ users, u.team_id = v.team_id := by
  rcases upsertMember_cases teamID users m with ⟨_, he⟩ | ⟨_, he⟩
  · rw [he] at h
    rcases List.mem_append.mp h with h | h
    · exact Or.inr ⟨u, h, rfl⟩
    · rw [List.mem_singleton] at h
      subst h
      exact Or.inl rfl
  · rw [he] at h
    obtain ⟨v, hv, rfl⟩ := List.mem_map.mp h
    by_cases hc : v.user_id = m.UserID
    · rw [if_pos hc]; exact Or.inl rfl
    · rw [if_neg hc]; exact Or.inr ⟨v, hv, rfl⟩

/-- What the member loop of `CreateTeam` keeps: primary key and external id of `users`,
the ids in use, and teams among the given ones. -/
theorem upsertAll_ok (teamIDs : List Nat) {teamID : Nat} (ht : teamID ∈ teamIDs)
    (members : List TeamMember) :
    ∀ users : List UserRow, (users.map fun u => u.id).Nodup →
      (users.map fun u => u.user_id).Nodup → (∀ u ∈ users, u.team_id ∈ teamIDs) →
      ((members.foldl (upsertMember teamID) users).map fun u => u.id).Nodup ∧
      ((members.foldl (upsertMember teamID) users).map fun u => u.user_id).Nodup ∧
      (∀ u ∈ members.foldl (upsertMember teamID) users, u.team_id ∈ teamIDs) ∧
      (∀ i ∈ users.map fun u => u.id,
        i ∈ (members.foldl (upsertMember teamID) users).map fun u => u.id) := by
  induction members with
  | nil => exact fun users h1 h2 h3 => ⟨h1, h2, h3, fun i hi => hi⟩
  | cons m t ih =>
    intro users h1 h2 h3
    rw [List.foldl_cons]
    obtain ⟨k1, k2, k3, k4⟩ := ih (upsertMember teamID users m) (upsertMember_id_nodup m h1)
      (upsertMember_user_id_nodup m h2) (by
        intro u hu
        rcases upsertMember_team m hu with e | ⟨v, hv, e⟩
        · rw [e]; exact ht
        · rw [e]; exact h3 v hv)
    exact ⟨k1, k2, k3, fun i hi => k4 i (upsertMember_id_subset m hi)⟩

/-- The store after `CreateTeam`: untouched, or the team added and its members upserted. -/
theorem CreateTeam_store (s : Store) (teamName : String) (members : List TeamMember) :
    ((∃ t ∈ s.teams, t.name = teamName) ∧ (CreateTeam s teamName members).2 = s) ∨
    ((∀ t ∈ s.teams, t.name ≠ teamName) ∧
      (CreateTeam s teamName members).2 =
        { s with
          teams := s.teams ++ [{ id := nextID (s.teams.map fun t => t.id), name := teamName }]
          users := members.foldl (upsertMember (nextID (s.teams.map fun t => t.id)))
            s.users }) := by
  unfold CreateTeam
  split
  · rename_i t hf
    left
    exact ⟨⟨t, List.mem_of_find?_eq_some hf, by simpa using List.find?_some hf⟩, rfl⟩
  · rename_i hf
    right
    exact ⟨fun t ht => by simpa using List.find?_eq_none.mp hf t ht, rfl⟩

theorem CreateTeam_inv {s : Store} (h : Inv s) (teamName : String) (members : List TeamMember) :
    Inv (CreateTeam s teamName members).2 := by
  rcases CreateTeam_store s teamName members with ⟨_, he⟩ | ⟨hfresh, he⟩
  · rw [he]; exact h
  · rw [he]
    have hmem : nextID (s.teams.map fun t => t.id) ∈
        (s.teams ++ [({ id := nextID (s.teams.map fun t => t.id), name := teamName } :
          TeamRow)]).map fun t => t.id := by
      simp
    obtain ⟨k1, k2, k3, k4⟩ := upsertAll_ok _ hmem members s.users h.schema.users_pk
      h.schema.users_user_id (by
        intro u hu
        rw [List.map_append]
        exact List.mem_append_left _ (h.schema.users_team u hu))
    exact
      { schema :=
          { teams_pk := by
              simp only [List.map_append, List.map_cons, List.map_nil]
              refine List.Nodup.append h.schema.teams_pk (List.nodup_singleton _) ?_
              intro i hi hx
              rw [List.mem_singleton] at hx
              exact nextID_not_mem _ (hx ▸ hi)
            teams_name := by
              simp only [List.map_append, List.map_cons, List.map_nil]
              refine List.Nodup.append h.schema.teams_name (List.nodup_singleton _) ?_
              intro e he' hx
              rw [List.mem_singleton] at hx
              obtain ⟨t, ht, rfl⟩ := List.mem_map.mp he'
              exact hfresh t ht hx
            users_pk := k1
            users_user_id := k2
            users_team := k3
            prs_pk := h.schema.prs_pk
            prs_pull_request_id := h.schema.prs_pull_request_id
            prs_author := fun p hp => k4 _ (h.schema.prs_author p hp)
            revs_pk := h.schema.revs_pk
            revs_pr := h.schema.revs_pr
            revs_reviewer := fun r hr => k4 _ (h.schema.revs_reviewer r hr) }
        author_not_reviewer := h.author_not_reviewer
        at_most_two := h.at_most_two
        merged_stamp := h.merged_stamp }

/-! ### Reachable states -/

theorem Inv.empty : Inv Store.empty where
  schema :=
    { teams_pk := List.nodup_nil
      teams_name := List.nodup_nil
      users_pk := List.nodup_nil
      users_user_id := List.nodup_nil
      users_team := fun _ h => by cases h
      prs_pk := List.nodup_nil
      prs_pull_request_id := List.nodup_nil
      prs_author := fun _ h => by cases h
      revs_pk := List.nodup_nil
      revs_pr := fun _ h => by cases h
      revs_reviewer := fun _ h => by cases h }
  author_not_reviewer := fun _ h => by cases h
  at_most_two := fun _ => Nat.zero_le _
  merged_stamp := fun _ h => by cases h

theorem Call.exec_inv {s : Store} (h : Inv s) (c : Call) : Inv (c.exec s) := by
  cases c with
  | createTeam n ms => exact CreateTeam_inv h n ms
  | setUserIsActive u a => exact SetUserIsActive_inv h u a
  | createPullRequest now rnd p n a => exact CreatePullRequestWithAutoAssign_inv h now rnd p n a
  | mergePullRequest now p => exact MergePullRequest_inv h now p
  | reassignReviewer rnd p o => exact ReassignReviewer_inv h rnd p o
  | bulkDeactivate rnd t us => exact BulkDeactivateUsersAndReassign_inv h rnd t us

theorem runCalls_inv (calls : List Call) : ∀ {s : Store}, Inv s → Inv (runCalls s calls) := by
  induction calls with
  | nil => exact fun h => h
  | cons c t ih => exact fun h => ih (Call.exec_inv h c)

/-- Every reachable state satisfies the schema and the invariants of the engine. -/
theorem Reachable.inv {s : Store} (h : Reachable s) : Inv s := by
  obtain ⟨calls, rfl⟩ := h
  exact runCalls_inv calls Inv.empty

/-! ## The projection `getPullRequestByExternalID` -/

/-- Over rows with pairwise different keys, a join that is empty away from the key of `a`
is the join at `a`. -/
theorem flatMap_key_eq {α β γ : Type} (k : α → γ) (f : α → List β) :
    ∀ (l : List α), (l.map k).Nodup → ∀ a ∈ l, (∀ b ∈ l, k b ≠ k a → f b = []) →
      l.flatMap f = f a
  | [], _, _, h, _ => by cases h
  | x :: t, hn, a, h, hf => by
    rw [List.map_cons, List.nodup_cons] at hn
    rw [List.flatMap_cons]
    rcases List.mem_cons.mp h with rfl | h
    · have : t.flatMap f = [] := by
        rw [List.flatMap_eq_nil_iff]
        intro b hb
        refine hf b (List.mem_cons_of_mem _ hb) fun e => hn.1 ?_
        rw [← e]
        exact List.mem_map_of_mem k hb
      rw [this, List.append_nil]
    · have hx : f x = [] := by
        refine hf x (List.mem_cons_self _ _) fun e => hn.1 ?_
        rw [e]
        exact List.mem_map_of_mem k h
      rw [hx, List.nil_append]
      exact flatMap_key_eq k f t hn.2 a h fun b hb => hf b (List.mem_cons_of_mem _ hb)

theorem filter_id_eq {s : Store} (hpk : (s.users.map fun u => u.id).Nodup) {u : UserRow}
    (hu : u ∈ s.users) {i : Nat} (hi : i = u.id) :
    (s.users.filter fun v => i = v.id) = [u] := by
  subst hi
  exact filter_key_eq (fun u : UserRow => u.id) s.users hpk u hu

theorem find_id_eq {s : Store} (hpk : (s.users.map fun u => u.id).Nodup) {u : UserRow}
    (hu : u ∈ s.users) : userByID s u.id = some u := by
  unfold userByID
  cases hf : s.users.find? fun v => v.id = u.id with
  | none =>
    have := List.find?_eq_none.mp hf u hu
    simp at this
  | some v =>
    have h1 := List.mem_of_find?_eq_some hf
    have h2 := List.find?_some hf
    simp only [decide_eq_true_eq] at h2
    rw [key_inj (fun u : UserRow => u.id) hpk h1 hu h2]

/-- The reviewers listed by the projection are the external ids of the joined user rows. -/
theorem reviewers_join {s : Store} (hpk : (s.pull_requests.map fun p => p.id).Nodup)
    (hext : (s.pull_requests.map fun p => p.pull_request_id).Nodup) {p : PullRequestRow}
    (hp : p ∈ s.pull_requests) (rows : List ReviewerRow) :
    (rows.flatMap fun r =>
      (s.users.filter fun u => r.reviewer_id = u.id).flatMap fun u =>
        (s.pull_requests.filter fun q => r.pr_id = q.id ∧
          q.pull_request_id = p.pull_request_id).map fun _ => u.user_id) =
    ((rows.filter fun r => r.pr_id = p.id).flatMap fun r =>
      s.users.filter fun u => r.reviewer_id = u.id).map fun u => u.user_id := by
  induction rows with
  | nil => rfl
  | cons r t ih =>
    rw [List.flatMap_cons, ih]
    by_cases hr : r.pr_id = p.id
    · have h1 : (s.pull_requests.filter fun q => r.pr_id = q.id ∧
          q.pull_request_id = p.pull_request_id) = [p] := by
        rw [← filter_key_eq (fun q : PullRequestRow => q.id) s.pull_requests hpk p hp]
        apply List.filter_congr
        intro q hq
        simp only [decide_eq_decide]
        constructor
        · exact fun h => hr ▸ h.1
        · intro h
          exact ⟨hr.trans h, (key_inj (fun q : PullRequestRow => q.id) hpk hp hq h) ▸ rfl⟩
      simp only [h1, List.map_cons, List.map_nil]
      rw [List.filter_cons_of_pos (by simpa using hr), List.flatMap_cons, List.map_append]
      congr 1
      induction s.users.filter (fun u => decide (r.reviewer_id = u.id)) with
      | nil => rfl
      | cons u us ih2 => rw [List.flatMap_cons, ih2]; rfl
    · have h1 : (s.pull_requests.filter fun q => r.pr_id = q.id ∧
          q.pull_request_id = p.pull_request_id) = [] := by
        rw [List.filter_eq_nil_iff]
        intro q hq
        simp only [decide_eq_true_eq, not_and]
        intro h1 h2
        have : q = p := key_inj (fun q : PullRequestRow => q.pull_request_id) hext hq hp h2
        exact hr (this ▸ h1)
      simp only [h1, List.map_nil]
      rw [List.filter_cons_of_neg (by simpa using hr)]
      have : ((s.users.filter fun u => r.reviewer_id = u.id).flatMap
          fun _ => ([] : List String)) = [] := by
        rw [List.flatMap_eq_nil_iff]
        exact fun _ _ => rfl
      rw [this, List.nil_append]

/-- The projection of an existing pull request whose author exists, under the keys of the
schema. -/
theorem getPullRequestByExternalID_of_mem {s : Store}
    (hupk : (s.users.map fun u => u.id).Nodup)
    (hpk : (s.pull_requests.map fun p => p.id).Nodup)
    (hext : (s.pull_requests.map fun p => p.pull_request_id).Nodup)
    {p : PullRequestRow} (hp : p ∈ s.pull_requests) {au : UserRow} (hau : au ∈ s.users)
    (ha : p.author_id = au.id) :
    getPullRequestByExternalID s p.pull_request_id =
      .ok
        { ID := p.pull_request_id
          Name := p.name
          AuthorID := au.user_id
          Status := p.status
          AssignedReviewers := (assignedUsers s p.id).map fun u => u.user_id
          CreatedAt := some p.created_at
          MergedAt := p.merged_at } := by
  have hj : (s.pull_requests.flatMap fun pr =>
      (s.users.filter fun au => pr.author_id = au.id ∧
        pr.pull_request_id = p.pull_request_id).map fun au => (pr, au)) = [(p, au)] := by
    rw [flatMap_key_eq (fun q : PullRequestRow => q.pull_request_id) _ s.pull_requests hext p hp]
    · have : (s.users.filter fun v => p.author_id = v.id ∧
          p.pull_request_id = p.pull_request_id) = [au] := by
        rw [← filter_id_eq hupk hau ha]
        apply List.filter_congr
        intro v _
        simp
      rw [this]
      rfl
    · intro b _ hb
      have : (s.users.filter fun v => b.author_id = v.id ∧
          b.pull_request_id = p.pull_request_id) = [] := by
        rw [List.filter_eq_nil_iff]
        intro v _
        simp only [decide_eq_true_eq, not_and]
        exact fun _ => hb
      rw [this]
      rfl
  unfold getPullRequestByExternalID
  simp only [hj, List.head?_cons]
  rw [reviewers_join hpk hext hp]
  rfl

/-- The projection fails only with `ErrNotFound`. -/
theorem getPullRequestByExternalID_error {s : Store} {prID : String} {e : Error}
    (h : getPullRequestByExternalID s prID = .error e) : e = .ErrNotFound := by
  unfold getPullRequestByExternalID at h
  simp only [] at h
  split at h
  · injection h with h; exact h.symm
  · cases h

/-- The projection succeeds as soon as some pull request with the external id has its author in
`users`. -/
theorem getPullRequestByExternalID_isOk {s : Store} {prID : String} {p : PullRequestRow}
    (hp : p ∈ s.pull_requests) (hid : p.pull_request_id = prID) {au : UserRow}
    (hau : au ∈ s.users) (ha : p.author_id = au.id) :
    ∃ pr, getPullRequestByExternalID s prID = .ok pr := by
  have hm : (p, au) ∈ s.pull_requests.flatMap fun pr =>
      (s.users.filter fun au => pr.author_id = au.id ∧ pr.pull_request_id = prID).map
        fun au => (pr, au) := by
    refine List.mem_flatMap.mpr ⟨p, hp, List.mem_map.mpr ⟨au, List.mem_filter.mpr ⟨hau, ?_⟩, rfl⟩⟩
    simp only [decide_eq_true_eq]
    exact ⟨ha, hid⟩
  unfold getPullRequestByExternalID
  simp only []
  split
  · rename_i hh
    rw [List.head?_eq_none_iff] at hh
    rw [hh] at hm
    cases hm
  · exact ⟨_, rfl⟩

/-- Under the keys and foreign keys of the schema, the joined user rows carry exactly the
reviewer ids of the assignment rows, in the same order. -/
theorem assignedUsers_ids {s : Store} (hupk : (s.users.map fun u => u.id).Nodup)
    (hfk : ∀ r ∈ s.pr_reviewers, r.reviewer_id ∈ s.users.map fun u => u.id) (prIntID : Nat) :
    (assignedUsers s prIntID).map (fun u => u.id) =
      (reviewersOf s prIntID).map fun r => r.reviewer_id := by
  unfold assignedUsers
  have hsub : ∀ r ∈ reviewersOf s prIntID, r.reviewer_id ∈ s.users.map fun u => u.id :=
    fun r hr => hfk r (List.mem_filter.mp hr).1
  generalize reviewersOf s prIntID = rows at hsub
  induction rows with
  | nil => rfl
  | cons r t ih =>
    rw [List.flatMap_cons, List.map_append, ih fun r hr => hsub r (List.mem_cons_of_mem _ hr)]
    obtain ⟨u, hu, hu2⟩ := List.mem_map.mp (hsub r (List.mem_cons_self _ _))
    rw [filter_id_eq hupk hu hu2.symm]
    simp only [List.map_cons, List.map_nil, List.singleton_append]
    rw [hu2]

theorem mem_assignedUsers {s : Store} {prIntID : Nat} {u : UserRow}
    (h : u ∈ assignedUsers s prIntID) :
    u ∈ s.users ∧ (⟨prIntID, u.id⟩ : ReviewerRow) ∈ s.pr_reviewers := by
  unfold assignedUsers reviewersOf at h
  obtain ⟨r, hr, hu⟩ := List.mem_flatMap.mp h
  obtain ⟨hr1, hr2⟩ := List.mem_filter.mp hr
  obtain ⟨hu1, hu2⟩ := List.mem_filter.mp hu
  simp only [decide_eq_true_eq] at hr2 hu2
  refine ⟨hu1, ?_⟩
  obtain ⟨r1, r2⟩ := r
  simp only at hr2 hu2
  rw [← hr2, ← hu2]
  exact hr1

/-! ## Frames of the operations on `pr_reviewers` -/

theorem CreateTeam_revs (s : Store) (teamName : String) (members : List TeamMember) :
    (CreateTeam s teamName members).2.pr_reviewers = s.pr_reviewers := by
  rcases CreateTeam_store s teamName members with ⟨_, he⟩ | ⟨_, he⟩ <;> rw [he]

theorem SetUserIsActive_revs (s : Store) (userID : String) (isActive : Bool) :
    (SetUserIsActive s userID isActive).2.pr_reviewers = s.pr_reviewers := by
  rw [SetUserIsActive_store]

theorem MergePullRequest_revs (s : Store) (now : Nat) (prID : String) :
    (MergePullRequest s now prID).2.pr_reviewers = s.pr_reviewers := by
  rcases MergePullRequest_store s now prID with he | ⟨_, _, _, _, he⟩ <;> rw [he]

theorem getPullRequestByExternalID_ok_of_keys {s : Store}
    (hupk : (s.users.map fun u => u.id).Nodup)
    (hpk : (s.pull_requests.map fun p => p.id).Nodup)
    (hext : (s.pull_requests.map fun p => p.pull_request_id).Nodup) {prID : String}
    {pr : PullRequest} (h : getPullRequestByExternalID s prID = .ok pr) :
    ∃ p ∈ s.pull_requests, ∃ au ∈ s.users, p.pull_request_id = prID ∧ p.author_id = au.id ∧
      pr = { ID := p.pull_request_id
             Name := p.name
             AuthorID := au.user_id
             Status := p.status
             AssignedReviewers := (assignedUsers s p.id).map fun u => u.user_id
             CreatedAt := some p.created_at
             MergedAt := p.merged_at } := by
  have h0 := h
  unfold getPullRequestByExternalID at h
  simp only [] at h
  split at h
  · cases h
  · rename_i p au hh
    have hm := List.mem_of_mem_head? hh
    obtain ⟨q, hq, hm2⟩ := List.mem_flatMap.mp hm
    obtain ⟨v, hv, hqv⟩ := List.mem_map.mp hm2
    obtain ⟨hv1, hv2⟩ := List.mem_filter.mp hv
    simp only [decide_eq_true_eq] at hv2
    injection hqv with e1 e2
    subst e1 e2
    refine ⟨q, hq, v, hv1, hv2.2, hv2.1, ?_⟩
    have := getPullRequestByExternalID_of_mem hupk hpk hext
      hq hv1 hv2.1
    rw [hv2.2, h0] at this
    injection this with this
    rw [this, hv2.2]

theorem getPullRequestByExternalID_ok {s : Store} (hs : SchemaOK s) {prID : String}
    {pr : PullRequest} (h : getPullRequestByExternalID s prID = .ok pr) :
    ∃ p ∈ s.pull_requests, ∃ au ∈ s.users, p.pull_request_id = prID ∧ p.author_id = au.id ∧
      pr = { ID := p.pull_request_id
             Name := p.name
             AuthorID := au.user_id
             Status := p.status
             AssignedReviewers := (assignedUsers s p.id).map fun u => u.user_id
             CreatedAt := some p.created_at
             MergedAt := p.merged_at } :=
  getPullRequestByExternalID_ok_of_keys hs.users_pk hs.prs_pk hs.prs_pull_request_id h

/-! ## The claims -/

/-- C1: in every state reachable from the empty store through the six mutating calls, for
every outcome of the shuffle, the author of a pull request is not among its assigned
reviewers: no assignment row of the pull request names its author, and the projection
returned for it never lists `AuthorID` in `AssignedReviewers`. -/
theorem C1_author_not_among_reviewers (s : Store) (h : Reachable s) :
    (∀ p ∈ s.pull_requests, ∀ r ∈ reviewersOf s p.id, r.reviewer_id ≠ p.author_id) ∧
    (∀ prID pr, getPullRequestByExternalID s prID = .ok pr →
      pr.AuthorID ∉ pr.AssignedReviewers) := by
  have hi := h.inv
  refine ⟨fun p hp r hr => ?_, fun prID pr hpr hmem => ?_⟩
  · obtain ⟨hr1, hr2⟩ := List.mem_filter.mp hr
    exact hi.author_not_reviewer p hp r hr1 (by simpa using hr2)
  · obtain ⟨p, hp, au, hau, _, ha, rfl⟩ := getPullRequestByExternalID_ok hi.schema hpr
    obtain ⟨u, hu, hue⟩ := List.mem_map.mp hmem
    obtain ⟨hu1, hu2⟩ := mem_assignedUsers hu
    have : u = au := key_inj (fun u : UserRow => u.user_id) hi.schema.users_user_id hu1 hau hue
    subst this
    exact hi.author_not_reviewer p hp _ hu2 rfl ha.symm

theorem C1_witness :
    Reachable (runCalls Store.empty scenarioA) ∧
    (∀ p ∈ (runCalls Store.empty scenarioA).pull_requests,
        ∀ r ∈ reviewersOf (runCalls Store.empty scenarioA) p.id, r.reviewer_id ≠ p.author_id) ∧
    (∀ prID pr, getPullRequestByExternalID (runCalls Store.empty scenarioA) prID = .ok pr →
      pr.AuthorID ∉ pr.AssignedReviewers) :=
  ⟨⟨scenarioA, rfl⟩, C1_author_not_among_reviewers _ ⟨scenarioA, rfl⟩⟩

/-- C3: in every state reachable through the six mutating calls no (pull request, reviewer)
pair occurs twice in `pr_reviewers`.  The table of the model enforces no constraint: the
property comes from the candidate filtering of the operations. -/
theorem C3_no_duplicate_assignment (s : Store) (h : Reachable s) : s.pr_reviewers.Nodup :=
  h.inv.schema.revs_pk

theorem C3_witness :
    Reachable (runCalls Store.empty scenarioMove) ∧
    (runCalls Store.empty scenarioMove).pr_reviewers.Nodup :=
  ⟨⟨scenarioMove, rfl⟩, C3_no_duplicate_assignment _ ⟨scenarioMove, rfl⟩⟩

/-- C4: in every state reachable through the six mutating calls every pull request has at
most two assignment rows, and every projection lists at most two reviewers. -/
theorem C4_at_most_two_reviewers (s : Store) (h : Reachable s) :
    (∀ prIntID, (reviewersOf s prIntID).length ≤ 2) ∧
    (∀ prID pr, getPullRequestByExternalID s prID = .ok pr →
      pr.AssignedReviewers.length ≤ 2) := by
  have hi := h.inv
  refine ⟨hi.at_most_two, fun prID pr hpr => ?_⟩
  obtain ⟨p, _, au, _, _, _, rfl⟩ := getPullRequestByExternalID_ok hi.schema hpr
  have := congrArg List.length
    (assignedUsers_ids hi.schema.users_pk hi.schema.revs_reviewer p.id)
  simp only [List.length_map] at this ⊢
  rw [this]
  exact hi.at_most_two p.id

theorem C4_witness :
    Reachable (runCalls Store.empty scenarioA) ∧
    (∀ prIntID, (reviewersOf (runCalls Store.empty scenarioA) prIntID).length ≤ 2) ∧
    (∀ prID pr, getPullRequestByExternalID (runCalls Store.empty scenarioA) prID = .ok pr →
      pr.AssignedReviewers.length ≤ 2) :=
  ⟨⟨scenarioA, rfl⟩, C4_at_most_two_reviewers _ ⟨scenarioA, rfl⟩⟩

/-- C5: in every state whose `pull_requests` has its primary key, every call of the six
mutating methods, failed or not, leaves the assignment rows of every pull request that is
MERGED before the call exactly as they are. -/
theorem C5_merged_reviewers_frozen (s : Store)
    (hpk : (s.pull_requests.map fun p => p.id).Nodup) (c : Call) (p : PullRequestRow)
    (hp : p ∈ s.pull_requests) (hm : p.status = .MERGED) :
    reviewersOf (c.exec s) p.id = reviewersOf s p.id := by
  unfold reviewersOf
  cases c with
  | createTeam n ms => simp only [Call.exec, CreateTeam_revs]
  | setUserIsActive u a => simp only [Call.exec, SetUserIsActive_revs]
  | mergePullRequest now q => simp only [Call.exec, MergePullRequest_revs]
  | createPullRequest now rnd q n a =>
    simp only [Call.exec]
    rcases CreatePullRequestWithAutoAssign_store s now rnd q n a with he | ⟨au, _, _, _, he⟩
    · rw [he]
    · rw [he]
      simp only [List.filter_append]
      have : (((shuffleTakeTwo (createCandidates s au.team_id au.id) rnd).map
          (fun c => ({ pr_id := nextID (s.pull_requests.map fun pr => pr.id),
                       reviewer_id := c.2 } : ReviewerRow))).filter
            fun r => r.pr_id = p.id) = [] := by
        rw [List.filter_eq_nil_iff]
        intro r hr
        obtain ⟨c, _, rfl⟩ := List.mem_map.mp hr
        simp only [decide_eq_true_eq]
        intro e
        exact nextID_not_mem _ (e ▸ List.mem_map_of_mem (fun p : PullRequestRow => p.id) hp)
      rw [this, List.append_nil]
  | reassignReviewer rnd q o =>
    simp only [Call.exec]
    rcases ReassignReviewer_store s rnd q o with he |
      ⟨row, hrow, old, _, c, _, _, hst, _, _, _, _, he⟩
    · rw [he]
    · rw [he]
      refine filter_updateReviewer_of_ne _ _ _ _ _ fun e => hst ?_
      have : p = row := key_inj (fun p : PullRequestRow => p.id) hpk hp hrow e
      exact this ▸ hm
  | bulkDeactivate rnd t us =>
    simp only [Call.exec]
    rcases BulkDeactivateUsersAndReassign_store s rnd t us with he | ⟨_, _, ds, _, _, he⟩
    · rw [he]
    · rw [he]
      exact cascade_filter hpk ds _ hp hm

theorem C5_witness :
    reviewersOf (Call.exec (runCalls Store.empty scenarioA) (.reassignReviewer [] "p1" "r1")) 1
      = reviewersOf (runCalls Store.empty scenarioA) 1 :=
  C5_merged_reviewers_frozen (runCalls Store.empty scenarioA) (by decide)
    (.reassignReviewer [] "p1" "r1")
    { id := 1, pull_request_id := "p1", name := "PR 1", author_id := 1, status := .MERGED,
      created_at := 10, merged_at := some 20 } (by decide) rfl

/-! ## The rows an operation adds to `pr_reviewers` -/

theorem resolveUsers_some {users : List UserRow} {teamID : Nat} :
    ∀ {userIDs : List String} {ds : List (Nat × String)},
      resolveUsers users teamID userIDs = some ds →
      ds.map (fun d => d.2) = userIDs ∧
      ∀ d ∈ ds, ∃ u ∈ users, u.id = d.1 ∧ u.user_id = d.2 ∧ u.team_id = teamID
  | [], ds, h => by
    simp only [resolveUsers, Option.some.injEq] at h
    subst h
    exact ⟨rfl, fun _ hd => by cases hd⟩
  | uid :: rest, ds, h => by
    unfold resolveUsers at h
    split at h
    · cases h
    · rename_i u hu
      split at h
      · cases h
      · rename_i ds' hds'
        simp only [Option.some.injEq] at h
        subst h
        obtain ⟨h1, h2⟩ := resolveUsers_some hds'
        refine ⟨by simp [h1], fun d hd => ?_⟩
        rcases List.mem_cons.mp hd with rfl | hd
        · have hp := List.find?_some hu
          simp only [decide_eq_true_eq] at hp
          exact ⟨u, List.mem_of_find?_eq_some hu, rfl, hp.2, hp.1⟩
        · exact h2 d hd

/-- A row added by `CreatePullRequestWithAutoAssign` belongs to the new pull request and names
an active user of the author's team, other than the author. -/
theorem CreatePullRequestWithAutoAssign_new_row {s : Store} {now : Nat} {rnd : Rand}
    {prID prName authorExternalID : String} {r : ReviewerRow}
    (hr : r ∈ (CreatePullRequestWithAutoAssign s now rnd prID prName
      authorExternalID).2.pr_reviewers) (hnew : r ∉ s.pr_reviewers) :
    ∃ au ∈ s.users, au.user_id = authorExternalID ∧
      (CreatePullRequestWithAutoAssign s now rnd prID prName authorExternalID).2.users =
        s.users ∧
      (CreatePullRequestWithAutoAssign s now rnd prID prName authorExternalID).2.pull_requests =
        s.pull_requests ++
          [{ id := nextID (s.pull_requests.map fun pr => pr.id), pull_request_id := prID,
             name := prName, author_id := au.id, status := .OPEN, created_at := now,
             merged_at := none }] ∧
      r.pr_id = nextID (s.pull_requests.map fun pr => pr.id) ∧
      ∃ u ∈ s.users, u.id = r.reviewer_id ∧ u.team_id = au.team_id ∧ u.is_active = 1 ∧
        u.id ≠ au.id := by
  rcases CreatePullRequestWithAutoAssign_store s now rnd prID prName authorExternalID with
    he | ⟨au, hau, hau2, _, he⟩
  · rw [he] at hr
    exact absurd hr hnew
  · rw [he] at hr ⊢
    rcases List.mem_append.mp hr with hr | hr
    · exact absurd hr hnew
    · obtain ⟨c, hc, rfl⟩ := List.mem_map.mp hr
      obtain ⟨u, hu, _, hu2, hu3, hu4, hu5⟩ :=
        mem_createCandidates.mp (shuffleTakeTwo_subset hc)
      exact ⟨au, hau, hau2, rfl, rfl, rfl, u, hu, hu2, hu3, hu4, hu5⟩

/-- A row added by `ReassignReviewer` names an active user of the old reviewer's team. -/
theorem ReassignReviewer_new_row {s : Store} {rnd : Rand} {prID oldUserID : String}
    {r : ReviewerRow} (hr : r ∈ (ReassignReviewer s rnd prID oldUserID).2.pr_reviewers)
    (hnew : r ∉ s.pr_reviewers) :
    (ReassignReviewer s rnd prID oldUserID).2.users = s.users ∧
    ∃ row ∈ s.pull_requests, ∃ old ∈ s.users, ∃ c ∈ s.users,
      row.pull_request_id = prID ∧ old.user_id = oldUserID ∧ r = ⟨row.id, c.id⟩ ∧
      c.team_id = old.team_id ∧ c.is_active = 1 := by
  rcases ReassignReviewer_store s rnd prID oldUserID with he |
    ⟨row, hrow, old, hold, c, hc, h1, _, h3, _, _, h6, he⟩
  · rw [he] at hr
    exact absurd hr hnew
  · rw [he] at hr ⊢
    refine ⟨rfl, row, hrow, old, hold, c, hc, h1, h3, ?_, h6.1, h6.2.1⟩
    rcases mem_updateReviewer hr with ⟨hr, _⟩ | ⟨rfl, _⟩
    · exact absurd hr hnew
    · rfl

/-- A row added by `BulkDeactivateUsersAndReassign` names a user of the named team who is
active after the deactivations, hence none of the deactivated users. -/
theorem BulkDeactivateUsersAndReassign_new_row {s : Store} {rnd : Rand} {teamName : String}
    {userIDs : List String} {r : ReviewerRow}
    (hr : r ∈ (BulkDeactivateUsersAndReassign s rnd teamName userIDs).2.pr_reviewers)
    (hnew : r ∉ s.pr_reviewers) :
    ∃ t ∈ s.teams, ∃ ds, t.name = teamName ∧ resolveUsers s.users t.id userIDs = some ds ∧
      (BulkDeactivateUsersAndReassign s rnd teamName userIDs).2.users =
        ds.foldl (fun us u => deactivateUser us u.1) s.users ∧
      (∀ d ∈ ds, d.1 ≠ r.reviewer_id) ∧
      ∃ u ∈ (BulkDeactivateUsersAndReassign s rnd teamName userIDs).2.users,
        u.id = r.reviewer_id ∧ u.team_id = t.id ∧ u.is_active = 1 := by
  rcases BulkDeactivateUsersAndReassign_store s rnd teamName userIDs with he |
    ⟨t, ht, ds, hn, hds, he⟩
  · rw [he] at hr
    exact absurd hr hnew
  · rw [he] at hr ⊢
    rcases cascade_mem ds _ hr with hr | hr
    · exact absurd hr hnew
    · refine ⟨t, ht, ds, hn, hds, rfl, ?_, ?_⟩
      · intro d hd e
        exact not_mem_active_of_deactivated ds s.users t.id
          (List.mem_map_of_mem (fun d => d.1) hd) (e ▸ hr)
      · obtain ⟨u, hu, hu2⟩ := List.mem_map.mp hr
        obtain ⟨hu3, hu4⟩ := List.mem_filter.mp hu
        simp only [decide_eq_true_eq] at hu4
        exact ⟨u, hu3, hu2, hu4.1, hu4.2⟩

theorem userByID_of {s : Store} (hpk : (s.users.map fun u => u.id).Nodup) {u : UserRow}
    (hu : u ∈ s.users) {i : Nat} (hi : u.id = i) : userByID s i = some u :=
  hi ▸ find_id_eq hpk hu

/-- C2 (counterexample): after the re-parenting of `r1` from team `A` to team `B`,
`ReassignReviewer` on the pull request of `a` (team `A`) replaces `r1` by `y`, a user of team
`B`: the new assignment row names a reviewer outside the team of the author. -/
theorem C2_counterexample :
    Reachable (runCalls Store.empty scenarioMove) ∧
    (⟨1, 4⟩ : ReviewerRow) ∈
      (Call.exec (runCalls Store.empty scenarioMove)
        (.reassignReviewer [] "p" "r1")).pr_reviewers ∧
    (⟨1, 4⟩ : ReviewerRow) ∉ (runCalls Store.empty scenarioMove).pr_reviewers ∧
    ¬ SameTeamAsAuthor
      (Call.exec (runCalls Store.empty scenarioMove) (.reassignReviewer [] "p" "r1")) ⟨1, 4⟩ := by
  refine ⟨⟨scenarioMove, rfl⟩, by decide, by decide, fun h => ?_⟩
  have := h { id := 1, pull_request_id := "p", name := "n", author_id := 1, status := .OPEN,
              created_at := 5, merged_at := none } (by decide) rfl
  revert this
  decide

/-- C2 (amended): in every state satisfying the schema, a reviewer assigned by an operation
belongs, in the state right after it, to the team the operation takes its candidates from:
the team of the author for `CreatePullRequestWithAutoAssign`, the current team of the old
reviewer for `ReassignReviewer`, the named team for `BulkDeactivateUsersAndReassign`. -/
theorem C2_reviewer_in_candidate_team (s : Store) (hs : SchemaOK s) :
    (∀ now rnd prID prName authorID,
      ∀ r ∈ (CreatePullRequestWithAutoAssign s now rnd prID prName authorID).2.pr_reviewers,
        r ∉ s.pr_reviewers →
        (userByID (CreatePullRequestWithAutoAssign s now rnd prID prName authorID).2
          r.reviewer_id).isSome = true ∧
        SameTeamAsAuthor (CreatePullRequestWithAutoAssign s now rnd prID prName authorID).2 r) ∧
    (∀ rnd prID oldUserID,
      ∀ r ∈ (ReassignReviewer s rnd prID oldUserID).2.pr_reviewers, r ∉ s.pr_reviewers →
        ∀ old ∈ s.users, old.user_id = oldUserID →
          (userByID (ReassignReviewer s rnd prID oldUserID).2 r.reviewer_id).map
            (fun u => u.team_id) = some old.team_id) ∧
    (∀ rnd teamName userIDs,
      ∀ r ∈ (BulkDeactivateUsersAndReassign s rnd teamName userIDs).2.pr_reviewers,
        r ∉ s.pr_reviewers →
        ∀ t ∈ s.teams, t.name = teamName →
          (userByID (BulkDeactivateUsersAndReassign s rnd teamName userIDs).2 r.reviewer_id).map
            (fun u => u.team_id) = some t.id) := by
  refine ⟨?_, ?_, ?_⟩
  · intro now rnd prID prName authorID r hr hnew
    obtain ⟨au, hau, _, husers, hprs, hrp, u, hu, hu1, hu2, _, _⟩ :=
      CreatePullRequestWithAutoAssign_new_row hr hnew
    have hpk : ((CreatePullRequestWithAutoAssign s now rnd prID prName authorID).2.users.map
        fun u => u.id).Nodup := by rw [husers]; exact hs.users_pk
    have hru := userByID_of hpk (husers ▸ hu) hu1
    refine ⟨by rw [hru]; rfl, fun p hp hpr => ?_⟩
    rw [hprs] at hp
    rcases List.mem_append.mp hp with hp | hp
    · have hm : p.id ∈ s.pull_requests.map fun p => p.id := List.mem_map_of_mem _ hp
      rw [hpr, hrp] at hm
      exact absurd hm (nextID_not_mem _)
    · rw [List.mem_singleton] at hp
      subst hp
      rw [hru, userByID_of hpk (husers ▸ hau) rfl]
      simp only [Option.map_some', hu2]
  · intro rnd prID oldUserID r hr hnew old hold hold2
    obtain ⟨husers, row, _, old', hold', c, hc, _, ho, rfl, hc1, _⟩ :=
      ReassignReviewer_new_row hr hnew
    have hpk : ((ReassignReviewer s rnd prID oldUserID).2.users.map fun u => u.id).Nodup := by
      rw [husers]; exact hs.users_pk
    have : old' = old := key_inj (fun u : UserRow => u.user_id) hs.users_user_id hold' hold
      (ho.trans hold2.symm)
    subst this
    rw [userByID_of hpk (husers ▸ hc) rfl]
    simp only [Option.map_some', hc1]
  · intro rnd teamName userIDs r hr hnew t ht htn
    obtain ⟨t', ht', ds, hn, _, husers, _, u, hu, hu1, hu2, _⟩ :=
      BulkDeactivateUsersAndReassign_new_row hr hnew
    have hpk : ((BulkDeactivateUsersAndReassign s rnd teamName userIDs).2.users.map
        fun u => u.id).Nodup := by
      rw [husers, deactivateAll_id]; exact hs.users_pk
    have : t' = t := key_inj (fun t : TeamRow => t.name) hs.teams_name ht' ht (hn.trans htn.symm)
    subst this
    rw [userByID_of hpk hu hu1]
    simp only [Option.map_some', hu2]

theorem C2_witness :
    (userByID (ReassignReviewer (runCalls Store.empty scenarioMove) [] "p" "r1").2 4).map
      (fun u => u.team_id) = some 2 :=
  (C2_reviewer_in_candidate_team (runCalls Store.empty scenarioMove)
    (Reachable.inv ⟨scenarioMove, rfl⟩).schema).2.1 [] "p" "r1" ⟨1, 4⟩ (by decide) (by decide)
    { id := 2, user_id := "r1", username := "R1", team_id := 2, is_active := 1 } (by decide) rfl

/-- C6: in every state satisfying the schema, a user named by an assignment row that a call
adds or repoints is active in the state right after the call; for the bulk cascade, that
user is none of the users named in the batch. -/
theorem C6_assigned_reviewer_active (s : Store) (hs : SchemaOK s) (c : Call) (r : ReviewerRow)
    (hr : r ∈ (c.exec s).pr_reviewers) (hnew : r ∉ s.pr_reviewers) :
    (userByID (c.exec s) r.reviewer_id).map (fun u => u.is_active) = some 1 ∧
    (∀ rnd teamName userIDs, c = .bulkDeactivate rnd teamName userIDs →
      ∀ u ∈ s.users, u.user_id ∈ userIDs → u.id ≠ r.reviewer_id) := by
  cases c with
  | createTeam n ms =>
    simp only [Call.exec, CreateTeam_revs] at hr
    exact absurd hr hnew
  | setUserIsActive u a =>
    simp only [Call.exec, SetUserIsActive_revs] at hr
    exact absurd hr hnew
  | mergePullRequest now q =>
    simp only [Call.exec, MergePullRequest_revs] at hr
    exact absurd hr hnew
  | createPullRequest now rnd q n a =>
    simp only [Call.exec] at hr ⊢
    obtain ⟨au, _, _, husers, _, _, u, hu, hu1, _, hu3, _⟩ :=
      CreatePullRequestWithAutoAssign_new_row hr hnew
    have hpk : ((CreatePullRequestWithAutoAssign s now rnd q n a).2.users.map
        fun u => u.id).Nodup := by rw [husers]; exact hs.users_pk
    refine ⟨?_, fun _ _ _ h => by cases h⟩
    rw [userByID_of hpk (husers ▸ hu) hu1]
    simp only [Option.map_some', hu3]
  | reassignReviewer rnd q o =>
    simp only [Call.exec] at hr ⊢
    obtain ⟨husers, row, _, old, _, c, hc, _, _, rfl, _, hc2⟩ :=
      ReassignReviewer_new_row hr hnew
    have hpk : ((ReassignReviewer s rnd q o).2.users.map fun u => u.id).Nodup := by
      rw [husers]; exact hs.users_pk
    refine ⟨?_, fun _ _ _ h => by cases h⟩
    rw [userByID_of hpk (husers ▸ hc) rfl]
    simp only [Option.map_some', hc2]
  | bulkDeactivate rnd t us =>
    simp only [Call.exec] at hr ⊢
    obtain ⟨t', _, ds, _, hds, husers, hne, u, hu, hu1, _, hu3⟩ :=
      BulkDeactivateUsersAndReassign_new_row hr hnew
    have hpk : ((BulkDeactivateUsersAndReassign s rnd t us).2.users.map
        fun u => u.id).Nodup := by
      rw [husers, deactivateAll_id]; exact hs.users_pk
    refine ⟨?_, ?_⟩
    · rw [userByID_of hpk hu hu1]
      simp only [Option.map_some', hu3]
    · intro rnd2 t2 us2 hc v hv hvu e
      injection hc with _ _ hus
      subst hus
      obtain ⟨h1, h2⟩ := resolveUsers_some hds
      rw [← h1] at hvu
      obtain ⟨d, hd, hd2⟩ := List.mem_map.mp hvu
      obtain ⟨w, hw, hw1, hw2, _⟩ := h2 d hd
      have : w = v := key_inj (fun u : UserRow => u.user_id) hs.users_user_id hw hv
        (hw2.trans hd2)
      subst this
      exact hne d hd (hw1.symm.trans e)

theorem C6_witness :
    (userByID (Call.exec (runCalls Store.empty scenarioMove)
        (.bulkDeactivate [] "B" ["r1"])) 4).map (fun u => u.is_active) = some 1 ∧
    (∀ rnd teamName userIDs,
      Call.bulkDeactivate [] "B" ["r1"] = Call.bulkDeactivate rnd teamName userIDs →
      ∀ u ∈ (runCalls Store.empty scenarioMove).users, u.user_id ∈ userIDs → u.id ≠ 4) :=
  C6_assigned_reviewer_active (runCalls Store.empty scenarioMove)
    (Reachable.inv ⟨scenarioMove, rfl⟩).schema (.bulkDeactivate [] "B" ["r1"]) ⟨1, 4⟩
    (by decide) (by decide)

/-! ## The three exits of `CreatePullRequestWithAutoAssign` -/

theorem find?_some_of_mem {α : Type} {p : α → Bool} {l : List α} {a : α} (ha : a ∈ l)
    (hp : p a = true) : ∃ b, l.find? p = some b := by
  cases h : l.find? p with
  | none => exact absurd hp (by simpa using List.find?_eq_none.mp h a ha)
  | some b => exact ⟨b, rfl⟩

theorem CreatePullRequestWithAutoAssign_of_present {s : Store} (now : Nat) (rnd : Rand)
    {prID : String} (prName authorExternalID : String) {p : PullRequestRow}
    (hp : p ∈ s.pull_requests) (hid : p.pull_request_id = prID) :
    CreatePullRequestWithAutoAssign s now rnd prID prName authorExternalID =
      (.error .ErrPRExists, s) := by
  obtain ⟨b, hb⟩ := find?_some_of_mem (p := fun pr => decide (pr.pull_request_id = prID)) hp
    (by simpa using hid)
  unfold CreatePullRequestWithAutoAssign
  rw [hb]

theorem CreatePullRequestWithAutoAssign_of_no_author {s : Store} (now : Nat) (rnd : Rand)
    {prID : String} (prName : String) {authorExternalID : String}
    (hfresh : ∀ p ∈ s.pull_requests, p.pull_request_id ≠ prID)
    (hau : ∀ u ∈ s.users, u.user_id ≠ authorExternalID) :
    CreatePullRequestWithAutoAssign s now rnd prID prName authorExternalID =
      (.error .ErrNotFound, s) := by
  have h1 : (s.pull_requests.find? fun pr => pr.pull_request_id = prID) = none :=
    List.find?_eq_none.mpr fun p hp => by simpa using hfresh p hp
  have h2 : (s.users.find? fun u => u.user_id = authorExternalID) = none :=
    List.find?_eq_none.mpr fun u hu => by simpa using hau u hu
  unfold CreatePullRequestWithAutoAssign
  rw [h1]
  simp only []
  rw [h2]

theorem CreatePullRequestWithAutoAssign_of_author {s : Store} (now : Nat) (rnd : Rand)
    {prID : String} (prName : String) {authorExternalID : String}
    (hfresh : ∀ p ∈ s.pull_requests, p.pull_request_id ≠ prID) {au : UserRow}
    (hau : (s.users.find? fun u => u.user_id = authorExternalID) = some au) :
    CreatePullRequestWithAutoAssign s now rnd prID prName authorExternalID =
      (getPullRequestByExternalID
        { s with
          pull_requests := s.pull_requests ++
            [{ id := nextID (s.pull_requests.map fun pr => pr.id), pull_request_id := prID,
               name := prName, author_id := au.id, status := .OPEN, created_at := now,
               merged_at := none }]
          pr_reviewers := s.pr_reviewers ++
            (shuffleTakeTwo (createCandidates s au.team_id au.id) rnd).map fun c =>
              { pr_id := nextID (s.pull_requests.map fun pr => pr.id), reviewer_id := c.2 } }
        prID,
       { s with
          pull_requests := s.pull_requests ++
            [{ id := nextID (s.pull_requests.map fun pr => pr.id), pull_request_id := prID,
               name := prName, author_id := au.id, status := .OPEN, created_at := now,
               merged_at := none }]
          pr_reviewers := s.pr_reviewers ++
            (shuffleTakeTwo (createCandidates s au.team_id au.id) rnd).map fun c =>
              { pr_id := nextID (s.pull_requests.map fun pr => pr.id), reviewer_id := c.2 } }) := by
  have h1 : (s.pull_requests.find? fun pr => pr.pull_request_id = prID) = none :=
    List.find?_eq_none.mpr fun p hp => by simpa using hfresh p hp
  unfold CreatePullRequestWithAutoAssign
  rw [h1]
  simp only []
  rw [hau]

/-- On its last exit `CreatePullRequestWithAutoAssign` returns a projection, in every state. -/
theorem CreatePullRequestWithAutoAssign_of_author_isOk {s : Store} (now : Nat) (rnd : Rand)
    {prID : String} (prName : String) {authorExternalID : String}
    (hfresh : ∀ p ∈ s.pull_requests, p.pull_request_id ≠ prID) {au : UserRow}
    (hau : (s.users.find? fun u => u.user_id = authorExternalID) = some au) :
    ∃ pr, (CreatePullRequestWithAutoAssign s now rnd prID prName authorExternalID).1 =
      .ok pr := by
  rw [CreatePullRequestWithAutoAssign_of_author now rnd prName hfresh hau]
  exact getPullRequestByExternalID_isOk
    (p := { id := nextID (s.pull_requests.map fun pr => pr.id), pull_request_id := prID,
            name := prName, author_id := au.id, status := .OPEN, created_at := now,
            merged_at := none })
    (List.mem_append_right _ (List.mem_singleton.mpr rfl)) rfl
    (List.mem_of_find?_eq_some hau) rfl

/-- C8: in every state, `CreatePullRequestWithAutoAssign` fails with `ErrPRExists` exactly when
a pull request with the external id is present; when none is, it fails with `ErrNotFound`
exactly when no user has the author's external id; and whenever it fails the store is left
as it was, the error being one of the two. -/
theorem C8_create_failures (s : Store) (now : Nat) (rnd : Rand)
    (prID prName authorExternalID : String) :
    ((CreatePullRequestWithAutoAssign s now rnd prID prName authorExternalID).1 =
        .error .ErrPRExists ↔ ∃ p ∈ s.pull_requests, p.pull_request_id = prID) ∧
    ((∀ p ∈ s.pull_requests, p.pull_request_id ≠ prID) →
      ((CreatePullRequestWithAutoAssign s now rnd prID prName authorExternalID).1 =
        .error .ErrNotFound ↔ ∀ u ∈ s.users, u.user_id ≠ authorExternalID)) ∧
    (∀ e, (CreatePullRequestWithAutoAssign s now rnd prID prName authorExternalID).1 =
        .error e →
      (e = .ErrPRExists ∨ e = .ErrNotFound) ∧
      (CreatePullRequestWithAutoAssign s now rnd prID prName authorExternalID).2 = s) := by
  by_cases hp : ∃ p ∈ s.pull_requests, p.pull_request_id = prID
  · obtain ⟨p, hp1, hp2⟩ := hp
    have he := CreatePullRequestWithAutoAssign_of_present now rnd prName authorExternalID hp1 hp2
    rw [he]
    refine ⟨⟨fun _ => ⟨p, hp1, hp2⟩, fun _ => rfl⟩, fun hf => absurd hp2 (hf p hp1), ?_⟩
    intro e h
    injection h with h
    exact ⟨Or.inl h.symm, rfl⟩
  · have hfresh : ∀ p ∈ s.pull_requests, p.pull_request_id ≠ prID :=
      fun p hp1 hp2 => hp ⟨p, hp1, hp2⟩
    cases hau : s.users.find? fun u => u.user_id = authorExternalID with
    | none =>
      have hno : ∀ u ∈ s.users, u.user_id ≠ authorExternalID :=
        fun u hu => by simpa using List.find?_eq_none.mp hau u hu
      rw [CreatePullRequestWithAutoAssign_of_no_author now rnd prName hfresh hno]
      refine ⟨⟨fun h => (by cases h), fun h => absurd h hp⟩, fun _ => ⟨fun _ => hno, fun _ => rfl⟩,
        ?_⟩
      intro e h
      injection h with h
      exact ⟨Or.inr h.symm, rfl⟩
    | some au =>
      obtain ⟨pr, hpr⟩ := CreatePullRequestWithAutoAssign_of_author_isOk now rnd prName hfresh hau
      rw [hpr]
      refine ⟨⟨fun h => (by cases h), fun h => absurd h hp⟩, fun _ => ⟨fun h => (by cases h), ?_⟩,
        fun e h => (by cases h)⟩
      intro hno
      exact absurd (by simpa using List.find?_some hau)
        (hno au (List.mem_of_find?_eq_some hau))

/-! ## The reviewers of a new pull request -/

/-- The candidates of the source, by external id, are the pool of the specification. -/
theorem createCandidates_pool {s : Store} (hs : SchemaOK s) {authorExternalID : String}
    {au : UserRow} (hau : (s.users.find? fun u => u.user_id = authorExternalID) = some au) :
    (createCandidates s au.team_id au.id).map (fun c => c.1) =
      creationPool s authorExternalID := by
  have hmem := List.mem_of_find?_eq_some hau
  have hid : au.user_id = authorExternalID := by simpa using List.find?_some hau
  unfold createCandidates creationPool
  rw [hau, List.map_map]
  simp only []
  have : (s.users.filter fun u => u.team_id = au.team_id ∧ u.is_active = 1 ∧ u.id ≠ au.id) =
      s.users.filter fun u =>
        u.team_id = au.team_id ∧ u.is_active = 1 ∧ u.user_id ≠ authorExternalID := by
    apply List.filter_congr
    intro u hu
    have : u.id ≠ au.id ↔ u.user_id ≠ authorExternalID := by
      constructor
      · intro h e
        exact h (congrArg (fun u : UserRow => u.id)
          (key_inj (fun u : UserRow => u.user_id) hs.users_user_id hu hmem (e.trans hid.symm)))
      · intro h e
        exact h ((congrArg (fun u : UserRow => u.user_id)
          (key_inj (fun u : UserRow => u.id) hs.users_pk hu hmem e)).trans hid)
    simp only [this]
  rw [this]
  rfl

theorem chosen_join {s : Store} (hpk : (s.users.map fun u => u.id).Nodup) (nid : Nat) :
    ∀ l : List (String × Nat),
      (∀ c ∈ l, ∃ u ∈ s.users, u.user_id = c.1 ∧ u.id = c.2) →
      (((l.map fun c => ({ pr_id := nid, reviewer_id := c.2 } : ReviewerRow)).flatMap
        fun r => s.users.filter fun u => r.reviewer_id = u.id).map fun u => u.user_id) =
      l.map fun c => c.1
  | [], _ => rfl
  | c :: t, h => by
    obtain ⟨u, hu, hu1, hu2⟩ := h c (List.mem_cons_self _ _)
    rw [List.map_cons, List.flatMap_cons, List.map_append,
      chosen_join hpk nid t fun c hc => h c (List.mem_cons_of_mem _ hc)]
    rw [filter_id_eq hpk hu (show ({ pr_id := nid, reviewer_id := c.2 } : ReviewerRow).reviewer_id
      = u.id from hu2.symm)]
    simp only [List.map_cons, List.map_nil, List.singleton_append, hu1]

/-- C7: in every state satisfying the schema where no pull request has the external id and
the author exists, `CreatePullRequestWithAutoAssign` succeeds for every outcome of the
shuffle; the pull request is stored and returned with status OPEN; its reviewers are
duplicate-free, belong to the pool (active users of the author's team, the author apart) and
number `min(|pool|, 2)`; a pool of at most two users is assigned whole, an empty one gives no
reviewer. -/
theorem C7_create_assigns_from_pool (s : Store) (hs : SchemaOK s) (now : Nat) (rnd : Rand)
    (prID prName authorExternalID : String)
    (hfresh : ∀ p ∈ s.pull_requests, p.pull_request_id ≠ prID)
    (hex : ∃ u ∈ s.users, u.user_id = authorExternalID) :
    ∃ pr, (CreatePullRequestWithAutoAssign s now rnd prID prName authorExternalID).1 = .ok pr ∧
      pr.ID = prID ∧ pr.Name = prName ∧ pr.AuthorID = authorExternalID ∧ pr.Status = .OPEN ∧
      pr.MergedAt = none ∧
      (∃ row ∈ (CreatePullRequestWithAutoAssign s now rnd prID prName
          authorExternalID).2.pull_requests,
        row.pull_request_id = prID ∧ row.status = .OPEN ∧
        (assignedUsers (CreatePullRequestWithAutoAssign s now rnd prID prName
          authorExternalID).2 row.id).map (fun u => u.user_id) = pr.AssignedReviewers) ∧
      pr.AssignedReviewers.Nodup ∧
      (∀ x ∈ pr.AssignedReviewers, x ∈ creationPool s authorExternalID) ∧
      pr.AssignedReviewers.length = min (creationPool s authorExternalID).length 2 ∧
      ((creationPool s authorExternalID).length ≤ 2 →
        pr.AssignedReviewers.Perm (creationPool s authorExternalID)) ∧
      (creationPool s authorExternalID = [] → pr.AssignedReviewers = []) := by
  obtain ⟨u0, hu0, hu0e⟩ := hex
  obtain ⟨au, hau⟩ := find?_some_of_mem
    (p := fun u : UserRow => decide (u.user_id = authorExternalID)) hu0 (by simpa using hu0e)
  have hmem := List.mem_of_find?_eq_some hau
  have hid : au.user_id = authorExternalID := by simpa using List.find?_some hau
  have hsch := CreatePullRequestWithAutoAssign_schemaOK hs now rnd prID prName authorExternalID
  have heq := CreatePullRequestWithAutoAssign_of_author now rnd prName hfresh hau
  rw [heq] at hsch ⊢
  simp only [] at hsch ⊢
  have hget := getPullRequestByExternalID_of_mem hsch.users_pk hsch.prs_pk
    hsch.prs_pull_request_id
    (p := { id := nextID (s.pull_requests.map fun pr => pr.id), pull_request_id := prID,
            name := prName, author_id := au.id, status := .OPEN, created_at := now,
            merged_at := none })
    (List.mem_append_right _ (List.mem_singleton.mpr rfl)) hmem rfl
  simp only [] at hget
  have hrev : (assignedUsers
      { s with
        pull_requests := s.pull_requests ++
          [{ id := nextID (s.pull_requests.map fun pr => pr.id), pull_request_id := prID,
             name := prName, author_id := au.id, status := .OPEN, created_at := now,
             merged_at := none }]
        pr_reviewers := s.pr_reviewers ++
          (shuffleTakeTwo (createCandidates s au.team_id au.id) rnd).map fun c =>
            { pr_id := nextID (s.pull_requests.map fun pr => pr.id), reviewer_id := c.2 } }
      (nextID (s.pull_requests.map fun pr => pr.id))).map (fun u => u.user_id) =
      (shuffleTakeTwo (createCandidates s au.team_id au.id) rnd).map fun c => c.1 := by
    unfold assignedUsers reviewersOf
    simp only [List.filter_append]
    have h0 : (s.pr_reviewers.filter
        fun r => r.pr_id = nextID (s.pull_requests.map fun pr => pr.id)) = [] := by
      rw [List.filter_eq_nil_iff]
      intro r hr
      simp only [decide_eq_true_eq]
      intro e
      exact nextID_not_mem _ (e ▸ hs.revs_pr r hr)
    have h1 : (((shuffleTakeTwo (createCandidates s au.team_id au.id) rnd).map
        (fun c => ({ pr_id := nextID (s.pull_requests.map fun pr => pr.id),
                     reviewer_id := c.2 } : ReviewerRow))).filter
          fun r => r.pr_id = nextID (s.pull_requests.map fun pr => pr.id)) =
        (shuffleTakeTwo (createCandidates s au.team_id au.id) rnd).map
        (fun c => ({ pr_id := nextID (s.pull_requests.map fun pr => pr.id),
                     reviewer_id := c.2 } : ReviewerRow)) := by
      rw [List.filter_eq_self]
      intro r hr
      simpa using (createCandidates_chosen hr).1
    rw [h0, h1, List.nil_append]
    refine chosen_join hs.users_pk _ _ fun c hc => ?_
    obtain ⟨u, hu, hu1, hu2, _⟩ := mem_createCandidates.mp (shuffleTakeTwo_subset hc)
    exact ⟨u, hu, hu1, hu2⟩
  rw [hrev] at hget
  have hpool := createCandidates_pool hs hau
  refine ⟨_, hget, rfl, rfl, hid, rfl, rfl, ?_, ?_, ?_, ?_, ?_, ?_⟩
  · exact ⟨_, List.mem_append_right _ (List.mem_singleton.mpr rfl), rfl, rfl, hrev⟩
  · exact shuffleTakeTwo_nodup (fun c => c.1) rnd
      (createCandidates_ext_nodup hs.users_user_id au.team_id au.id)
  · intro x hx
    obtain ⟨c, hc, rfl⟩ := List.mem_map.mp hx
    rw [← hpool]
    exact List.mem_map_of_mem (fun c => c.1) (shuffleTakeTwo_subset hc)
  · simp only [List.length_map, shuffleTakeTwo_length, ← hpool]
  · intro hle
    rw [← hpool] at hle ⊢
    rw [List.length_map] at hle
    rw [shuffleTakeTwo_eq, List.take_of_length_le
      (by rw [(Shuffle_perm _ rnd).length_eq]; exact hle)]
    exact (Shuffle_perm _ rnd).map _
  · intro hnil
    rw [← hpool] at hnil
    have : (shuffleTakeTwo (createCandidates s au.team_id au.id) rnd).length = 0 := by
      rw [shuffleTakeTwo_length, ← List.length_map _ (fun c : String × Nat => c.1), hnil]
      rfl
    rw [List.length_eq_zero] at this
    rw [this]
    rfl

theorem C7_witness :
    ∃ pr, (CreatePullRequestWithAutoAssign (runCalls Store.empty scenarioMove) 7 [1] "q" "Q"
        "a").1 = .ok pr ∧
      pr.ID = "q" ∧ pr.Name = "Q" ∧ pr.AuthorID = "a" ∧ pr.Status = .OPEN ∧
      pr.MergedAt = none ∧
      (∃ row ∈ (CreatePullRequestWithAutoAssign (runCalls Store.empty scenarioMove) 7 [1] "q" "Q"
          "a").2.pull_requests,
        row.pull_request_id = "q" ∧ row.status = .OPEN ∧
        (assignedUsers (CreatePullRequestWithAutoAssign (runCalls Store.empty scenarioMove) 7 [1]
          "q" "Q" "a").2 row.id).map (fun u => u.user_id) = pr.AssignedReviewers) ∧
      pr.AssignedReviewers.Nodup ∧
      (∀ x ∈ pr.AssignedReviewers, x ∈ creationPool (runCalls Store.empty scenarioMove) "a") ∧
      pr.AssignedReviewers.length =
        min (creationPool (runCalls Store.empty scenarioMove) "a").length 2 ∧
      ((creationPool (runCalls Store.empty scenarioMove) "a").length ≤ 2 →
        pr.AssignedReviewers.Perm (creationPool (runCalls Store.empty scenarioMove) "a")) ∧
      (creationPool (runCalls Store.empty scenarioMove) "a" = [] → pr.AssignedReviewers = []) :=
  C7_create_assigns_from_pool (runCalls Store.empty scenarioMove)
    (Reachable.inv ⟨scenarioMove, rfl⟩).schema 7 [1] "q" "Q" "a" (by decide) (by decide)

/-! ## `MergePullRequest` -/

theorem MergePullRequest_of_absent {s : Store} (now : Nat) {prID : String}
    (h : ∀ p ∈ s.pull_requests, p.pull_request_id ≠ prID) :
    MergePullRequest s now prID = (.error .ErrNotFound, s) := by
  have h1 : (s.pull_requests.find? fun pr => pr.pull_request_id = prID) = none :=
    List.find?_eq_none.mpr fun p hp => by simpa using h p hp
  unfold MergePullRequest
  rw [h1]

theorem MergePullRequest_of_merged {s : Store} (now : Nat) {prID : String}
    {row : PullRequestRow}
    (h : (s.pull_requests.find? fun pr => pr.pull_request_id = prID) = some row)
    (hst : row.status = .MERGED) :
    MergePullRequest s now prID = (getPullRequestByExternalID s prID, s) := by
  unfold MergePullRequest
  rw [h]
  simp [hst]

theorem MergePullRequest_of_open {s : Store} (now : Nat) {prID : String}
    {row : PullRequestRow}
    (h : (s.pull_requests.find? fun pr => pr.pull_request_id = prID) = some row)
    (hst : row.status ≠ .MERGED) :
    MergePullRequest s now prID =
      (getPullRequestByExternalID
        { s with pull_requests := s.pull_requests.map fun pr =>
            if pr.id = row.id then { pr with status := .MERGED, merged_at := some now }
            else pr } prID,
       { s with pull_requests := s.pull_requests.map fun pr =>
            if pr.id = row.id then { pr with status := .MERGED, merged_at := some now }
            else pr }) := by
  unfold MergePullRequest
  rw [h]
  simp [hst]

/-- The row found by external id after the `UPDATE` of the merge is the updated row. -/
theorem find?_after_merge {s : Store} (now : Nat) {prID : String} {row : PullRequestRow}
    (h : (s.pull_requests.find? fun pr => pr.pull_request_id = prID) = some row) :
    ((s.pull_requests.map fun pr =>
        if pr.id = row.id then { pr with status := .MERGED, merged_at := some now }
        else pr).find? fun pr => pr.pull_request_id = prID) =
      some { row with status := .MERGED, merged_at := some now } := by
  rw [List.find?_map]
  have : ((fun pr : PullRequestRow => decide (pr.pull_request_id = prID)) ∘
      fun pr => if pr.id = row.id then { pr with status := .MERGED, merged_at := some now }
        else pr) = fun pr => decide (pr.pull_request_id = prID) := by
    funext pr
    simp only [Function.comp]
    split <;> rfl
  rw [this, h]
  simp

/-- A second merge returns what the first returned and leaves the store of the first, in
every state and whatever the two clock readings. -/
theorem MergePullRequest_twice (s : Store) (now₁ now₂ : Nat) (prID : String) :
    MergePullRequest (MergePullRequest s now₁ prID).2 now₂ prID =
      MergePullRequest s now₁ prID := by
  cases h : s.pull_requests.find? fun pr => pr.pull_request_id = prID with
  | none =>
    have habs : ∀ p ∈ s.pull_requests, p.pull_request_id ≠ prID :=
      fun p hp => by simpa using List.find?_eq_none.mp h p hp
    rw [MergePullRequest_of_absent now₁ habs]
    exact MergePullRequest_of_absent now₂ habs
  | some row =>
    by_cases hst : row.status = .MERGED
    · rw [MergePullRequest_of_merged now₁ h hst]
      exact MergePullRequest_of_merged now₂ h hst
    · rw [MergePullRequest_of_open now₁ h hst]
      exact MergePullRequest_of_merged now₂ (find?_after_merge now₁ h) rfl

/-- A merge of an existing pull request returns a projection, as soon as authors are users. -/
theorem MergePullRequest_isOk {s : Store}
    (hfk : ∀ p ∈ s.pull_requests, p.author_id ∈ s.users.map fun u => u.id) (now : Nat)
    {prID : String} (hex : ∃ p ∈ s.pull_requests, p.pull_request_id = prID) :
    ∃ pr, (MergePullRequest s now prID).1 = .ok pr := by
  obtain ⟨p, hp, hpe⟩ := hex
  obtain ⟨row, h⟩ := find?_some_of_mem
    (p := fun pr : PullRequestRow => decide (pr.pull_request_id = prID)) hp (by simpa using hpe)
  have hrow := List.mem_of_find?_eq_some h
  have hrid : row.pull_request_id = prID := by simpa using List.find?_some h
  obtain ⟨au, hau, hau2⟩ := List.mem_map.mp (hfk row hrow)
  by_cases hst : row.status = .MERGED
  · rw [MergePullRequest_of_merged now h hst]
    exact getPullRequestByExternalID_isOk hrow hrid hau hau2.symm
  · rw [MergePullRequest_of_open now h hst]
    refine getPullRequestByExternalID_isOk
      (p := { row with status := .MERGED, merged_at := some now }) ?_ hrid hau hau2.symm
    exact List.mem_map.mpr ⟨row, hrow, by simp⟩

/-- C9: in every state satisfying the schema and for every existing pull request, a second
`MergePullRequest` leaves the store of the first call as it is, succeeds, and returns the
projection the first call returned, whatever the clock reads at the two calls; the merge
timestamps stored after the second call are those stored after the first. -/
theorem C9_merge_idempotent (s : Store) (hs : SchemaOK s) (now₁ now₂ : Nat) (prID : String)
    (hex : ∃ p ∈ s.pull_requests, p.pull_request_id = prID) :
    (MergePullRequest (MergePullRequest s now₁ prID).2 now₂ prID).2 =
      (MergePullRequest s now₁ prID).2 ∧
    (∃ pr, (MergePullRequest s now₁ prID).1 = .ok pr ∧
      (MergePullRequest (MergePullRequest s now₁ prID).2 now₂ prID).1 = .ok pr) ∧
    (MergePullRequest (MergePullRequest s now₁ prID).2 now₂ prID).2.pull_requests.map
        (fun p => p.merged_at) =
      (MergePullRequest s now₁ prID).2.pull_requests.map fun p => p.merged_at := by
  rw [MergePullRequest_twice]
  obtain ⟨pr, hpr⟩ := MergePullRequest_isOk hs.prs_author now₁ hex
  exact ⟨rfl, ⟨pr, hpr, hpr⟩, rfl⟩

theorem C9_witness :
    (MergePullRequest (MergePullRequest (runCalls Store.empty scenarioMove) 8 "p").2 9 "p").2 =
      (MergePullRequest (runCalls Store.empty scenarioMove) 8 "p").2 ∧
    (∃ pr, (MergePullRequest (runCalls Store.empty scenarioMove) 8 "p").1 = .ok pr ∧
      (MergePullRequest (MergePullRequest (runCalls Store.empty scenarioMove) 8 "p").2 9
        "p").1 = .ok pr) ∧
    (MergePullRequest (MergePullRequest (runCalls Store.empty scenarioMove) 8 "p").2 9
        "p").2.pull_requests.map (fun p => p.merged_at) =
      (MergePullRequest (runCalls Store.empty scenarioMove) 8 "p").2.pull_requests.map
        fun p => p.merged_at :=
  C9_merge_idempotent (runCalls Store.empty scenarioMove)
    (Reachable.inv ⟨scenarioMove, rfl⟩).schema 8 9 "p" (by decide)

/-- C10: in every state satisfying the schema and the invariants of the engine (every
reachable state), `MergePullRequest` fails with `ErrNotFound` exactly when no pull request has
the external id, and then leaves the store as it was; otherwise it succeeds, the pull request
is MERGED with a merge timestamp, in the store and in the projection returned, and the table
of assignments is exactly as before the call. -/
theorem C10_merge_result (s : Store) (hi : Inv s) (now : Nat) (prID : String) :
    ((MergePullRequest s now prID).1 = .error .ErrNotFound ↔
      ∀ p ∈ s.pull_requests, p.pull_request_id ≠ prID) ∧
    ((∀ p ∈ s.pull_requests, p.pull_request_id ≠ prID) → (MergePullRequest s now prID).2 = s) ∧
    ((∃ p ∈ s.pull_requests, p.pull_request_id = prID) →
      ∃ pr, (MergePullRequest s now prID).1 = .ok pr ∧ pr.ID = prID ∧ pr.Status = .MERGED ∧
        pr.MergedAt.isSome = true ∧
        (∃ row ∈ (MergePullRequest s now prID).2.pull_requests, row.pull_request_id = prID ∧
          row.status = .MERGED ∧ row.merged_at.isSome = true ∧ row.merged_at = pr.MergedAt)) ∧
    (MergePullRequest s now prID).2.pr_reviewers = s.pr_reviewers := by
  have hpost : ∀ hex : (∃ p ∈ s.pull_requests, p.pull_request_id = prID),
      ∃ pr, (MergePullRequest s now prID).1 = .ok pr ∧ pr.ID = prID ∧ pr.Status = .MERGED ∧
        pr.MergedAt.isSome = true ∧
        (∃ row ∈ (MergePullRequest s now prID).2.pull_requests, row.pull_request_id = prID ∧
          row.status = .MERGED ∧ row.merged_at.isSome = true ∧
          row.merged_at = pr.MergedAt) := by
    intro hex
    obtain ⟨pr, hpr⟩ := MergePullRequest_isOk hi.schema.prs_author now hex
    have hi2 := MergePullRequest_inv hi now prID
    obtain ⟨p, hp, hpe⟩ := hex
    obtain ⟨row, h⟩ := find?_some_of_mem
      (p := fun pr : PullRequestRow => decide (pr.pull_request_id = prID)) hp
      (by simpa using hpe)
    have hget : getPullRequestByExternalID (MergePullRequest s now prID).2 prID = .ok pr := by
      by_cases hst : row.status = .MERGED
      · rw [MergePullRequest_of_merged now h hst] at hpr ⊢
        exact hpr
      · rw [MergePullRequest_of_open now h hst] at hpr ⊢
        exact hpr
    have hfind : ∃ r, ((MergePullRequest s now prID).2.pull_requests.find?
        fun pr => pr.pull_request_id = prID) = some r ∧ r.status = .MERGED := by
      by_cases hst : row.status = .MERGED
      · rw [MergePullRequest_of_merged now h hst]
        exact ⟨row, h, hst⟩
      · rw [MergePullRequest_of_open now h hst]
        exact ⟨_, find?_after_merge now h, rfl⟩
    obtain ⟨r, hr, hrst⟩ := hfind
    have hrmem := List.mem_of_find?_eq_some hr
    have hrid : r.pull_request_id = prID := by simpa using List.find?_some hr
    obtain ⟨q, hq, au, _, hqe, _, hpq⟩ := getPullRequestByExternalID_ok hi2.schema hget
    have hqr : q = r := key_inj (fun p : PullRequestRow => p.pull_request_id)
      hi2.schema.prs_pull_request_id hq hrmem (hqe.trans hrid.symm)
    subst hqr
    have hstamp := (hi2.merged_stamp q hq).mp hrst
    refine ⟨pr, hpr, ?_, ?_, ?_, q, hq, hqe, hrst, hstamp, ?_⟩
    · rw [hpq]; exact hqe
    · rw [hpq]; exact hrst
    · rw [hpq]; exact hstamp
    · rw [hpq]
  refine ⟨⟨fun h p hp hpe => ?_, fun h => ?_⟩, fun h => ?_, hpost, MergePullRequest_revs s now prID⟩
  · obtain ⟨pr, hpr, _⟩ := hpost ⟨p, hp, hpe⟩
    rw [hpr] at h
    cases h
  · rw [MergePullRequest_of_absent now h]
  · rw [MergePullRequest_of_absent now h]

theorem C10_witness :
    ((MergePullRequest (runCalls Store.empty scenarioMove) 8 "p").1 = .error .ErrNotFound ↔
      ∀ p ∈ (runCalls Store.empty scenarioMove).pull_requests, p.pull_request_id ≠ "p") ∧
    ((∀ p ∈ (runCalls Store.empty scenarioMove).pull_requests, p.pull_request_id ≠ "p") →
      (MergePullRequest (runCalls Store.empty scenarioMove) 8 "p").2 =
        runCalls Store.empty scenarioMove) ∧
    ((∃ p ∈ (runCalls Store.empty scenarioMove).pull_requests, p.pull_request_id = "p") →
      ∃ pr, (MergePullRequest (runCalls Store.empty scenarioMove) 8 "p").1 = .ok pr ∧
        pr.ID = "p" ∧ pr.Status = .MERGED ∧ pr.MergedAt.isSome = true ∧
        (∃ row ∈ (MergePullRequest (runCalls Store.empty scenarioMove) 8 "p").2.pull_requests,
          row.pull_request_id = "p" ∧ row.status = .MERGED ∧ row.merged_at.isSome = true ∧
          row.merged_at = pr.MergedAt)) ∧
    (MergePullRequest (runCalls Store.empty scenarioMove) 8 "p").2.pr_reviewers =
      (runCalls Store.empty scenarioMove).pr_reviewers :=
  C10_merge_result (runCalls Store.empty scenarioMove) (Reachable.inv ⟨scenarioMove, rfl⟩) 8 "p"

/-! ## The exits of `ReassignReviewer` -/

/-- Over rows with pairwise different keys, the row found by key is the row that has it. -/
theorem find?_key {α β : Type} [DecidableEq β] (k : α → β) {l : List α}
    (hn : (l.map k).Nodup) {a : α} (ha : a ∈ l) {v : β} (hv : k a = v) :
    l.find? (fun b => k b = v) = some a := by
  cases hf : l.find? fun b => decide (k b = v) with
  | none =>
    have := List.find?_eq_none.mp hf a ha
    simp [hv] at this
  | some b =>
    have h1 := List.mem_of_find?_eq_some hf
    have h2 := List.find?_some hf
    simp only [decide_eq_true_eq] at h2
    rw [key_inj k hn h1 ha (h2.trans hv.symm)]

theorem ReassignReviewer_of_absent {s : Store} (rnd : Rand) {prID : String}
    (oldUserID : String) (h : ∀ p ∈ s.pull_requests, p.pull_request_id ≠ prID) :
    ReassignReviewer s rnd prID oldUserID = (.error .ErrNotFound, s) := by
  have h1 : (s.pull_requests.find? fun pr => pr.pull_request_id = prID) = none :=
    List.find?_eq_none.mpr fun p hp => by simpa using h p hp
  unfold ReassignReviewer
  rw [h1]

theorem ReassignReviewer_of_merged {s : Store} (rnd : Rand) {prID : String}
    (oldUserID : String) {row : PullRequestRow}
    (h : (s.pull_requests.find? fun pr => pr.pull_request_id = prID) = some row)
    (hst : row.status = .MERGED) :
    ReassignReviewer s rnd prID oldUserID = (.error .ErrPRMerged, s) := by
  unfold ReassignReviewer
  rw [h]
  simp only [hst, if_true]

theorem ReassignReviewer_of_no_user {s : Store} (rnd : Rand) {prID oldUserID : String}
    {row : PullRequestRow}
    (h : (s.pull_requests.find? fun pr => pr.pull_request_id = prID) = some row)
    (hst : row.status ≠ .MERGED) (hu : ∀ u ∈ s.users, u.user_id ≠ oldUserID) :
    ReassignReviewer s rnd prID oldUserID = (.error .ErrNotFound, s) := by
  have h2 : (s.users.find? fun u => u.user_id = oldUserID) = none :=
    List.find?_eq_none.mpr fun u hu' => by simpa using hu u hu'
  unfold ReassignReviewer
  rw [h]
  simp only [hst, if_false]
  rw [h2]

theorem ReassignReviewer_of_not_assigned {s : Store} (rnd : Rand) {prID oldUserID : String}
    {row : PullRequestRow}
    (h : (s.pull_requests.find? fun pr => pr.pull_request_id = prID) = some row)
    (hst : row.status ≠ .MERGED) {old : UserRow}
    (ho : (s.users.find? fun u => u.user_id = oldUserID) = some old)
    (hna : (⟨row.id, old.id⟩ : ReviewerRow) ∉ s.pr_reviewers) :
    ReassignReviewer s rnd prID oldUserID = (.error .ErrNotAssigned, s) := by
  have h3 : (s.pr_reviewers.find? fun r => r.pr_id = row.id ∧ r.reviewer_id = old.id) = none := by
    refine List.find?_eq_none.mpr fun r hr => ?_
    simp only [decide_eq_true_eq]
    intro hc
    obtain ⟨r1, r2⟩ := r
    simp only at hc
    rw [hc.1, hc.2] at hr
    exact hna hr
  unfold ReassignReviewer
  rw [h]
  simp only [hst, if_false]
  rw [ho]
  simp only []
  rw [h3]

theorem ReassignReviewer_of_no_candidate {s : Store} (rnd : Rand) {prID oldUserID : String}
    {row : PullRequestRow}
    (h : (s.pull_requests.find? fun pr => pr.pull_request_id = prID) = some row)
    (hst : row.status ≠ .MERGED) {old : UserRow}
    (ho : (s.users.find? fun u => u.user_id = oldUserID) = some old)
    (ha : (⟨row.id, old.id⟩ : ReviewerRow) ∈ s.pr_reviewers)
    (hc : reassignCandidates s row.id row.author_id old.id old.team_id = []) :
    ReassignReviewer s rnd prID oldUserID = (.error .ErrNoCandidate, s) := by
  obtain ⟨b, hb⟩ := find?_some_of_mem
    (p := fun r : ReviewerRow => decide (r.pr_id = row.id ∧ r.reviewer_id = old.id)) ha
    (by simp)
  unfold ReassignReviewer
  rw [h]
  simp only [hst, if_false]
  rw [ho]
  simp only []
  rw [hb]
  simp only []
  rw [hc]

theorem ReassignReviewer_of_candidates {s : Store} (rnd : Rand) {prID oldUserID : String}
    {row : PullRequestRow}
    (h : (s.pull_requests.find? fun pr => pr.pull_request_id = prID) = some row)
    (hst : row.status ≠ .MERGED) {old : UserRow}
    (ho : (s.users.find? fun u => u.user_id = oldUserID) = some old)
    (ha : (⟨row.id, old.id⟩ : ReviewerRow) ∈ s.pr_reviewers)
    {c : Nat × String} {cs : List (Nat × String)}
    (hc : reassignCandidates s row.id row.author_id old.id old.team_id = c :: cs) :
    ReassignReviewer s rnd prID oldUserID =
      match getPullRequestByExternalID
        { s with pr_reviewers :=
            updateReviewer s.pr_reviewers ((Shuffle (c :: cs) rnd).1.headD c).1 row.id old.id }
        prID with
      | .error e =>
        (.error e,
          { s with pr_reviewers :=
              updateReviewer s.pr_reviewers ((Shuffle (c :: cs) rnd).1.headD c).1 row.id old.id })
      | .ok pr =>
        (.ok (pr, ((Shuffle (c :: cs) rnd).1.headD c).2),
          { s with pr_reviewers :=
              updateReviewer s.pr_reviewers ((Shuffle (c :: cs) rnd).1.headD c).1 row.id old.id })
          := by
  obtain ⟨b, hb⟩ := find?_some_of_mem
    (p := fun r : ReviewerRow => decide (r.pr_id = row.id ∧ r.reviewer_id = old.id)) ha
    (by simp)
  unfold ReassignReviewer
  rw [h]
  simp only [hst, if_false]
  rw [ho]
  simp only []
  rw [hb]
  simp only []
  rw [hc]

/-- C11: in every state where external ids of pull requests are unique, `ReassignReviewer` on a
MERGED pull request fails with `ErrPRMerged` and leaves the store as it was, whatever the
old user id (of no user, of a user not assigned, of an inactive user) and whatever the
random draws. -/
theorem C11_reassign_merged (s : Store)
    (hext : (s.pull_requests.map fun p => p.pull_request_id).Nodup) (p : PullRequestRow)
    (hp : p ∈ s.pull_requests) (hm : p.status = .MERGED) (rnd : Rand) (oldUserID : String) :
    ReassignReviewer s rnd p.pull_request_id oldUserID = (.error .ErrPRMerged, s) :=
  ReassignReviewer_of_merged rnd oldUserID
    (find?_key (fun p : PullRequestRow => p.pull_request_id) hext hp rfl) hm

theorem C11_witness :
    ReassignReviewer (runCalls Store.empty scenarioA) [] "p1" "ghost" =
      (.error .ErrPRMerged, runCalls Store.empty scenarioA) :=
  C11_reassign_merged (runCalls Store.empty scenarioA) (by decide)
    { id := 1, pull_request_id := "p1", name := "PR 1", author_id := 1, status := .MERGED,
      created_at := 10, merged_at := some 20 } (by decide) rfl [] "ghost"

/-- C12 (counterexample): the pull request `p1` is MERGED and no user has the external id
`ghost`; `ReassignReviewer` fails with `ErrPRMerged`, not with `ErrNotFound`. -/
theorem C12_counterexample :
    (∀ u ∈ (runCalls Store.empty scenarioA).users, u.user_id ≠ "ghost") ∧
    (ReassignReviewer (runCalls Store.empty scenarioA) [] "p1" "ghost").1 =
      .error .ErrPRMerged ∧
    (ReassignReviewer (runCalls Store.empty scenarioA) [] "p1" "ghost").1 ≠
      .error .ErrNotFound := by
  have h : (ReassignReviewer (runCalls Store.empty scenarioA) [] "p1" "ghost").1 =
      .error .ErrPRMerged := rfl
  refine ⟨by decide, h, ?_⟩
  rw [h]
  intro e
  cases e

/-- C12 (amended): in every state where external ids of pull requests are unique,
`ReassignReviewer` fails with `ErrNotFound`, leaving the store as it was, when no pull request
has the external id, and when the pull request is not MERGED and no user has the old user id;
on a MERGED pull request it fails with `ErrPRMerged` also when the user is absent. -/
theorem C12_reassign_not_found (s : Store)
    (hext : (s.pull_requests.map fun p => p.pull_request_id).Nodup) (rnd : Rand)
    (prID oldUserID : String) :
    ((∀ p ∈ s.pull_requests, p.pull_request_id ≠ prID) →
      ReassignReviewer s rnd prID oldUserID = (.error .ErrNotFound, s)) ∧
    (∀ p ∈ s.pull_requests, p.pull_request_id = prID → p.status ≠ .MERGED →
      (∀ u ∈ s.users, u.user_id ≠ oldUserID) →
      ReassignReviewer s rnd prID oldUserID = (.error .ErrNotFound, s)) ∧
    (∀ p ∈ s.pull_requests, p.pull_request_id = prID → p.status = .MERGED →
      (∀ u ∈ s.users, u.user_id ≠ oldUserID) →
      ReassignReviewer s rnd prID oldUserID = (.error .ErrPRMerged, s)) :=
  ⟨fun h => ReassignReviewer_of_absent rnd oldUserID h,
   fun _ hp hid hst hu => ReassignReviewer_of_no_user rnd
    (find?_key (fun p : PullRequestRow => p.pull_request_id) hext hp hid) hst hu,
   fun _ hp hid hst _ => ReassignReviewer_of_merged rnd oldUserID
    (find?_key (fun p : PullRequestRow => p.pull_request_id) hext hp hid) hst⟩

theorem C12_witness :
    ((∀ p ∈ (runCalls Store.empty scenarioMove).pull_requests, p.pull_request_id ≠ "p") →
      ReassignReviewer (runCalls Store.empty scenarioMove) [] "p" "ghost" =
        (.error .ErrNotFound, runCalls Store.empty scenarioMove)) ∧
    (∀ p ∈ (runCalls Store.empty scenarioMove).pull_requests, p.pull_request_id = "p" →
      p.status ≠ .MERGED →
      (∀ u ∈ (runCalls Store.empty scenarioMove).users, u.user_id ≠ "ghost") →
      ReassignReviewer (runCalls Store.empty scenarioMove) [] "p" "ghost" =
        (.error .ErrNotFound, runCalls Store.empty scenarioMove)) ∧
    (∀ p ∈ (runCalls Store.empty scenarioMove).pull_requests, p.pull_request_id = "p" →
      p.status = .MERGED →
      (∀ u ∈ (runCalls Store.empty scenarioMove).users, u.user_id ≠ "ghost") →
      ReassignReviewer (runCalls Store.empty scenarioMove) [] "p" "ghost" =
        (.error .ErrPRMerged, runCalls Store.empty scenarioMove)) :=
  C12_reassign_not_found (runCalls Store.empty scenarioMove) (by decide) [] "p" "ghost"

/-- C13: in every state where external ids of pull requests and of users are unique,
`ReassignReviewer` on a pull request that is not MERGED, for an existing user with no
assignment row on it, fails with `ErrNotAssigned` and leaves the store as it was, whatever the
candidates of the user's team would be. -/
theorem C13_reassign_not_assigned (s : Store)
    (hext : (s.pull_requests.map fun p => p.pull_request_id).Nodup)
    (huext : (s.users.map fun u => u.user_id).Nodup) (p : PullRequestRow)
    (hp : p ∈ s.pull_requests) (hopen : p.status = .OPEN) (u : UserRow) (hu : u ∈ s.users)
    (hna : (⟨p.id, u.id⟩ : ReviewerRow) ∉ s.pr_reviewers) (rnd : Rand) :
    ReassignReviewer s rnd p.pull_request_id u.user_id = (.error .ErrNotAssigned, s) :=
  ReassignReviewer_of_not_assigned rnd
    (find?_key (fun p : PullRequestRow => p.pull_request_id) hext hp rfl)
    (by rw [hopen]; decide)
    (find?_key (fun u : UserRow => u.user_id) huext hu rfl) hna

theorem C13_witness :
    ReassignReviewer (runCalls Store.empty scenarioMove) [] "p" "y" =
      (.error .ErrNotAssigned, runCalls Store.empty scenarioMove) :=
  C13_reassign_not_assigned (runCalls Store.empty scenarioMove) (by decide) (by decide)
    { id := 1, pull_request_id := "p", name := "n", author_id := 1, status := .OPEN,
      created_at := 5, merged_at := none } (by decide) rfl
    { id := 4, user_id := "y", username := "Y", team_id := 2, is_active := 1 } (by decide)
    (by decide) []

/-! ## The pool of a manual reassignment -/

/-- Among rows of `users`, belonging to a list by internal id and by external id agree. -/
theorem mem_ids_iff_mem_ext {s : Store} (hs : SchemaOK s) {u : UserRow} (hu : u ∈ s.users)
    {l : List UserRow} (hl : ∀ v ∈ l, v ∈ s.users) :
    u.id ∈ l.map (fun v => v.id) ↔ u.user_id ∈ l.map fun v => v.user_id := by
  constructor
  · intro h
    obtain ⟨v, hv, e⟩ := List.mem_map.mp h
    have : v = u := key_inj (fun u : UserRow => u.id) hs.users_pk (hl v hv) hu e
    exact List.mem_map.mpr ⟨v, hv, by rw [this]⟩
  · intro h
    obtain ⟨v, hv, e⟩ := List.mem_map.mp h
    have : v = u := key_inj (fun u : UserRow => u.user_id) hs.users_user_id (hl v hv) hu e
    exact List.mem_map.mpr ⟨v, hv, by rw [this]⟩

theorem id_ne_iff_ext_ne {s : Store} (hs : SchemaOK s) {u v : UserRow} (hu : u ∈ s.users)
    (hv : v ∈ s.users) : u.id ≠ v.id ↔ u.user_id ≠ v.user_id := by
  constructor
  · intro h e
    exact h (congrArg (fun u : UserRow => u.id)
      (key_inj (fun u : UserRow => u.user_id) hs.users_user_id hu hv e))
  · intro h e
    exact h (congrArg (fun u : UserRow => u.user_id)
      (key_inj (fun u : UserRow => u.id) hs.users_pk hu hv e))

/-- The candidates of the source, by external id, are the pool of the specification. -/
theorem reassignCandidates_pool {s : Store} (hs : SchemaOK s) {row : PullRequestRow}
    (hrow : row ∈ s.pull_requests) {old : UserRow} (hold : old ∈ s.users) :
    (reassignCandidates s row.id row.author_id old.id old.team_id).map (fun c => c.2) =
      reassignPool s row.pull_request_id old.user_id := by
  obtain ⟨au, hau, hau2⟩ := List.mem_map.mp (hs.prs_author row hrow)
  have hget := getPullRequestByExternalID_of_mem hs.users_pk hs.prs_pk hs.prs_pull_request_id
    hrow hau hau2.symm
  have hfind : (s.users.find? fun u => u.user_id = old.user_id) = some old :=
    find?_key (fun u : UserRow => u.user_id) hs.users_user_id hold rfl
  unfold reassignPool reassignCandidates
  rw [hget, hfind]
  simp only [List.map_map, List.filter_filter]
  have : (s.users.filter fun u =>
        (decide (u.id ≠ old.id ∧ u.id ≠ row.author_id ∧
          u.id ∉ (s.pr_reviewers.filter fun r => r.pr_id = row.id).map fun r => r.reviewer_id)
        && decide (u.team_id = old.team_id ∧ u.is_active = 1))) =
      s.users.filter fun u =>
        decide (u.team_id = old.team_id ∧ u.is_active = 1 ∧ u.user_id ≠ old.user_id ∧
          u.user_id ≠ au.user_id ∧
          u.user_id ∉ (assignedUsers s row.id).map fun u => u.user_id) := by
    apply List.filter_congr
    intro u hu
    have h1 := id_ne_iff_ext_ne hs hu hold
    have h2 : u.id ≠ row.author_id ↔ u.user_id ≠ au.user_id := by
      rw [← hau2]; exact id_ne_iff_ext_ne hs hu hau
    have h3 : u.id ∈ ((s.pr_reviewers.filter fun r => r.pr_id = row.id).map
        fun r => r.reviewer_id) ↔ u.user_id ∈ (assignedUsers s row.id).map fun u => u.user_id := by
      have := assignedUsers_ids hs.users_pk hs.revs_reviewer row.id
      unfold reviewersOf at this
      rw [← this]
      exact mem_ids_iff_mem_ext hs hu fun v hv => (mem_assignedUsers hv).1
    rw [Bool.eq_iff_iff]
    simp only [Bool.and_eq_true, decide_eq_true_eq, h1, h2, h3]
    constructor
    · rintro ⟨⟨a, b, c⟩, d, e⟩
      exact ⟨d, e, a, b, c⟩
    · rintro ⟨d, e, a, b, c⟩
      exact ⟨⟨a, b, c⟩, d, e⟩
  rw [this]
  rfl

/-- What a successful `ReassignReviewer` went through. -/
theorem ReassignReviewer_ok {s : Store} {rnd : Rand} {prID oldUserID : String}
    {pr : PullRequest} {c : String}
    (h : (ReassignReviewer s rnd prID oldUserID).1 = .ok (pr, c)) :
    ∃ row old cand cs,
      (s.pull_requests.find? fun pr => pr.pull_request_id = prID) = some row ∧
      row.status ≠ .MERGED ∧
      (s.users.find? fun u => u.user_id = oldUserID) = some old ∧
      (⟨row.id, old.id⟩ : ReviewerRow) ∈ s.pr_reviewers ∧
      reassignCandidates s row.id row.author_id old.id old.team_id = cand :: cs ∧
      c = ((Shuffle (cand :: cs) rnd).1.headD cand).2 ∧
      (ReassignReviewer s rnd prID oldUserID).2 =
        { s with pr_reviewers :=
            (updateReviewer s.pr_reviewers ((Shuffle (cand :: cs) rnd).1.headD cand).1 row.id
              old.id) } ∧
      getPullRequestByExternalID (ReassignReviewer s rnd prID oldUserID).2 prID = .ok pr := by
  cases h1 : s.pull_requests.find? fun pr => pr.pull_request_id = prID with
  | none =>
    rw [ReassignReviewer_of_absent rnd oldUserID
      (fun p hp => by simpa using List.find?_eq_none.mp h1 p hp)] at h
    cases h
  | some row =>
    by_cases hst : row.status = .MERGED
    · rw [ReassignReviewer_of_merged rnd oldUserID h1 hst] at h
      cases h
    · cases h2 : s.users.find? fun u => u.user_id = oldUserID with
      | none =>
        rw [ReassignReviewer_of_no_user rnd h1 hst
          (fun u hu => by simpa using List.find?_eq_none.mp h2 u hu)] at h
        cases h
      | some old =>
        by_cases ha : (⟨row.id, old.id⟩ : ReviewerRow) ∈ s.pr_reviewers
        · cases h3 : reassignCandidates s row.id row.author_id old.id old.team_id with
          | nil =>
            rw [ReassignReviewer_of_no_candidate rnd h1 hst h2 ha h3] at h
            cases h
          | cons cand cs =>
            have he := ReassignReviewer_of_candidates rnd h1 hst h2 ha h3
            rw [he] at h ⊢
            refine ⟨row, old, cand, cs, rfl, hst, rfl, ha, h3, ?_⟩
            cases hg : getPullRequestByExternalID
              { s with pr_reviewers :=
                  (updateReviewer s.pr_reviewers ((Shuffle (cand :: cs) rnd).1.headD cand).1
                    row.id old.id) } prID with
            | error e =>
              rw [hg] at h
              cases h
            | ok pr2 =>
              rw [hg] at h ⊢
              simp only [Except.ok.injEq, Prod.mk.injEq] at h
              exact ⟨h.2.symm, rfl, by rw [h.1]⟩
        · rw [ReassignReviewer_of_not_assigned rnd h1 hst h2 ha] at h
          cases h

/-- The reviewers joined to the rows of one pull request, after the `UPDATE` that repoints the
row of `ou` to `cu`: in the list of the model the external id of `ou` is replaced by that
of `cu`. -/
theorem join_update {s : Store} (hs : SchemaOK s) {cu ou : UserRow} (hcu : cu ∈ s.users)
    (hou : ou ∈ s.users) (pid : Nat) :
    ∀ L : List ReviewerRow,
      (∀ r ∈ L, r.pr_id = pid ∧ r.reviewer_id ∈ s.users.map fun u => u.id) →
      (((updateReviewer L cu.id pid ou.id).flatMap
          fun r => s.users.filter fun u => r.reviewer_id = u.id).map fun u => u.user_id) =
        ((L.flatMap fun r => s.users.filter fun u => r.reviewer_id = u.id).map
          fun u => u.user_id).map fun x => if x = ou.user_id then cu.user_id else x
  | [], _ => rfl
  | r :: t, h => by
    have ih := join_update hs hcu hou pid t fun r hr => h r (List.mem_cons_of_mem _ hr)
    obtain ⟨hr1, hr2⟩ := h r (List.mem_cons_self _ _)
    obtain ⟨v, hv, hv2⟩ := List.mem_map.mp hr2
    have hupd : updateReviewer (r :: t) cu.id pid ou.id =
        (if r.pr_id = pid ∧ r.reviewer_id = ou.id then { r with reviewer_id := cu.id } else r) ::
          updateReviewer t cu.id pid ou.id := rfl
    rw [hupd, List.flatMap_cons, List.flatMap_cons, List.map_append, List.map_append,
      List.map_append, ih]
    congr 1
    rw [filter_id_eq hs.users_pk hv hv2.symm]
    by_cases hro : r.reviewer_id = ou.id
    · rw [if_pos ⟨hr1, hro⟩]
      have : v = ou := key_inj (fun u : UserRow => u.id) hs.users_pk hv hou (hv2.trans hro)
      subst this
      rw [filter_id_eq hs.users_pk hcu rfl]
      simp
    · rw [if_neg fun hc => hro hc.2, filter_id_eq hs.users_pk hv hv2.symm]
      have hne : v.user_id ≠ ou.user_id :=
        (id_ne_iff_ext_ne hs hv hou).mp fun e => hro (hv2.symm.trans e)
      simp [hne]

/-- C14: in every state satisfying the schema, for a pull request that is OPEN and an old
reviewer assigned to it, `ReassignReviewer` fails with `ErrNoCandidate` exactly when the pool
(active users of the old reviewer's team, without the old reviewer, the author and the users
already assigned) is empty; when it fails so, the store is as it was and the assignment of
the old reviewer is still there. -/
theorem C14_reassign_no_candidate (s : Store) (hs : SchemaOK s) (p : PullRequestRow)
    (hp : p ∈ s.pull_requests) (hopen : p.status = .OPEN) (u : UserRow) (hu : u ∈ s.users)
    (hass : (⟨p.id, u.id⟩ : ReviewerRow) ∈ s.pr_reviewers) (rnd : Rand) :
    ((ReassignReviewer s rnd p.pull_request_id u.user_id).1 = .error .ErrNoCandidate ↔
      reassignPool s p.pull_request_id u.user_id = []) ∧
    ((ReassignReviewer s rnd p.pull_request_id u.user_id).1 = .error .ErrNoCandidate →
      (ReassignReviewer s rnd p.pull_request_id u.user_id).2 = s ∧
      (⟨p.id, u.id⟩ : ReviewerRow) ∈
        (ReassignReviewer s rnd p.pull_request_id u.user_id).2.pr_reviewers) := by
  have h1 := find?_key (fun p : PullRequestRow => p.pull_request_id) hs.prs_pull_request_id hp rfl
  have h2 := find?_key (fun u : UserRow => u.user_id) hs.users_user_id hu rfl
  have hst : p.status ≠ .MERGED := by rw [hopen]; decide
  have hpool := reassignCandidates_pool hs hp hu
  cases h3 : reassignCandidates s p.id p.author_id u.id u.team_id with
  | nil =>
    rw [h3] at hpool
    rw [ReassignReviewer_of_no_candidate rnd h1 hst h2 hass h3, ← hpool]
    exact ⟨⟨fun _ => rfl, fun _ => rfl⟩, fun _ => ⟨rfl, hass⟩⟩
  | cons c cs =>
    rw [h3] at hpool
    have hne : (ReassignReviewer s rnd p.pull_request_id u.user_id).1 ≠
        .error .ErrNoCandidate := by
      rw [ReassignReviewer_of_candidates rnd h1 hst h2 hass h3]
      cases hg : getPullRequestByExternalID
        { s with pr_reviewers :=
            (updateReviewer s.pr_reviewers ((Shuffle (c :: cs) rnd).1.headD c).1 p.id u.id) }
        p.pull_request_id with
      | error e =>
        have := getPullRequestByExternalID_error hg
        subst this
        simp
      | ok pr => simp
    refine ⟨⟨fun h => absurd h hne, fun h => ?_⟩, fun h => absurd h hne⟩
    rw [← hpool] at h
    cases h

theorem C14_witness :
    ((ReassignReviewer (runCalls Store.empty scenarioMove) [] "p" "x").1 =
        .error .ErrNoCandidate ↔ reassignPool (runCalls Store.empty scenarioMove) "p" "x" = []) ∧
    ((ReassignReviewer (runCalls Store.empty scenarioMove) [] "p" "x").1 =
        .error .ErrNoCandidate →
      (ReassignReviewer (runCalls Store.empty scenarioMove) [] "p" "x").2 =
        runCalls Store.empty scenarioMove ∧
      (⟨1, 3⟩ : ReviewerRow) ∈
        (ReassignReviewer (runCalls Store.empty scenarioMove) [] "p" "x").2.pr_reviewers) :=
  C14_reassign_no_candidate (runCalls Store.empty scenarioMove)
    (Reachable.inv ⟨scenarioMove, rfl⟩).schema
    { id := 1, pull_request_id := "p", name := "n", author_id := 1, status := .OPEN,
      created_at := 5, merged_at := none } (by decide) rfl
    { id := 3, user_id := "x", username := "X", team_id := 1, is_active := 1 } (by decide)
    (by decide) []

/-- C15: in every state satisfying the schema, when `ReassignReviewer` succeeds, for every
outcome of the shuffle, the replacement returned is a member of the pool: an active user of
the old reviewer's team, other than the old reviewer and the author, not assigned to the
pull request before; the pull request returned is the one read before the call in every
field but the reviewers, and its reviewers are, up to their order, those before with the old
reviewer replaced by the replacement, so that their number is unchanged and the other
reviewer stays; a pool of one member gives that member. -/
theorem C15_reassign_success (s : Store) (hs : SchemaOK s) (rnd : Rand)
    (prID oldUserID : String) (pr : PullRequest) (c : String)
    (h : (ReassignReviewer s rnd prID oldUserID).1 = .ok (pr, c)) :
    c ∈ reassignPool s prID oldUserID ∧
    (∀ x, reassignPool s prID oldUserID = [x] → c = x) ∧
    (∃ u ∈ s.users, ∃ old ∈ s.users, u.user_id = c ∧ old.user_id = oldUserID ∧
      u.team_id = old.team_id ∧ u.is_active = 1 ∧ c ≠ oldUserID) ∧
    ∃ prev, getPullRequestByExternalID s prID = .ok prev ∧
      oldUserID ∈ prev.AssignedReviewers ∧ c ∉ prev.AssignedReviewers ∧ c ≠ prev.AuthorID ∧
      pr.ID = prev.ID ∧ pr.Name = prev.Name ∧ pr.AuthorID = prev.AuthorID ∧
      pr.Status = prev.Status ∧ pr.CreatedAt = prev.CreatedAt ∧ pr.MergedAt = prev.MergedAt ∧
      pr.AssignedReviewers.Perm
        (prev.AssignedReviewers.map fun x => if x = oldUserID then c else x) ∧
      (∀ x, x ∈ pr.AssignedReviewers ↔ (x ∈ prev.AssignedReviewers ∧ x ≠ oldUserID) ∨ x = c) ∧
      pr.AssignedReviewers.length = prev.AssignedReviewers.length ∧
      getPullRequestByExternalID (ReassignReviewer s rnd prID oldUserID).2 prID = .ok pr := by
  obtain ⟨row, old, cand, cs, h1, hst, h2, ha, h3, hc, htx, hget⟩ := ReassignReviewer_ok h
  have hrow := List.mem_of_find?_eq_some h1
  have hrid : row.pull_request_id = prID := by simpa using List.find?_some h1
  have hold := List.mem_of_find?_eq_some h2
  have hoid : old.user_id = oldUserID := by simpa using List.find?_some h2
  have hch : (Shuffle (cand :: cs) rnd).1.headD cand ∈
      reassignCandidates s row.id row.author_id old.id old.team_id := by
    rw [h3]; exact Shuffle_headD_mem cand cs rnd
  obtain ⟨u, hu, hu1, hu2, hu3, hu4, hu5, hu6, hu7⟩ := mem_reassignCandidates hch
  have hpool := reassignCandidates_pool hs hrow hold
  rw [hrid, hoid] at hpool
  have hcu : u.user_id = c := by rw [hu2, hc]
  have hcmem : c ∈ reassignPool s prID oldUserID := by
    rw [← hpool, hc]
    exact List.mem_map_of_mem (fun c => c.2) hch
  obtain ⟨au, hau, hau2⟩ := List.mem_map.mp (hs.prs_author row hrow)
  have hprev := getPullRequestByExternalID_of_mem hs.users_pk hs.prs_pk hs.prs_pull_request_id
    hrow hau hau2.symm
  have hpost := getPullRequestByExternalID_of_mem
    (s := { s with pr_reviewers :=
      (updateReviewer s.pr_reviewers ((Shuffle (cand :: cs) rnd).1.headD cand).1 row.id old.id) })
    hs.users_pk hs.prs_pk hs.prs_pull_request_id hrow hau hau2.symm
  rw [hrid] at hprev hpost
  rw [htx, hpost] at hget
  simp only [Except.ok.injEq] at hget
  have hjoin : (assignedUsers
      { s with pr_reviewers :=
        (updateReviewer s.pr_reviewers ((Shuffle (cand :: cs) rnd).1.headD cand).1 row.id
          old.id) } row.id).map (fun u => u.user_id) =
      ((assignedUsers s row.id).map fun u => u.user_id).map
        fun x => if x = oldUserID then c else x := by
    unfold assignedUsers reviewersOf
    simp only []
    rw [filter_updateReviewer, ← hu1, ← hoid, ← hcu]
    exact join_update hs hu hold row.id _ fun r hr =>
      ⟨by simpa using (List.mem_filter.mp hr).2, hs.revs_reviewer r (List.mem_filter.mp hr).1⟩
  have holdmem : oldUserID ∈ (assignedUsers s row.id).map fun u => u.user_id := by
    rw [← hoid]
    refine List.mem_map_of_mem (fun u : UserRow => u.user_id) ?_
    unfold assignedUsers reviewersOf
    exact List.mem_flatMap.mpr ⟨⟨row.id, old.id⟩, List.mem_filter.mpr ⟨ha, by simp⟩,
      List.mem_filter.mpr ⟨hold, by simp⟩⟩
  have hcnot : c ∉ (assignedUsers s row.id).map fun u => u.user_id := by
    intro hm
    obtain ⟨v, hv, hv2⟩ := List.mem_map.mp hm
    obtain ⟨hv3, hv4⟩ := mem_assignedUsers hv
    have : v = u := key_inj (fun u : UserRow => u.user_id) hs.users_user_id hv3 hu
      (hv2.trans hcu.symm)
    subst this
    exact hu7 hv4
  refine ⟨hcmem, ?_, ?_, _, hprev, holdmem, hcnot, ?_, by rw [← hget], by rw [← hget],
    by rw [← hget], by rw [← hget], by rw [← hget], by rw [← hget], ?_, ?_, ?_, ?_⟩
  · intro x hx
    rw [hx] at hcmem
    exact List.mem_singleton.mp hcmem
  · refine ⟨u, hu, old, hold, hcu, hoid, hu3, hu4, ?_⟩
    rw [← hcu, ← hoid]
    exact (id_ne_iff_ext_ne hs hu hold).mp hu5
  · rw [← hcu]
    refine (id_ne_iff_ext_ne hs hu hau).mp ?_
    rw [hau2]
    exact hu6
  · rw [← hget]
    simp only []
    rw [hjoin]
  · intro x
    rw [← hget]
    simp only []
    rw [hjoin, List.mem_map]
    constructor
    · rintro ⟨y, hy, rfl⟩
      by_cases hyo : y = oldUserID
      · rw [if_pos hyo]; exact Or.inr rfl
      · rw [if_neg hyo]; exact Or.inl ⟨hy, hyo⟩
    · rintro (⟨hx, hxo⟩ | rfl)
      · exact ⟨x, hx, by rw [if_neg hxo]⟩
      · exact ⟨oldUserID, holdmem, by rw [if_pos rfl]⟩
  · rw [← hget]
    simp only []
    rw [hjoin, List.length_map]
  · rw [htx, hpost, hget]

theorem C15_witness :
    "y" ∈ reassignPool (runCalls Store.empty scenarioMove) "p" "r1" ∧
    (∀ x, reassignPool (runCalls Store.empty scenarioMove) "p" "r1" = [x] → "y" = x) ∧
    (∃ u ∈ (runCalls Store.empty scenarioMove).users,
      ∃ old ∈ (runCalls Store.empty scenarioMove).users, u.user_id = "y" ∧
        old.user_id = "r1" ∧ u.team_id = old.team_id ∧ u.is_active = 1 ∧ "y" ≠ "r1") ∧
    ∃ prev, getPullRequestByExternalID (runCalls Store.empty scenarioMove) "p" = .ok prev ∧
      "r1" ∈ prev.AssignedReviewers ∧ "y" ∉ prev.AssignedReviewers ∧ "y" ≠ prev.AuthorID ∧
      "p" = prev.ID ∧ "n" = prev.Name ∧ "a" = prev.AuthorID ∧ Status.OPEN = prev.Status ∧
      some 5 = prev.CreatedAt ∧ none = prev.MergedAt ∧
      ["x", "y"].Perm (prev.AssignedReviewers.map fun x => if x = "r1" then "y" else x) ∧
      (∀ x, x ∈ ["x", "y"] ↔ (x ∈ prev.AssignedReviewers ∧ x ≠ "r1") ∨ x = "y") ∧
      ["x", "y"].length = prev.AssignedReviewers.length ∧
      getPullRequestByExternalID
        (ReassignReviewer (runCalls Store.empty scenarioMove) [] "p" "r1").2 "p" =
        .ok { ID := "p", Name := "n", AuthorID := "a", Status := .OPEN,
              AssignedReviewers := ["x", "y"], CreatedAt := some 5, MergedAt := none } :=
  C15_reassign_success (runCalls Store.empty scenarioMove)
    (Reachable.inv ⟨scenarioMove, rfl⟩).schema [] "p" "r1"
    { ID := "p", Name := "n", AuthorID := "a", Status := .OPEN,
      AssignedReviewers := ["x", "y"], CreatedAt := some 5, MergedAt := none } "y" rfl

/-! ## The exits of `BulkDeactivateUsersAndReassign` -/

theorem resolveUsers_none {users : List UserRow} {teamID : Nat} :
    ∀ {userIDs : List String},
      (∃ uid ∈ userIDs, ∀ u ∈ users, u.user_id = uid → u.team_id ≠ teamID) →
      resolveUsers users teamID userIDs = none
  | [], h => by
    obtain ⟨_, h, _⟩ := h
    cases h
  | uid :: rest, h => by
    unfold resolveUsers
    cases hf : users.find? fun u => u.team_id = teamID ∧ u.user_id = uid with
    | none => rfl
    | some u =>
      obtain ⟨bad, hbad, hb⟩ := h
      have hu := List.mem_of_find?_eq_some hf
      have hp := List.find?_some hf
      simp only [decide_eq_true_eq] at hp
      rcases List.mem_cons.mp hbad with rfl | hbad
      · exact absurd hp.1 (hb u hu hp.2)
      · simp only []
        rw [resolveUsers_none ⟨bad, hbad, hb⟩]

theorem resolveUsers_isSome {users : List UserRow} {teamID : Nat} :
    ∀ {userIDs : List String},
      (∀ uid ∈ userIDs, ∃ u ∈ users, u.user_id = uid ∧ u.team_id = teamID) →
      ∃ ds, resolveUsers users teamID userIDs = some ds
  | [], _ => ⟨[], rfl⟩
  | uid :: rest, h => by
    obtain ⟨u, hu, hu1, hu2⟩ := h uid (List.mem_cons_self _ _)
    obtain ⟨v, hv⟩ := find?_some_of_mem
      (p := fun u : UserRow => decide (u.team_id = teamID ∧ u.user_id = uid)) hu
      (by simp [hu1, hu2])
    obtain ⟨ds, hds⟩ := @resolveUsers_isSome users teamID rest
      fun x hx => h x (List.mem_cons_of_mem _ hx)
    refine ⟨(v.id, uid) :: ds, ?_⟩
    unfold resolveUsers
    rw [hv]
    simp only []
    rw [hds]

theorem BulkDeactivateUsersAndReassign_of_empty (s : Store) (rnd : Rand) (teamName : String) :
    BulkDeactivateUsersAndReassign s rnd teamName [] = (.error .Internal, s) := rfl

theorem BulkDeactivateUsersAndReassign_of_no_team {s : Store} (rnd : Rand) {teamName : String}
    {userIDs : List String} (hne : userIDs ≠ [])
    (h : ∀ t ∈ s.teams, t.name ≠ teamName) :
    BulkDeactivateUsersAndReassign s rnd teamName userIDs = (.error .ErrNotFound, s) := by
  have h1 : (s.teams.find? fun t => t.name = teamName) = none :=
    List.find?_eq_none.mpr fun t ht => by simpa using h t ht
  have h0 : ¬ userIDs.length = 0 := fun e => hne (List.length_eq_zero.mp e)
  unfold BulkDeactivateUsersAndReassign
  rw [if_neg h0, h1]

theorem BulkDeactivateUsersAndReassign_of_unresolved {s : Store} (rnd : Rand)
    {teamName : String} {userIDs : List String} {t : TeamRow}
    (ht : (s.teams.find? fun t => t.name = teamName) = some t)
    (h : ∃ uid ∈ userIDs, ∀ u ∈ s.users, u.user_id = uid → u.team_id ≠ t.id) :
    BulkDeactivateUsersAndReassign s rnd teamName userIDs = (.error .ErrNotFound, s) := by
  have h0 : ¬ userIDs.length = 0 := by
    obtain ⟨uid, hu, _⟩ := h
    intro e
    rw [List.length_eq_zero.mp e] at hu
    cases hu
  unfold BulkDeactivateUsersAndReassign
  rw [if_neg h0, ht]
  simp only []
  rw [resolveUsers_none h]

theorem BulkDeactivateUsersAndReassign_of_resolved {s : Store} (rnd : Rand)
    {teamName : String} {userIDs : List String} (hne : userIDs ≠ []) {t : TeamRow}
    (ht : (s.teams.find? fun t => t.name = teamName) = some t) {ds : List (Nat × String)}
    (hds : resolveUsers s.users t.id userIDs = some ds) :
    BulkDeactivateUsersAndReassign s rnd teamName userIDs =
      (.ok
        { TeamName := teamName
          DeactivatedUserIDs := ds.map fun u => u.2
          ReassignedCount := (ds.foldl
            (fun st u => cascadeUser s.pull_requests
              (((ds.foldl (fun us u => deactivateUser us u.1) s.users).filter
                fun u => u.team_id = t.id ∧ u.is_active = 1).map fun u => u.id) st u.1)
            { pr_reviewers := s.pr_reviewers, reassignedCount := 0, removedCount := 0,
              rnd := rnd }).reassignedCount
          RemovedAssignments := (ds.foldl
            (fun st u => cascadeUser s.pull_requests
              (((ds.foldl (fun us u => deactivateUser us u.1) s.users).filter
                fun u => u.team_id = t.id ∧ u.is_active = 1).map fun u => u.id) st u.1)
            { pr_reviewers := s.pr_reviewers, reassignedCount := 0, removedCount := 0,
              rnd := rnd }).removedCount },
       { s with
          users := ds.foldl (fun us u => deactivateUser us u.1) s.users
          pr_reviewers := (ds.foldl
            (fun st u => cascadeUser s.pull_requests
              (((ds.foldl (fun us u => deactivateUser us u.1) s.users).filter
                fun u => u.team_id = t.id ∧ u.is_active = 1).map fun u => u.id) st u.1)
            { pr_reviewers := s.pr_reviewers, reassignedCount := 0, removedCount := 0,
              rnd := rnd }).pr_reviewers }) := by
  have h0 : ¬ userIDs.length = 0 := fun e => hne (List.length_eq_zero.mp e)
  unfold BulkDeactivateUsersAndReassign
  rw [if_neg h0, ht]
  simp only []
  rw [hds]

/-- What a successful `BulkDeactivateUsersAndReassign` went through. -/
theorem BulkDeactivateUsersAndReassign_ok {s : Store} {rnd : Rand} {teamName : String}
    {userIDs : List String} {res : BulkDeactivateResult}
    (h : (BulkDeactivateUsersAndReassign s rnd teamName userIDs).1 = .ok res) :
    ∃ t ds, userIDs ≠ [] ∧ (s.teams.find? fun t => t.name = teamName) = some t ∧
      resolveUsers s.users t.id userIDs = some ds := by
  cases userIDs with
  | nil =>
    rw [BulkDeactivateUsersAndReassign_of_empty] at h
    cases h
  | cons uid rest =>
    cases ht : s.teams.find? fun t => t.name = teamName with
    | none =>
      rw [BulkDeactivateUsersAndReassign_of_no_team rnd (List.cons_ne_nil _ _)
        (fun t h' => by simpa using List.find?_eq_none.mp ht t h')] at h
      cases h
    | some t =>
      cases hds : resolveUsers s.users t.id (uid :: rest) with
      | none =>
        unfold BulkDeactivateUsersAndReassign at h
        rw [if_neg (by simp), ht] at h
        simp only [] at h
        rw [hds] at h
        cases h
      | some ds => exact ⟨t, ds, List.cons_ne_nil _ _, rfl, hds⟩

/-- C16: in every state where team names are unique, for an existing team and a list of user
ids of which one, wherever it sits, is not the external id of a user of that team (an
unknown id, or a user of another team), `BulkDeactivateUsersAndReassign` fails with
`ErrNotFound` and leaves the whole store as it was: no flag and no assignment is changed. -/
theorem C16_bulk_all_or_nothing (s : Store) (hn : (s.teams.map fun t => t.name).Nodup)
    (t : TeamRow) (ht : t ∈ s.teams) (userIDs : List String)
    (hbad : ∃ uid ∈ userIDs, ∀ u ∈ s.users, u.user_id = uid → u.team_id ≠ t.id) (rnd : Rand) :
    BulkDeactivateUsersAndReassign s rnd t.name userIDs = (.error .ErrNotFound, s) :=
  BulkDeactivateUsersAndReassign_of_unresolved rnd
    (find?_key (fun t : TeamRow => t.name) hn ht rfl) hbad

theorem C16_witness :
    BulkDeactivateUsersAndReassign (runCalls Store.empty scenarioMove) [] "A" ["x", "r1"] =
      (.error .ErrNotFound, runCalls Store.empty scenarioMove) :=
  C16_bulk_all_or_nothing (runCalls Store.empty scenarioMove) (by decide)
    { id := 1, name := "A" } (by decide) ["x", "r1"] ⟨"r1", by decide, by decide⟩ []

/-- C17 (counterexample): with the empty list of user ids and no team of the given name,
`BulkDeactivateUsersAndReassign` fails with the error `empty userIDs`, not with
`ErrNotFound`. -/
theorem C17_counterexample :
    (∀ t ∈ Store.empty.teams, t.name ≠ "T") ∧
    (BulkDeactivateUsersAndReassign Store.empty [] "T" []).1 = .error .Internal ∧
    (BulkDeactivateUsersAndReassign Store.empty [] "T" []).1 ≠ .error .ErrNotFound := by
  refine ⟨by decide, rfl, ?_⟩
  rw [BulkDeactivateUsersAndReassign_of_empty]
  intro e
  cases e

/-- C17 (amended): in every state where no team has the given name,
`BulkDeactivateUsersAndReassign` fails with `ErrNotFound` for every non-empty list of user
ids, and with the error `empty userIDs` for the empty list; the store is left as it was. -/
theorem C17_bulk_no_team (s : Store) (rnd : Rand) (teamName : String) (userIDs : List String)
    (h : ∀ t ∈ s.teams, t.name ≠ teamName) :
    (userIDs ≠ [] →
      BulkDeactivateUsersAndReassign s rnd teamName userIDs = (.error .ErrNotFound, s)) ∧
    (userIDs = [] →
      BulkDeactivateUsersAndReassign s rnd teamName userIDs = (.error .Internal, s)) :=
  ⟨fun hne => BulkDeactivateUsersAndReassign_of_no_team rnd hne h,
   fun he => he ▸ BulkDeactivateUsersAndReassign_of_empty s rnd teamName⟩

theorem C17_witness :
    (["u1"] ≠ [] →
      BulkDeactivateUsersAndReassign (runCalls Store.empty scenarioA) [] "Z" ["u1"] =
        (.error .ErrNotFound, runCalls Store.empty scenarioA)) ∧
    (["u1"] = [] →
      BulkDeactivateUsersAndReassign (runCalls Store.empty scenarioA) [] "Z" ["u1"] =
        (.error .Internal, runCalls Store.empty scenarioA)) :=
  C17_bulk_no_team (runCalls Store.empty scenarioA) [] "Z" ["u1"] (by decide)

/-! ## The cascade of the source against the cascade of the specification -/

theorem isOpenPR_iff {prs : List PullRequestRow} {prIntID : Nat} :
    isOpenPR prs prIntID = true ↔ ∃ p ∈ prs, p.id = prIntID ∧ p.status = .OPEN := by
  unfold isOpenPR
  simp [List.any_eq_true]

/-- The candidates of one repair in the source are the pool of the specification. -/
theorem cascade_candidates_pool {users : List UserRow} {prs : List PullRequestRow}
    (hpk : (prs.map fun p => p.id).Nodup) (teamID : Nat) (rows : List ReviewerRow)
    {p : PullRequestRow} (hp : p ∈ prs) (d : Nat) :
    (((users.filter fun u => u.team_id = teamID ∧ u.is_active = 1).map fun u => u.id).filter
      fun c => c ≠ p.author_id ∧
        c ∉ ((rows.filter fun r => r.pr_id = p.id).map fun r => r.reviewer_id).filter
          fun r => r ≠ d) =
      cascadePool users prs teamID rows ⟨p.id, d⟩ := by
  unfold cascadePool
  rw [List.filter_map, List.filter_filter]
  congr 1
  apply List.filter_congr
  intro x _
  rw [Bool.eq_iff_iff]
  simp only [Bool.and_eq_true, decide_eq_true_eq, Function.comp, List.mem_filter, List.mem_map,
    not_and, not_exists]
  constructor
  · rintro ⟨⟨h1, h2⟩, h3, h4⟩
    refine ⟨h3, h4, fun q hq hqp => ?_, fun r hr hrp hrd e => ?_⟩
    · rw [key_inj (fun p : PullRequestRow => p.id) hpk hq hp hqp]
      exact h1
    · exact h2 ⟨r, ⟨hr, hrp⟩, e.symm⟩ (e ▸ hrd)
  · rintro ⟨h3, h4, h1, h2⟩
    refine ⟨⟨h1 p hp rfl, ?_⟩, h3, h4⟩
    rintro ⟨r, ⟨hr, hrp⟩, e⟩ hne
    exact h2 r hr hrp (e ▸ hne) e.symm

theorem joinRow_of_match {prs : List PullRequestRow} (hpk : (prs.map fun p => p.id).Nodup)
    {p : PullRequestRow} (hp : p ∈ prs) (hopen : p.status = .OPEN) (d : Nat) :
    ((prs.filter fun pr =>
        (⟨p.id, d⟩ : ReviewerRow).pr_id = pr.id ∧ (⟨p.id, d⟩ : ReviewerRow).reviewer_id = d ∧
          pr.status = .OPEN).map fun pr => (pr.id, pr.author_id)) = [(p.id, p.author_id)] := by
  have : (prs.filter fun pr =>
      (⟨p.id, d⟩ : ReviewerRow).pr_id = pr.id ∧ (⟨p.id, d⟩ : ReviewerRow).reviewer_id = d ∧
        pr.status = .OPEN) = [p] := by
    rw [← filter_key_eq (fun q : PullRequestRow => q.id) prs hpk p hp]
    apply List.filter_congr
    intro q hq
    rw [Bool.eq_iff_iff]
    simp only [decide_eq_true_eq, true_and]
    constructor
    · exact fun h => h.1
    · intro h
      exact ⟨h, (key_inj (fun q : PullRequestRow => q.id) hpk hp hq h) ▸ hopen⟩
  rw [this]
  rfl

theorem joinRow_of_not {prs : List PullRequestRow} {x : ReviewerRow} {d : Nat}
    (h : ¬ (x.reviewer_id = d ∧ isOpenPR prs x.pr_id = true)) :
    ((prs.filter fun pr => x.pr_id = pr.id ∧ x.reviewer_id = d ∧ pr.status = .OPEN).map
      fun pr => (pr.id, pr.author_id)) = [] := by
  have : (prs.filter fun pr => x.pr_id = pr.id ∧ x.reviewer_id = d ∧ pr.status = .OPEN) =
      [] := by
    rw [List.filter_eq_nil_iff]
    intro q hq
    simp only [decide_eq_true_eq]
    rintro ⟨h1, h2, h3⟩
    exact h ⟨h2, isOpenPR_iff.mpr ⟨q, hq, h1.symm, h3⟩⟩
  rw [this]
  rfl

theorem cascadeStep_nodup {activeUserIDs : List Nat} {d : Nat} (hd : d ∉ activeUserIDs)
    {st : CascadeState} (hn : st.pr_reviewers.Nodup) (row : Nat × Nat) :
    (cascadeStep activeUserIDs d st row).pr_reviewers.Nodup := by
  rcases cascadeStep_eq activeUserIDs d st row with ⟨_, he⟩ | ⟨c, hc, he⟩
  · rw [he]
    exact hn.sublist (deleteReviewer_sublist _ _ _)
  · rw [he]
    obtain ⟨hc1, _, hc3⟩ := mem_cascade_candidates hc
    exact updateReviewer_nodup hn fun hm => hd ((hc3 hm) ▸ hc1)

theorem cascadeUser_nodup {prs : List PullRequestRow} {activeUserIDs : List Nat} {d : Nat}
    (hd : d ∉ activeUserIDs) {st : CascadeState} (hn : st.pr_reviewers.Nodup) :
    (cascadeUser prs activeUserIDs st d).pr_reviewers.Nodup := by
  unfold cascadeUser
  simp only []
  exact foldl_inv (fun st' : CascadeState => st'.pr_reviewers.Nodup) _ _
    (fun st' h' row _ => cascadeStep_nodup hd h' row) st hn

/-- The inner loop of the cascade, over the rows joined to `L`, is the cascade of the
specification over the assignments of `d` on OPEN pull requests in `L`. -/
theorem cascadeRows_spec (users : List UserRow) {prs : List PullRequestRow}
    (hpk : (prs.map fun p => p.id).Nodup) (teamID d : Nat) :
    ∀ (L : List ReviewerRow) (st : CascadeState), L.Nodup →
      (∀ x ∈ L, x.reviewer_id = d → isOpenPR prs x.pr_id = true → x ∈ st.pr_reviewers) →
      SpecCascade users prs teamID
        (L.filter fun r => r.reviewer_id = d ∧ isOpenPR prs r.pr_id = true)
        (st.pr_reviewers, st.reassignedCount, st.removedCount)
        (((L.flatMap fun r =>
            (prs.filter fun pr => r.pr_id = pr.id ∧ r.reviewer_id = d ∧ pr.status = .OPEN).map
              fun pr => (pr.id, pr.author_id)).foldl
            (cascadeStep
              ((users.filter fun u => u.team_id = teamID ∧ u.is_active = 1).map fun u => u.id)
              d) st).pr_reviewers,
         ((L.flatMap fun r =>
            (prs.filter fun pr => r.pr_id = pr.id ∧ r.reviewer_id = d ∧ pr.status = .OPEN).map
              fun pr => (pr.id, pr.author_id)).foldl
            (cascadeStep
              ((users.filter fun u => u.team_id = teamID ∧ u.is_active = 1).map fun u => u.id)
              d) st).reassignedCount,
         ((L.flatMap fun r =>
            (prs.filter fun pr => r.pr_id = pr.id ∧ r.reviewer_id = d ∧ pr.status = .OPEN).map
              fun pr => (pr.id, pr.author_id)).foldl
            (cascadeStep
              ((users.filter fun u => u.team_id = teamID ∧ u.is_active = 1).map fun u => u.id)
              d) st).removedCount)
  | [], st, _, _ => SpecCascade.done _
  | x :: t, st, hL, hmem => by
    rw [List.nodup_cons] at hL
    rw [List.flatMap_cons, List.foldl_append]
    by_cases hm : x.reviewer_id = d ∧ isOpenPR prs x.pr_id = true
    · obtain ⟨p, hp, hpx, hopen⟩ := isOpenPR_iff.mp hm.2
      have hxin := hmem x (List.mem_cons_self _ _) hm.1 hm.2
      obtain ⟨xp, xr⟩ := x
      simp only at hm hpx
      obtain ⟨hxr, _⟩ := hm
      subst hxr hpx
      rw [List.filter_cons_of_pos (by simp [isOpenPR_iff]; exact ⟨p, hp, rfl, hopen⟩),
        joinRow_of_match hpk hp hopen xr, List.foldl_cons, List.foldl_nil]
      have hnext : ∀ y ∈ t, y.reviewer_id = xr → isOpenPR prs y.pr_id = true →
          y ∈ (cascadeStep
            ((users.filter fun u => u.team_id = teamID ∧ u.is_active = 1).map fun u => u.id)
            xr st (p.id, p.author_id)).pr_reviewers := by
        intro y hy hyr hyo
        have hyin := hmem y (List.mem_cons_of_mem _ hy) hyr hyo
        have hne : ¬ (y.pr_id = p.id ∧ y.reviewer_id = xr) := by
          rintro ⟨e1, e2⟩
          apply hL.1
          obtain ⟨y1, y2⟩ := y
          simp only at e1 e2
          rw [← e1, ← e2]
          exact hy
        rcases cascadeStep_eq
          ((users.filter fun u => u.team_id = teamID ∧ u.is_active = 1).map fun u => u.id)
          xr st (p.id, p.author_id) with ⟨_, he⟩ | ⟨c, _, he⟩
        · rw [he]
          exact mem_deleteReviewer.mpr ⟨hyin, hne⟩
        · rw [he]
          exact mem_updateReviewer_of_mem hyin hne
      have ih := cascadeRows_spec users hpk teamID xr t
        (cascadeStep
          ((users.filter fun u => u.team_id = teamID ∧ u.is_active = 1).map fun u => u.id)
          xr st (p.id, p.author_id)) hL.2 hnext
      rcases cascadeStep_eq
        ((users.filter fun u => u.team_id = teamID ∧ u.is_active = 1).map fun u => u.id)
        xr st (p.id, p.author_id) with ⟨hnil, he⟩ | ⟨c, hc, he⟩
      · rw [cascade_candidates_pool hpk teamID st.pr_reviewers hp xr] at hnil
        rw [he] at ih ⊢
        exact SpecCascade.remove hxin hnil ih
      · rw [cascade_candidates_pool hpk teamID st.pr_reviewers hp xr] at hc
        rw [he] at ih ⊢
        exact SpecCascade.repoint c hxin hc ih
    · rw [List.filter_cons_of_neg (by simpa using hm), joinRow_of_not hm, List.foldl_nil]
      exact cascadeRows_spec users hpk teamID d t st hL.2
        fun y hy => hmem y (List.mem_cons_of_mem _ hy)

/-- After the inner loop over the rows joined to `L`, a row of the deactivated user `d` is a
row from before the loop, and is none of the rows of `L` on OPEN pull requests. -/
theorem cascadeRows_clears {prs : List PullRequestRow} (hpk : (prs.map fun p => p.id).Nodup)
    {activeUserIDs : List Nat} {d : Nat} (hd : d ∉ activeUserIDs) :
    ∀ (L : List ReviewerRow) (st : CascadeState) (r : ReviewerRow),
      r ∈ ((L.flatMap fun r =>
          (prs.filter fun pr => r.pr_id = pr.id ∧ r.reviewer_id = d ∧ pr.status = .OPEN).map
            fun pr => (pr.id, pr.author_id)).foldl
          (cascadeStep activeUserIDs d) st).pr_reviewers →
      r.reviewer_id = d →
      r ∈ st.pr_reviewers ∧ (isOpenPR prs r.pr_id = true → r ∉ L)
  | [], _, _, hr, _ => ⟨hr, fun _ h => by cases h⟩
  | x :: t, st, r, hr, hrd => by
    rw [List.flatMap_cons, List.foldl_append] at hr
    obtain ⟨h1, h2⟩ := cascadeRows_clears hpk hd t _ r hr hrd
    by_cases hm : x.reviewer_id = d ∧ isOpenPR prs x.pr_id = true
    · obtain ⟨p, hp, hpx, hopen⟩ := isOpenPR_iff.mp hm.2
      obtain ⟨xp, xr⟩ := x
      simp only at hm hpx
      obtain ⟨hxr, _⟩ := hm
      subst hxr hpx
      rw [joinRow_of_match hpk hp hopen xr, List.foldl_cons, List.foldl_nil] at h1
      have hkey : r ∈ st.pr_reviewers ∧ r ≠ ⟨p.id, xr⟩ := by
        rcases cascadeStep_eq activeUserIDs xr st (p.id, p.author_id) with ⟨_, he⟩ | ⟨c, hc, he⟩
        · rw [he] at h1
          obtain ⟨h3, h4⟩ := mem_deleteReviewer.mp h1
          refine ⟨h3, fun e => h4 ?_⟩
          rw [e]
          exact ⟨rfl, rfl⟩
        · rw [he] at h1
          rcases mem_updateReviewer h1 with ⟨h3, h4⟩ | ⟨rfl, _⟩
          · refine ⟨h3, fun e => h4 ?_⟩
            rw [e]
            exact ⟨rfl, rfl⟩
          · simp only at hrd
            exact absurd (hrd ▸ (mem_cascade_candidates hc).1) hd
      refine ⟨hkey.1, fun ho hmem => ?_⟩
      rcases List.mem_cons.mp hmem with e | hmem
      · exact hkey.2 e
      · exact h2 ho hmem
    · rw [joinRow_of_not hm, List.foldl_nil] at h1
      refine ⟨h1, fun ho hmem => ?_⟩
      rcases List.mem_cons.mp hmem with e | hmem
      · exact hm (e ▸ ⟨hrd, ho⟩)
      · exact h2 ho hmem

/-- After the cascade for the deactivated user `d`, `d` reviews no OPEN pull request. -/
theorem cascadeUser_clears {prs : List PullRequestRow} (hpk : (prs.map fun p => p.id).Nodup)
    {activeUserIDs : List Nat} {d : Nat} (hd : d ∉ activeUserIDs) (st : CascadeState)
    {r : ReviewerRow} (hr : r ∈ (cascadeUser prs activeUserIDs st d).pr_reviewers)
    (hrd : r.reviewer_id = d) : isOpenPR prs r.pr_id = false := by
  unfold cascadeUser at hr
  simp only [] at hr
  obtain ⟨h1, h2⟩ := cascadeRows_clears hpk hd st.pr_reviewers st r hr hrd
  cases ho : isOpenPR prs r.pr_id with
  | false => rfl
  | true => exact absurd h1 (h2 ho)

/-- The rows kept by a filter that looks only at users other than `d` and outside the snapshot
of active users are not touched by a repair for `d`. -/
theorem cascadeStep_filter_of_not {activeUserIDs : List Nat} {d : Nat} (Q : ReviewerRow → Bool)
    (hQ : ∀ r, Q r = true → r.reviewer_id ≠ d ∧ r.reviewer_id ∉ activeUserIDs)
    (st : CascadeState) (row : Nat × Nat) :
    (cascadeStep activeUserIDs d st row).pr_reviewers.filter Q = st.pr_reviewers.filter Q := by
  rcases cascadeStep_eq activeUserIDs d st row with ⟨_, he⟩ | ⟨c, hc, he⟩
  · rw [he]
    unfold deleteReviewer
    simp only []
    rw [List.filter_filter]
    apply List.filter_congr
    intro r _
    cases hq : Q r with
    | false => rfl
    | true =>
      have := (hQ r hq).1
      simp [this]
  · rw [he]
    simp only []
    have hc1 := (mem_cascade_candidates hc).1
    unfold updateReviewer
    induction st.pr_reviewers with
    | nil => rfl
    | cons x t ih =>
      rw [List.map_cons, List.filter_cons, List.filter_cons, ih]
      by_cases hx : x.pr_id = row.1 ∧ x.reviewer_id = d
      · rw [if_pos hx]
        have h1 : Q { x with reviewer_id := c } = false := by
          cases hq : Q { x with reviewer_id := c } with
          | false => rfl
          | true => exact absurd hc1 (hQ _ hq).2
        have h2 : Q x = false := by
          cases hq : Q x with
          | false => rfl
          | true => exact absurd hx.2 (hQ _ hq).1
        rw [h1, h2]
        rfl
      · rw [if_neg hx]

theorem cascadeUser_filter_of_not {prs : List PullRequestRow} {activeUserIDs : List Nat}
    {d : Nat} (Q : ReviewerRow → Bool)
    (hQ : ∀ r, Q r = true → r.reviewer_id ≠ d ∧ r.reviewer_id ∉ activeUserIDs)
    (st : CascadeState) :
    (cascadeUser prs activeUserIDs st d).pr_reviewers.filter Q = st.pr_reviewers.filter Q := by
  unfold cascadeUser
  simp only []
  refine foldl_inv (fun st' : CascadeState =>
    st'.pr_reviewers.filter Q = st.pr_reviewers.filter Q) _ _ ?_ st rfl
  intro st' h' row _
  rw [← h']
  exact cascadeStep_filter_of_not Q hQ st' row

theorem SpecCascade.append {users : List UserRow} {prs : List PullRequestRow} {teamID : Nat}
    {W₁ W₂ : List ReviewerRow} {a b c : List ReviewerRow × Nat × Nat}
    (h₁ : SpecCascade users prs teamID W₁ a b) (h₂ : SpecCascade users prs teamID W₂ b c) :
    SpecCascade users prs teamID (W₁ ++ W₂) a c := by
  induction h₁ with
  | done st => exact h₂
  | repoint c hw hc _ ih => exact SpecCascade.repoint c hw hc (ih h₂)
  | remove hw hc _ ih => exact SpecCascade.remove hw hc (ih h₂)

/-- Each repair of the cascade of the specification adds one to one of the counters; a removal
takes one row away, a repointing keeps their number. -/
theorem SpecCascade.counts {users : List UserRow} {prs : List PullRequestRow} {teamID : Nat}
    {W : List ReviewerRow} {a b : List ReviewerRow × Nat × Nat}
    (h : SpecCascade users prs teamID W a b) :
    b.2.1 + b.2.2 = a.2.1 + a.2.2 + W.length := by
  induction h with
  | done st => simp
  | repoint c _ hc _ ih =>
    simp only [List.length_cons] at ih ⊢
    omega
  | remove _ hc _ ih =>
    simp only [List.length_cons] at ih ⊢
    omega

/-- The whole cascade of the source, from any state of its loops: it is a cascade of the
specification over a list made of the assignments of the deactivated users on OPEN pull
requests, each taken once; and afterwards no deactivated user reviews an OPEN pull
request. -/
theorem cascade_spec (users : List UserRow) {prs : List PullRequestRow}
    (hpk : (prs.map fun p => p.id).Nodup) (teamID : Nat) :
    ∀ (ds : List (Nat × String)),
      (∀ d ∈ ds, d.1 ∉
        (users.filter fun u => u.team_id = teamID ∧ u.is_active = 1).map fun u => u.id) →
      ∀ st : CascadeState, st.pr_reviewers.Nodup →
        ∃ W : List ReviewerRow,
          W.Perm (st.pr_reviewers.filter fun r =>
            r.reviewer_id ∈ ds.map (fun d => d.1) ∧ isOpenPR prs r.pr_id = true) ∧
          SpecCascade users prs teamID W
            (st.pr_reviewers, st.reassignedCount, st.removedCount)
            ((ds.foldl (fun st u => cascadeUser prs
                ((users.filter fun u => u.team_id = teamID ∧ u.is_active = 1).map
                  fun u => u.id) st u.1) st).pr_reviewers,
             (ds.foldl (fun st u => cascadeUser prs
                ((users.filter fun u => u.team_id = teamID ∧ u.is_active = 1).map
                  fun u => u.id) st u.1) st).reassignedCount,
             (ds.foldl (fun st u => cascadeUser prs
                ((users.filter fun u => u.team_id = teamID ∧ u.is_active = 1).map
                  fun u => u.id) st u.1) st).removedCount) ∧
          ∀ r ∈ (ds.foldl (fun st u => cascadeUser prs
                ((users.filter fun u => u.team_id = teamID ∧ u.is_active = 1).map
                  fun u => u.id) st u.1) st).pr_reviewers,
            r.reviewer_id ∈ ds.map (fun d => d.1) → isOpenPR prs r.pr_id = false
  | [], _, st, _ => by
    refine ⟨[], ?_, SpecCascade.done _, fun _ _ h => by cases h⟩
    have : (st.pr_reviewers.filter fun r =>
        r.reviewer_id ∈ ([] : List (Nat × String)).map (fun d => d.1) ∧
          isOpenPR prs r.pr_id = true) = [] := by
      rw [List.filter_eq_nil_iff]
      intro r _
      simp
    rw [this]
  | d :: t, hds, st, hn => by
    have hd := hds d (List.mem_cons_self _ _)
    have ht : ∀ x ∈ t, x.1 ∉
        (users.filter fun u => u.team_id = teamID ∧ u.is_active = 1).map fun u => u.id :=
      fun x hx => hds x (List.mem_cons_of_mem _ hx)
    obtain ⟨W, hW, hspec, hpost⟩ := cascade_spec users hpk teamID t ht
      (cascadeUser prs
        ((users.filter fun u => u.team_id = teamID ∧ u.is_active = 1).map fun u => u.id)
        st d.1) (cascadeUser_nodup hd hn)
    have hfirst := cascadeRows_spec users hpk teamID d.1 st.pr_reviewers st hn
      fun _ hx _ _ => hx
    refine ⟨(st.pr_reviewers.filter fun r =>
      r.reviewer_id = d.1 ∧ isOpenPR prs r.pr_id = true) ++ W, ?_, ?_, ?_⟩
    · have h1 : ((cascadeUser prs
          ((users.filter fun u => u.team_id = teamID ∧ u.is_active = 1).map fun u => u.id)
          st d.1).pr_reviewers.filter fun r =>
            r.reviewer_id ∈ t.map (fun d => d.1) ∧ isOpenPR prs r.pr_id = true) =
          st.pr_reviewers.filter fun r =>
            r.reviewer_id ∈ t.map (fun d => d.1) ∧ r.reviewer_id ≠ d.1 ∧
              isOpenPR prs r.pr_id = true := by
        rw [← cascadeUser_filter_of_not
          (fun r => decide (r.reviewer_id ∈ t.map (fun d => d.1) ∧ r.reviewer_id ≠ d.1 ∧
              isOpenPR prs r.pr_id = true)) ?_ st]
        · apply List.filter_congr
          intro r hr
          rw [Bool.eq_iff_iff]
          simp only [decide_eq_true_eq]
          constructor
          · rintro ⟨h1, h2⟩
            refine ⟨h1, fun e => ?_, h2⟩
            rw [cascadeUser_clears hpk hd st hr e] at h2
            cases h2
          · rintro ⟨h1, _, h2⟩
            exact ⟨h1, h2⟩
        · intro r hr
          simp only [decide_eq_true_eq] at hr
          obtain ⟨x, hx, hx2⟩ := List.mem_map.mp hr.1
          exact ⟨hr.2.1, hx2 ▸ ht x hx⟩
      rw [h1] at hW
      have h2 := List.filter_append_perm (fun r : ReviewerRow => decide (r.reviewer_id = d.1))
        (st.pr_reviewers.filter fun r =>
          r.reviewer_id ∈ (d :: t).map (fun d => d.1) ∧ isOpenPR prs r.pr_id = true)
      rw [List.filter_filter, List.filter_filter] at h2
      have h3 : (st.pr_reviewers.filter fun r =>
          (decide (r.reviewer_id = d.1) &&
            decide (r.reviewer_id ∈ (d :: t).map (fun d => d.1) ∧
              isOpenPR prs r.pr_id = true))) =
          st.pr_reviewers.filter fun r =>
            r.reviewer_id = d.1 ∧ isOpenPR prs r.pr_id = true := by
        apply List.filter_congr
        intro r _
        rw [Bool.eq_iff_iff]
        simp only [Bool.and_eq_true, decide_eq_true_eq, List.map_cons, List.mem_cons]
        constructor
        · rintro ⟨h1, _, h2⟩
          exact ⟨h1, h2⟩
        · rintro ⟨h1, h2⟩
          exact ⟨h1, Or.inl h1, h2⟩
      have h4 : (st.pr_reviewers.filter fun r =>
          (!decide (r.reviewer_id = d.1) &&
            decide (r.reviewer_id ∈ (d :: t).map (fun d => d.1) ∧
              isOpenPR prs r.pr_id = true))) =
          st.pr_reviewers.filter fun r =>
            r.reviewer_id ∈ t.map (fun d => d.1) ∧ r.reviewer_id ≠ d.1 ∧
              isOpenPR prs r.pr_id = true := by
        apply List.filter_congr
        intro r _
        rw [Bool.eq_iff_iff]
        simp only [Bool.and_eq_true, Bool.not_eq_true', decide_eq_false_iff_not,
          decide_eq_true_eq, List.map_cons, List.mem_cons]
        constructor
        · rintro ⟨h1, h2 | h2, h3⟩
          · exact absurd h2 h1
          · exact ⟨h2, h1, h3⟩
        · rintro ⟨h1, h2, h3⟩
          exact ⟨h2, Or.inr h1, h3⟩
      rw [h3, h4] at h2
      exact (List.Perm.append_left _ hW).trans h2
    · rw [List.foldl_cons]
      refine SpecCascade.append ?_ hspec
      unfold cascadeUser
      exact hfirst
    · rw [List.foldl_cons]
      intro r hr hmem
      rw [List.map_cons, List.mem_cons] at hmem
      by_cases hrt : r.reviewer_id ∈ t.map fun d => d.1
      · exact hpost r hr hrt
      · rcases hmem with e | hmem
        · rcases cascade_mem t _ hr with h | h
          · exact cascadeUser_clears hpk hd st h e
          · exact absurd (e ▸ h) hd
        · exact absurd hmem hrt

/-! ## `BulkDeactivateUsersAndReassign` against the specification -/

/-- The internal ids resolved from the batch are the ids of the users named in it. -/
theorem named_iff {s : Store} (hs : SchemaOK s) {teamID : Nat} {userIDs : List String}
    {ds : List (Nat × String)} (hds : resolveUsers s.users teamID userIDs = some ds) (i : Nat) :
    i ∈ ds.map (fun d => d.1) ↔ ∃ u ∈ s.users, u.id = i ∧ u.user_id ∈ userIDs := by
  obtain ⟨h1, h2⟩ := resolveUsers_some hds
  constructor
  · intro h
    obtain ⟨d, hd, rfl⟩ := List.mem_map.mp h
    obtain ⟨u, hu, hu1, hu2, _⟩ := h2 d hd
    refine ⟨u, hu, hu1, ?_⟩
    rw [← h1, hu2]
    exact List.mem_map_of_mem (fun d => d.2) hd
  · rintro ⟨u, hu, rfl, hmem⟩
    rw [← h1] at hmem
    obtain ⟨d, hd, hd2⟩ := List.mem_map.mp hmem
    obtain ⟨v, hv, hv1, hv2, _⟩ := h2 d hd
    have : v = u := key_inj (fun u : UserRow => u.user_id) hs.users_user_id hv hu
      (hv2.trans hd2)
    subst this
    rw [hv1]
    exact List.mem_map_of_mem (fun d => d.1) hd

/-- A successful `BulkDeactivateUsersAndReassign`, in a state satisfying the schema: the named
users are deactivated, and the assignment table and the counters are those of a cascade of
the specification over the assignments of the named users on OPEN pull requests, each taken
once; afterwards no named user reviews an OPEN pull request. -/
theorem BulkDeactivateUsersAndReassign_spec {s : Store} (hs : SchemaOK s) {rnd : Rand}
    {teamName : String} {userIDs : List String} {res : BulkDeactivateResult}
    (h : (BulkDeactivateUsersAndReassign s rnd teamName userIDs).1 = .ok res) :
    ∃ t ∈ s.teams, ∃ ds, t.name = teamName ∧ resolveUsers s.users t.id userIDs = some ds ∧
      (BulkDeactivateUsersAndReassign s rnd teamName userIDs).2.teams = s.teams ∧
      (BulkDeactivateUsersAndReassign s rnd teamName userIDs).2.pull_requests =
        s.pull_requests ∧
      (BulkDeactivateUsersAndReassign s rnd teamName userIDs).2.users =
        ds.foldl (fun us u => deactivateUser us u.1) s.users ∧
      res.TeamName = teamName ∧ res.DeactivatedUserIDs = userIDs ∧
      (∃ W : List ReviewerRow, W.Perm (namedOpenAssignments s userIDs) ∧
        SpecCascade (BulkDeactivateUsersAndReassign s rnd teamName userIDs).2.users
          s.pull_requests t.id W (s.pr_reviewers, 0, 0)
          ((BulkDeactivateUsersAndReassign s rnd teamName userIDs).2.pr_reviewers,
            res.ReassignedCount, res.RemovedAssignments)) ∧
      (∀ r ∈ (BulkDeactivateUsersAndReassign s rnd teamName userIDs).2.pr_reviewers,
        r.reviewer_id ∈ ds.map (fun d => d.1) → isOpenPR s.pull_requests r.pr_id = false) ∧
      (∀ r ∈ (BulkDeactivateUsersAndReassign s rnd teamName userIDs).2.pr_reviewers,
        r ∈ s.pr_reviewers ∨ r.reviewer_id ∉ ds.map fun d => d.1) := by
  obtain ⟨t, ds, hne, ht, hds⟩ := BulkDeactivateUsersAndReassign_ok h
  have heq := BulkDeactivateUsersAndReassign_of_resolved rnd hne ht hds
  rw [heq] at h ⊢
  simp only [Except.ok.injEq] at h
  subst h
  have hids : ∀ d ∈ ds, d.1 ∉
      ((ds.foldl (fun us u => deactivateUser us u.1) s.users).filter
        fun u => u.team_id = t.id ∧ u.is_active = 1).map fun u => u.id :=
    fun d hd => not_mem_active_of_deactivated ds s.users t.id
      (List.mem_map_of_mem (fun d => d.1) hd)
  obtain ⟨W, hW, hspec, hpost⟩ := cascade_spec
    (ds.foldl (fun us u => deactivateUser us u.1) s.users) hs.prs_pk t.id ds hids
    { pr_reviewers := s.pr_reviewers, reassignedCount := 0, removedCount := 0, rnd := rnd }
    hs.revs_pk
  have hfilter : (s.pr_reviewers.filter fun r =>
      r.reviewer_id ∈ ds.map (fun d => d.1) ∧ isOpenPR s.pull_requests r.pr_id = true) =
      namedOpenAssignments s userIDs := by
    unfold namedOpenAssignments
    apply List.filter_congr
    intro r _
    rw [Bool.eq_iff_iff]
    simp only [decide_eq_true_eq, named_iff hs hds]
  rw [hfilter] at hW
  refine ⟨t, List.mem_of_find?_eq_some ht, ds, by simpa using List.find?_some ht, hds, rfl, rfl,
    rfl, rfl, (resolveUsers_some hds).1, ⟨W, hW, hspec⟩, hpost, ?_⟩
  intro r hr
  rcases cascade_mem ds _ hr with h1 | h1
  · exact Or.inl h1
  · refine Or.inr fun hm => ?_
    obtain ⟨d, hd, e⟩ := List.mem_map.mp hm
    exact hids d hd (e ▸ h1)

/-! ## `GetUserReviews` -/

theorem GetUserReviews_isOk {s : Store} {userID : String} {u : UserRow} (hu : u ∈ s.users)
    (hid : u.user_id = userID) : ∃ rv, GetUserReviews s userID = .ok rv ∧ rv.UserID = userID := by
  obtain ⟨v, hv⟩ := find?_some_of_mem
    (p := fun u : UserRow => decide (u.user_id = userID)) hu (by simpa using hid)
  unfold GetUserReviews
  rw [hv]
  exact ⟨_, rfl, rfl⟩

/-- Every entry returned by `GetUserReviews` comes from an assignment row of the user. -/
theorem mem_GetUserReviews {s : Store} {userID : String} {rv : UserReviews}
    (h : GetUserReviews s userID = .ok rv) {item : PullRequestShort}
    (hi : item ∈ rv.PullRequests) :
    ∃ r ∈ s.pr_reviewers, ∃ pr ∈ s.pull_requests, ∃ u ∈ s.users,
      r.pr_id = pr.id ∧ r.reviewer_id = u.id ∧ u.user_id = userID ∧
      item.ID = pr.pull_request_id ∧ item.Status = pr.status := by
  unfold GetUserReviews at h
  split at h
  · cases h
  · simp only [Except.ok.injEq] at h
    subst h
    simp only [] at hi
    obtain ⟨r, hr, hi⟩ := List.mem_flatMap.mp hi
    obtain ⟨pr, hpr, hi⟩ := List.mem_flatMap.mp hi
    obtain ⟨au, _, hi⟩ := List.mem_flatMap.mp hi
    obtain ⟨u, hu, rfl⟩ := List.mem_map.mp hi
    obtain ⟨hpr1, hpr2⟩ := List.mem_filter.mp hpr
    obtain ⟨hu1, hu2⟩ := List.mem_filter.mp hu
    simp only [decide_eq_true_eq] at hpr2 hu2
    exact ⟨r, hr, pr, hpr1, u, hu1, hpr2, hu2.1, hu2.2, rfl, rfl⟩

/-- C18: after a successful `BulkDeactivateUsersAndReassign`, in every state satisfying the
schema and for every outcome of the shuffle: every named user exists and is inactive; no OPEN
pull request of the store, whoever its author, has a named user among its reviewers, in
`pr_reviewers` and in the projections; `GetUserReviews` of a named user succeeds and lists no
OPEN pull request, and lists nothing when the user reviewed no MERGED pull request. -/
theorem C18_bulk_postcondition (s : Store) (hs : SchemaOK s) (rnd : Rand) (teamName : String)
    (userIDs : List String) (res : BulkDeactivateResult)
    (h : (BulkDeactivateUsersAndReassign s rnd teamName userIDs).1 = .ok res) :
    (∀ uid ∈ userIDs,
      ∃ u ∈ (BulkDeactivateUsersAndReassign s rnd teamName userIDs).2.users, u.user_id = uid) ∧
    (∀ u ∈ (BulkDeactivateUsersAndReassign s rnd teamName userIDs).2.users,
      u.user_id ∈ userIDs → u.is_active = 0) ∧
    (∀ p ∈ (BulkDeactivateUsersAndReassign s rnd teamName userIDs).2.pull_requests,
      p.status = .OPEN →
      ∀ r ∈ reviewersOf (BulkDeactivateUsersAndReassign s rnd teamName userIDs).2 p.id,
        ∀ u ∈ (BulkDeactivateUsersAndReassign s rnd teamName userIDs).2.users,
          u.id = r.reviewer_id → u.user_id ∉ userIDs) ∧
    (∀ prID pr,
      getPullRequestByExternalID (BulkDeactivateUsersAndReassign s rnd teamName userIDs).2 prID
        = .ok pr →
      pr.Status = .OPEN → ∀ x ∈ pr.AssignedReviewers, x ∉ userIDs) ∧
    (∀ uid ∈ userIDs,
      ∃ rv, GetUserReviews (BulkDeactivateUsersAndReassign s rnd teamName userIDs).2 uid
          = .ok rv ∧
        rv.UserID = uid ∧ (∀ item ∈ rv.PullRequests, item.Status ≠ .OPEN) ∧
        ((∀ r ∈ s.pr_reviewers, ∀ u ∈ s.users, u.user_id = uid → r.reviewer_id = u.id →
            ∀ p ∈ s.pull_requests, p.id = r.pr_id → p.status ≠ .MERGED) →
          rv.PullRequests = [])) := by
  obtain ⟨t, _, ds, _, hds, _, hprs, husers, _, _, _, hpost, hold⟩ :=
    BulkDeactivateUsersAndReassign_spec hs h
  have hnamed : ∀ u ∈ (BulkDeactivateUsersAndReassign s rnd teamName userIDs).2.users,
      u.user_id ∈ userIDs →
      u.id ∈ ds.map (fun d => d.1) ∧ u.is_active = 0 ∧
        ∃ v ∈ s.users, v.id = u.id ∧ v.user_id = u.user_id := by
    intro u hu hmem
    rw [husers] at hu
    obtain ⟨v, hv, h1, h2, _, _, h5, _, _⟩ := mem_deactivateAll ds s.users u hu
    have hv2 : v.id ∈ ds.map fun d => d.1 :=
      (named_iff hs hds v.id).mpr ⟨v, hv, rfl, h2 ▸ hmem⟩
    exact ⟨h1 ▸ hv2, h5 hv2, v, hv, h1.symm, h2.symm⟩
  have hexists : ∀ uid ∈ userIDs,
      ∃ u ∈ (BulkDeactivateUsersAndReassign s rnd teamName userIDs).2.users,
        u.user_id = uid := by
    intro uid huid
    obtain ⟨h1, h2⟩ := resolveUsers_some hds
    rw [← h1] at huid
    obtain ⟨d, hd, hd2⟩ := List.mem_map.mp huid
    obtain ⟨v, hv, _, hv2, _⟩ := h2 d hd
    have : uid ∈ (BulkDeactivateUsersAndReassign s rnd teamName userIDs).2.users.map
        fun u => u.user_id := by
      rw [husers, deactivateAll_user_id, ← hd2, ← hv2]
      exact List.mem_map_of_mem (fun u => u.user_id) hv
    obtain ⟨u, hu, hu2⟩ := List.mem_map.mp this
    exact ⟨u, hu, hu2⟩
  have hclear : ∀ r ∈ (BulkDeactivateUsersAndReassign s rnd teamName userIDs).2.pr_reviewers,
      ∀ p ∈ (BulkDeactivateUsersAndReassign s rnd teamName userIDs).2.pull_requests,
        p.id = r.pr_id → p.status = .OPEN →
        ∀ u ∈ (BulkDeactivateUsersAndReassign s rnd teamName userIDs).2.users,
          u.id = r.reviewer_id → u.user_id ∉ userIDs := by
    intro r hr p hp hpr hopen u hu hur hmem
    have h1 := hpost r hr (hur ▸ (hnamed u hu hmem).1)
    rw [hprs] at hp
    rw [isOpenPR_iff.mpr ⟨p, hp, hpr, hopen⟩] at h1
    cases h1
  refine ⟨hexists, fun u hu hmem => (hnamed u hu hmem).2.1, ?_, ?_, ?_⟩
  · intro p hp hopen r hr u hu hur
    obtain ⟨hr1, hr2⟩ := List.mem_filter.mp hr
    exact hclear r hr1 p hp (of_decide_eq_true hr2).symm hopen u hu hur
  · intro prID pr hget hopen x hx hmem
    have hupk : ((BulkDeactivateUsersAndReassign s rnd teamName userIDs).2.users.map
        fun u => u.id).Nodup := by
      rw [husers, deactivateAll_id]; exact hs.users_pk
    obtain ⟨p, hp, au, _, _, _, rfl⟩ := getPullRequestByExternalID_ok_of_keys hupk
      (by rw [hprs]; exact hs.prs_pk) (by rw [hprs]; exact hs.prs_pull_request_id) hget
    obtain ⟨u, hu, rfl⟩ := List.mem_map.mp hx
    obtain ⟨hu1, hu2⟩ := mem_assignedUsers hu
    exact hclear _ hu2 p hp rfl hopen u hu1 rfl hmem
  · intro uid huid
    obtain ⟨u, hu, hu2⟩ := hexists uid huid
    obtain ⟨rv, hrv, hrv2⟩ := GetUserReviews_isOk hu hu2
    refine ⟨rv, hrv, hrv2, ?_, ?_⟩
    · intro item hitem hst
      obtain ⟨r, hr, pr, hpr, w, hw, h1, h2, h3, _, h5⟩ := mem_GetUserReviews hrv hitem
      exact hclear r hr pr hpr h1.symm (h5 ▸ hst) w hw h2.symm (h3 ▸ huid)
    · intro hno
      rw [List.eq_nil_iff_forall_not_mem]
      intro item hitem
      obtain ⟨r, hr, pr, hpr, w, hw, h1, h2, h3, _, h5⟩ := mem_GetUserReviews hrv hitem
      obtain ⟨hw1, _, v, hv, hv1, hv2⟩ := hnamed w hw (h3 ▸ huid)
      have hrold : r ∈ s.pr_reviewers := by
        rcases hold r hr with h6 | h6
        · exact h6
        · exact absurd (h2 ▸ hw1) h6
      have hmerged : pr.status = .MERGED := by
        cases hst : pr.status with
        | MERGED => rfl
        | OPEN => exact absurd (h3 ▸ huid) (hclear r hr pr hpr h1.symm hst w hw h2.symm)
      rw [hprs] at hpr
      exact hno r hrold v hv (hv2.trans h3) (h2.trans hv1.symm) pr hpr h1.symm hmerged

theorem C18_witness :
    (∀ uid ∈ ["c", "b", "c"],
      ∃ u ∈ (BulkDeactivateUsersAndReassign (runCalls Store.empty scenarioC) [0] "T"
        ["c", "b", "c"]).2.users, u.user_id = uid) ∧
    (∀ u ∈ (BulkDeactivateUsersAndReassign (runCalls Store.empty scenarioC) [0] "T"
        ["c", "b", "c"]).2.users,
      u.user_id ∈ ["c", "b", "c"] → u.is_active = 0) ∧
    (∀ p ∈ (BulkDeactivateUsersAndReassign (runCalls Store.empty scenarioC) [0] "T"
        ["c", "b", "c"]).2.pull_requests,
      p.status = .OPEN →
      ∀ r ∈ reviewersOf (BulkDeactivateUsersAndReassign (runCalls Store.empty scenarioC) [0] "T"
          ["c", "b", "c"]).2 p.id,
        ∀ u ∈ (BulkDeactivateUsersAndReassign (runCalls Store.empty scenarioC) [0] "T"
            ["c", "b", "c"]).2.users,
          u.id = r.reviewer_id → u.user_id ∉ ["c", "b", "c"]) ∧
    (∀ prID pr,
      getPullRequestByExternalID (BulkDeactivateUsersAndReassign (runCalls Store.empty scenarioC)
        [0] "T" ["c", "b", "c"]).2 prID = .ok pr →
      pr.Status = .OPEN → ∀ x ∈ pr.AssignedReviewers, x ∉ ["c", "b", "c"]) ∧
    (∀ uid ∈ ["c", "b", "c"],
      ∃ rv, GetUserReviews (BulkDeactivateUsersAndReassign (runCalls Store.empty scenarioC)
          [0] "T" ["c", "b", "c"]).2 uid = .ok rv ∧
        rv.UserID = uid ∧ (∀ item ∈ rv.PullRequests, item.Status ≠ .OPEN) ∧
        ((∀ r ∈ (runCalls Store.empty scenarioC).pr_reviewers,
            ∀ u ∈ (runCalls Store.empty scenarioC).users, u.user_id = uid →
              r.reviewer_id = u.id →
              ∀ p ∈ (runCalls Store.empty scenarioC).pull_requests, p.id = r.pr_id →
                p.status ≠ .MERGED) →
          rv.PullRequests = [])) :=
  C18_bulk_postcondition (runCalls Store.empty scenarioC)
    (Reachable.inv ⟨scenarioC, rfl⟩).schema [0] "T" ["c", "b", "c"]
    { TeamName := "T", DeactivatedUserIDs := ["c", "b", "c"], ReassignedCount := 0,
      RemovedAssignments := 1 } rfl

/-- C19: for every successful `BulkDeactivateUsersAndReassign`, in every state satisfying the
schema, `ReassignedCount + RemovedAssignments` is the number of assignments of named users on
OPEN pull requests in the state before the call; these rows are pairwise different, so each
pair (named user, OPEN pull request) counts once, also when the batch repeats an id or a
pull request has two named reviewers. -/
theorem C19_bulk_counts (s : Store) (hs : SchemaOK s) (rnd : Rand) (teamName : String)
    (userIDs : List String) (res : BulkDeactivateResult)
    (h : (BulkDeactivateUsersAndReassign s rnd teamName userIDs).1 = .ok res) :
    res.ReassignedCount + res.RemovedAssignments = (namedOpenAssignments s userIDs).length ∧
    (namedOpenAssignments s userIDs).Nodup := by
  obtain ⟨t, _, ds, _, _, _, _, _, _, _, ⟨W, hW, hspec⟩, _, _⟩ :=
    BulkDeactivateUsersAndReassign_spec hs h
  have := hspec.counts
  simp only [Nat.zero_add] at this
  refine ⟨by rw [this, hW.length_eq], ?_⟩
  unfold namedOpenAssignments
  exact hs.revs_pk.sublist (List.filter_sublist _)

theorem C19_witness :
    (0 : Nat) + 1 = (namedOpenAssignments (runCalls Store.empty scenarioC)
      ["c", "b", "c"]).length ∧
    (namedOpenAssignments (runCalls Store.empty scenarioC) ["c", "b", "c"]).Nodup :=
  C19_bulk_counts (runCalls Store.empty scenarioC)
    (Reachable.inv ⟨scenarioC, rfl⟩).schema [0] "T" ["c", "b", "c"]
    { TeamName := "T", DeactivatedUserIDs := ["c", "b", "c"], ReassignedCount := 0,
      RemovedAssignments := 1 } rfl

/-- C20: for every successful `BulkDeactivateUsersAndReassign`, in every state satisfying the
schema and for every outcome of the shuffle, the assignment table and the counters returned
are those of the cascade of the specification run over the assignments of the named users on
OPEN pull requests, each taken once: an assignment is repointed to a member of its pool
(users of the named team active after the deactivations, without the author and the users
assigned to the pull request at that step other than the deactivated one), counted in
`ReassignedCount`, or, exactly when the pool is empty, removed, counted in
`RemovedAssignments`. -/
theorem C20_bulk_cascade (s : Store) (hs : SchemaOK s) (rnd : Rand) (teamName : String)
    (userIDs : List String) (res : BulkDeactivateResult)
    (h : (BulkDeactivateUsersAndReassign s rnd teamName userIDs).1 = .ok res) :
    ∃ t ∈ s.teams, t.name = teamName ∧
      ∃ W : List ReviewerRow, W.Perm (namedOpenAssignments s userIDs) ∧ W.Nodup ∧
        SpecCascade (BulkDeactivateUsersAndReassign s rnd teamName userIDs).2.users
          s.pull_requests t.id W (s.pr_reviewers, 0, 0)
          ((BulkDeactivateUsersAndReassign s rnd teamName userIDs).2.pr_reviewers,
            res.ReassignedCount, res.RemovedAssignments) := by
  obtain ⟨t, ht, ds, hn, _, _, _, _, _, _, ⟨W, hW, hspec⟩, _, _⟩ :=
    BulkDeactivateUsersAndReassign_spec hs h
  refine ⟨t, ht, hn, W, hW, hW.nodup_iff.mpr ?_, hspec⟩
  unfold namedOpenAssignments
  exact hs.revs_pk.sublist (List.filter_sublist _)

theorem C20_witness :
    ∃ t ∈ (runCalls Store.empty scenarioC).teams, t.name = "T" ∧
      ∃ W : List ReviewerRow,
        W.Perm (namedOpenAssignments (runCalls Store.empty scenarioC) ["c"]) ∧
        W.Nodup ∧
        SpecCascade (BulkDeactivateUsersAndReassign (runCalls Store.empty scenarioC) [0] "T"
            ["c"]).2.users
          (runCalls Store.empty scenarioC).pull_requests t.id W
          ((runCalls Store.empty scenarioC).pr_reviewers, 0, 0)
          ((BulkDeactivateUsersAndReassign (runCalls Store.empty scenarioC) [0] "T"
            ["c"]).2.pr_reviewers, 1, 0) :=
  C20_bulk_cascade (runCalls Store.empty scenarioC)
    (Reachable.inv ⟨scenarioC, rfl⟩).schema [0] "T" ["c"]
    { TeamName := "T", DeactivatedUserIDs := ["c"], ReassignedCount := 1,
      RemovedAssignments := 0 } rfl
/-! ## The cascade of the specification: what it leaves alone -/

theorem mem_cascadePool {users : List UserRow} {prs : List PullRequestRow} {teamID : Nat}
    {rows : List ReviewerRow} {w : ReviewerRow} {c : Nat}
    (h : c ∈ cascadePool users prs teamID rows w) :
    ∃ x ∈ users, x.id = c ∧ x.team_id = teamID ∧ x.is_active = 1 ∧
      (∀ p ∈ prs, p.id = w.pr_id → x.id ≠ p.author_id) := by
  unfold cascadePool at h
  obtain ⟨x, hx, rfl⟩ := List.mem_map.mp h
  obtain ⟨hx1, hx2⟩ := List.mem_filter.mp hx
  simp only [decide_eq_true_eq] at hx2
  exact ⟨x, hx1, rfl, hx2.1, hx2.2.1, hx2.2.2.1⟩

/-- The pool of an assignment is empty when every active user of the team is the author of
the pull request. -/
theorem cascadePool_eq_nil {users : List UserRow} {prs : List PullRequestRow} {teamID : Nat}
    (rows : List ReviewerRow) {w : ReviewerRow}
    (h : ∀ x ∈ users, x.team_id = teamID → x.is_active = 1 →
      ∃ p ∈ prs, p.id = w.pr_id ∧ p.author_id = x.id) :
    cascadePool users prs teamID rows w = [] := by
  rw [List.eq_nil_iff_forall_not_mem]
  intro c hc
  obtain ⟨x, hx, _, h1, h2, h3⟩ := mem_cascadePool hc
  obtain ⟨p, hp, hp1, hp2⟩ := h x hx h1 h2
  exact h3 p hp hp1 hp2.symm

theorem deleteReviewer_eq_filter (rows : List ReviewerRow) (w : ReviewerRow) :
    deleteReviewer rows w.pr_id w.reviewer_id = rows.filter fun r => r ≠ w := by
  unfold deleteReviewer
  apply List.filter_congr
  intro r _
  obtain ⟨r1, r2⟩ := r
  obtain ⟨w1, w2⟩ := w
  simp

/-- A cascade in which every pool is empty removes the assignments it is run over, and does
nothing else. -/
theorem SpecCascade.remove_only {users : List UserRow} {prs : List PullRequestRow}
    {teamID : Nat} {W : List ReviewerRow} {a b : List ReviewerRow × Nat × Nat}
    (h : SpecCascade users prs teamID W a b)
    (hpool : ∀ w ∈ W, ∀ rows, cascadePool users prs teamID rows w = []) :
    b.1 = a.1.filter (fun r => r ∉ W) ∧ b.2.1 = a.2.1 ∧ b.2.2 = a.2.2 + W.length := by
  induction h with
  | done st => simp
  | repoint c hw hc rest _ =>
    rw [hpool _ (List.mem_cons_self _ _)] at hc
    cases hc
  | @remove w ws rows re rm fin hw hc rest ih =>
    obtain ⟨h1, h2, h3⟩ := ih fun w hw rows => hpool w (List.mem_cons_of_mem _ hw) rows
    refine ⟨?_, h2, ?_⟩
    · rw [h1]
      simp only []
      rw [deleteReviewer_eq_filter, List.filter_filter]
      apply List.filter_congr
      intro r _
      simp only [List.mem_cons, not_or, Bool.decide_and, Bool.and_comm]
    · rw [h3]
      simp only [List.length_cons]
      omega

/-- What a cascade of the specification leaves alone: an assignment it is not run over
stays; a new assignment is on a pull request it is run over, for an active user of the team;
the reviewers of a pull request it is not run over are untouched. -/
theorem SpecCascade.frame {users : List UserRow} {prs : List PullRequestRow}
    {teamID : Nat} {W : List ReviewerRow} {a b : List ReviewerRow × Nat × Nat}
    (h : SpecCascade users prs teamID W a b) :
    (∀ r ∈ a.1, r ∉ W → r ∈ b.1) ∧
    (∀ r ∈ b.1, r ∈ a.1 ∨ ∃ w ∈ W, r.pr_id = w.pr_id ∧
      ∃ x ∈ users, x.id = r.reviewer_id ∧ x.team_id = teamID ∧ x.is_active = 1) ∧
    (∀ q, (∀ w ∈ W, w.pr_id ≠ q) →
      (b.1.filter fun r => r.pr_id = q) = a.1.filter fun r => r.pr_id = q) := by
  induction h with
  | done st => exact ⟨fun r hr _ => hr, fun r hr => Or.inl hr, fun _ _ => rfl⟩
  | @repoint w ws rows re rm fin c hw hc rest ih =>
    obtain ⟨h1, h2, h3⟩ := ih
    refine ⟨?_, ?_, ?_⟩
    · intro r hr hn
      rw [List.mem_cons, not_or] at hn
      refine h1 r (mem_updateReviewer_of_mem hr fun hc => hn.1 ?_) hn.2
      obtain ⟨r1, r2⟩ := r
      obtain ⟨w1, w2⟩ := w
      simp only at hc
      rw [hc.1, hc.2]
    · intro r hr
      rcases h2 r hr with h | ⟨v, hv, h⟩
      · rcases mem_updateReviewer h with h | ⟨h, _⟩
        · exact Or.inl h.1
        · obtain ⟨x, hx, hx1, hx2, hx3, _⟩ := mem_cascadePool hc
          exact Or.inr ⟨w, List.mem_cons_self _ _, by rw [h], x, hx, by rw [h, hx1], hx2, hx3⟩
      · exact Or.inr ⟨v, List.mem_cons_of_mem _ hv, h⟩
    · intro q hq
      rw [h3 q fun v hv => hq v (List.mem_cons_of_mem _ hv)]
      exact filter_updateReviewer_of_ne _ _ _ _ _ (hq w (List.mem_cons_self _ _)).symm
  | @remove w ws rows re rm fin hw hc rest ih =>
    obtain ⟨h1, h2, h3⟩ := ih
    refine ⟨?_, ?_, ?_⟩
    · intro r hr hn
      rw [List.mem_cons, not_or] at hn
      refine h1 r (mem_deleteReviewer.mpr ⟨hr, fun hc => hn.1 ?_⟩) hn.2
      obtain ⟨r1, r2⟩ := r
      obtain ⟨w1, w2⟩ := w
      simp only at hc
      rw [hc.1, hc.2]
    · intro r hr
      rcases h2 r hr with h | ⟨v, hv, h⟩
      · exact Or.inl (mem_deleteReviewer.mp h).1
      · exact Or.inr ⟨v, List.mem_cons_of_mem _ hv, h⟩
    · intro q hq
      rw [h3 q fun v hv => hq v (List.mem_cons_of_mem _ hv)]
      exact filter_deleteReviewer_of_ne _ _ _ _ (hq w (List.mem_cons_self _ _)).symm

/-- After a successful `BulkDeactivateUsersAndReassign`, `GetUserReviews` of a named user
succeeds and lists no OPEN pull request; it lists nothing when the user reviewed no MERGED
pull request before the call. -/
theorem BulkDeactivateUsersAndReassign_reviews {s : Store} (hs : SchemaOK s) {rnd : Rand}
    {teamName : String} {userIDs : List String} {res : BulkDeactivateResult}
    (h : (BulkDeactivateUsersAndReassign s rnd teamName userIDs).1 = .ok res) :
    ∀ uid ∈ userIDs,
      ∃ rv, GetUserReviews (BulkDeactivateUsersAndReassign s rnd teamName userIDs).2 uid
          = .ok rv ∧
        rv.UserID = uid ∧ (∀ item ∈ rv.PullRequests, item.Status ≠ .OPEN) ∧
        ((∀ r ∈ s.pr_reviewers, ∀ u ∈ s.users, u.user_id = uid → r.reviewer_id = u.id →
            ∀ p ∈ s.pull_requests, p.id = r.pr_id → p.status ≠ .MERGED) →
          rv.PullRequests = []) := by
  obtain ⟨t, _, ds, _, hds, _, hprs, husers, _, _, _, hpost, hold⟩ :=
    BulkDeactivateUsersAndReassign_spec hs h
  have hnamed : ∀ u ∈ (BulkDeactivateUsersAndReassign s rnd teamName userIDs).2.users,
      u.user_id ∈ userIDs →
      u.id ∈ ds.map (fun d => d.1) ∧ ∃ v ∈ s.users, v.id = u.id ∧ v.user_id = u.user_id := by
    intro u hu hmem
    rw [husers] at hu
    obtain ⟨v, hv, h1, h2, _⟩ := mem_deactivateAll ds s.users u hu
    have hv2 : v.id ∈ ds.map fun d => d.1 :=
      (named_iff hs hds v.id).mpr ⟨v, hv, rfl, h2 ▸ hmem⟩
    exact ⟨h1 ▸ hv2, v, hv, h1.symm, h2.symm⟩
  have hclear : ∀ r ∈ (BulkDeactivateUsersAndReassign s rnd teamName userIDs).2.pr_reviewers,
      ∀ p ∈ (BulkDeactivateUsersAndReassign s rnd teamName userIDs).2.pull_requests,
        p.id = r.pr_id → p.status = .OPEN →
        ∀ u ∈ (BulkDeactivateUsersAndReassign s rnd teamName userIDs).2.users,
          u.id = r.reviewer_id → u.user_id ∉ userIDs := by
    intro r hr p hp hpr hopen u hu hur hmem
    have h1 := hpost r hr (hur ▸ (hnamed u hu hmem).1)
    rw [hprs] at hp
    rw [isOpenPR_iff.mpr ⟨p, hp, hpr, hopen⟩] at h1
    cases h1
  intro uid huid
  have hex : ∃ u ∈ (BulkDeactivateUsersAndReassign s rnd teamName userIDs).2.users,
      u.user_id = uid := by
    obtain ⟨h1, h2⟩ := resolveUsers_some hds
    have huid2 := huid
    rw [← h1] at huid2
    obtain ⟨d, hd, hd2⟩ := List.mem_map.mp huid2
    obtain ⟨v, hv, _, hv2, _⟩ := h2 d hd
    have : uid ∈ (BulkDeactivateUsersAndReassign s rnd teamName userIDs).2.users.map
        fun u => u.user_id := by
      rw [husers, deactivateAll_user_id, ← hd2, ← hv2]
      exact List.mem_map_of_mem (fun u => u.user_id) hv
    obtain ⟨u, hu, hu2⟩ := List.mem_map.mp this
    exact ⟨u, hu, hu2⟩
  obtain ⟨u, hu, hu2⟩ := hex
  obtain ⟨rv, hrv, hrv2⟩ := GetUserReviews_isOk hu hu2
  refine ⟨rv, hrv, hrv2, ?_, ?_⟩
  · intro item hitem hst
    obtain ⟨r, hr, pr, hpr, w, hw, h1, h2, h3, _, h5⟩ := mem_GetUserReviews hrv hitem
    exact hclear r hr pr hpr h1.symm (h5 ▸ hst) w hw h2.symm (h3 ▸ huid)
  · intro hno
    rw [List.eq_nil_iff_forall_not_mem]
    intro item hitem
    obtain ⟨r, hr, pr, hpr, w, hw, h1, h2, h3, _, h5⟩ := mem_GetUserReviews hrv hitem
    obtain ⟨hw1, v, hv, hv1, hv2⟩ := hnamed w hw (h3 ▸ huid)
    have hrold : r ∈ s.pr_reviewers := by
      rcases hold r hr with h6 | h6
      · exact h6
      · exact absurd (h2 ▸ hw1) h6
    have hmerged : pr.status = .MERGED := by
      cases hst : pr.status with
      | MERGED => rfl
      | OPEN => exact absurd (h3 ▸ huid) (hclear r hr pr hpr h1.symm hst w hw h2.symm)
    rw [hprs] at hpr
    exact hno r hrold v hv (hv2.trans h3) (h2.trans hv1.symm) pr hpr h1.symm hmerged

/-! ## The claims on the bulk scenario, the statistics and the review lists -/

/-- C21, as stated, fails. In the state of `scenarioTwoAuthors` (team `T` with `a1`, `a2`,
`u`, `v`; `p1` of `a1` and `p2` of `a2`, both OPEN and reviewed by `u` and `v`) the call
`BulkDeactivateUsersAndReassign("T", ["u", "v"])` leaves `a1` and `a2` as the only active
users of `T`, and both are authors of affected OPEN pull requests; yet the assignment of `u`
on `p1` is repointed to `a2` and the one on `p2` to `a1`: the call returns
`ReassignedCount = 2` and `RemovedAssignments = 2`, where the named users had four
assignments on OPEN pull requests. -/
theorem C21_counterexample :
    Reachable (runCalls Store.empty scenarioTwoAuthors) ∧
    (∀ t ∈ (runCalls Store.empty scenarioTwoAuthors).teams, t.name = "T" →
      ∀ x ∈ (BulkDeactivateUsersAndReassign (runCalls Store.empty scenarioTwoAuthors) [] "T"
          ["u", "v"]).2.users,
        x.team_id = t.id → x.is_active = 1 →
        ∃ w ∈ namedOpenAssignments (runCalls Store.empty scenarioTwoAuthors) ["u", "v"],
          ∃ p ∈ (runCalls Store.empty scenarioTwoAuthors).pull_requests,
            p.id = w.pr_id ∧ p.author_id = x.id) ∧
    (BulkDeactivateUsersAndReassign (runCalls Store.empty scenarioTwoAuthors) [] "T"
      ["u", "v"]).1 =
      .ok { TeamName := "T", DeactivatedUserIDs := ["u", "v"], ReassignedCount := 2,
            RemovedAssignments := 2 } ∧
    (namedOpenAssignments (runCalls Store.empty scenarioTwoAuthors) ["u", "v"]).length = 4 ∧
    (BulkDeactivateUsersAndReassign (runCalls Store.empty scenarioTwoAuthors) [] "T"
      ["u", "v"]).2.pr_reviewers = [⟨1, 2⟩, ⟨2, 1⟩] :=
  ⟨⟨scenarioTwoAuthors, rfl⟩, by decide, rfl, by decide, by decide⟩

/-- C21, amended: in every state satisfying the schema, when after the deactivations every
active user of the named team is, for each assignment of a named user on an OPEN pull
request, the author of that pull request, a successful `BulkDeactivateUsersAndReassign`
removes exactly the assignments of the named users on OPEN pull requests, returns
`ReassignedCount = 0` and `RemovedAssignments` equal to their number before the call, and
`GetUserReviews` of each named user then lists no OPEN pull request (nothing at all when the
user reviewed no MERGED pull request). -/
theorem C21_bulk_all_removed (s : Store) (hs : SchemaOK s) (rnd : Rand) (teamName : String)
    (userIDs : List String) (res : BulkDeactivateResult)
    (h : (BulkDeactivateUsersAndReassign s rnd teamName userIDs).1 = .ok res)
    (hnone : ∀ t ∈ s.teams, t.name = teamName →
      ∀ x ∈ (BulkDeactivateUsersAndReassign s rnd teamName userIDs).2.users,
        x.team_id = t.id → x.is_active = 1 →
        ∀ w ∈ namedOpenAssignments s userIDs,
          ∃ p ∈ s.pull_requests, p.id = w.pr_id ∧ p.author_id = x.id) :
    (BulkDeactivateUsersAndReassign s rnd teamName userIDs).2.pr_reviewers =
      s.pr_reviewers.filter (fun r => r ∉ namedOpenAssignments s userIDs) ∧
    (∀ r ∈ namedOpenAssignments s userIDs,
      r ∉ (BulkDeactivateUsersAndReassign s rnd teamName userIDs).2.pr_reviewers) ∧
    res.ReassignedCount = 0 ∧
    res.RemovedAssignments = (namedOpenAssignments s userIDs).length ∧
    (∀ uid ∈ userIDs,
      ∃ rv, GetUserReviews (BulkDeactivateUsersAndReassign s rnd teamName userIDs).2 uid
          = .ok rv ∧
        rv.UserID = uid ∧ (∀ item ∈ rv.PullRequests, item.Status ≠ .OPEN) ∧
        ((∀ r ∈ s.pr_reviewers, ∀ u ∈ s.users, u.user_id = uid → r.reviewer_id = u.id →
            ∀ p ∈ s.pull_requests, p.id = r.pr_id → p.status ≠ .MERGED) →
          rv.PullRequests = [])) := by
  obtain ⟨t, ht, ds, hn, _, _, _, _, _, _, ⟨W, hW, hspec⟩, _, _⟩ :=
    BulkDeactivateUsersAndReassign_spec hs h
  have hpool : ∀ w ∈ W, ∀ rows,
      cascadePool (BulkDeactivateUsersAndReassign s rnd teamName userIDs).2.users
        s.pull_requests t.id rows w = [] := fun w hw rows =>
    cascadePool_eq_nil rows fun x hx h1 h2 => hnone t ht hn x hx h1 h2 w (hW.mem_iff.mp hw)
  obtain ⟨h1, h2, h3⟩ := hspec.remove_only hpool
  simp only [Nat.zero_add] at h1 h2 h3
  have hrows : (BulkDeactivateUsersAndReassign s rnd teamName userIDs).2.pr_reviewers =
      s.pr_reviewers.filter (fun r => r ∉ namedOpenAssignments s userIDs) := by
    rw [h1]
    apply List.filter_congr
    intro r _
    exact decide_eq_decide.mpr (not_congr hW.mem_iff)
  refine ⟨hrows, ?_, h2, by rw [h3, hW.length_eq],
    BulkDeactivateUsersAndReassign_reviews hs h⟩
  intro r hr hmem
  rw [hrows] at hmem
  have := (List.mem_filter.mp hmem).2
  simp only [decide_eq_true_eq] at this
  exact this hr

theorem C21_witness :
    (BulkDeactivateUsersAndReassign (runCalls Store.empty scenarioB) [] "T2"
        ["bu2", "bu3"]).2.pr_reviewers =
      (runCalls Store.empty scenarioB).pr_reviewers.filter
        (fun r => r ∉ namedOpenAssignments (runCalls Store.empty scenarioB) ["bu2", "bu3"]) ∧
    (∀ r ∈ namedOpenAssignments (runCalls Store.empty scenarioB) ["bu2", "bu3"],
      r ∉ (BulkDeactivateUsersAndReassign (runCalls Store.empty scenarioB) [] "T2"
        ["bu2", "bu3"]).2.pr_reviewers) ∧
    (0 : Nat) = 0 ∧
    10 = (namedOpenAssignments (runCalls Store.empty scenarioB) ["bu2", "bu3"]).length ∧
    (∀ uid ∈ ["bu2", "bu3"],
      ∃ rv, GetUserReviews (BulkDeactivateUsersAndReassign (runCalls Store.empty scenarioB) []
          "T2" ["bu2", "bu3"]).2 uid = .ok rv ∧
        rv.UserID = uid ∧ (∀ item ∈ rv.PullRequests, item.Status ≠ .OPEN) ∧
        ((∀ r ∈ (runCalls Store.empty scenarioB).pr_reviewers,
            ∀ u ∈ (runCalls Store.empty scenarioB).users, u.user_id = uid →
              r.reviewer_id = u.id →
              ∀ p ∈ (runCalls Store.empty scenarioB).pull_requests, p.id = r.pr_id →
                p.status ≠ .MERGED) →
          rv.PullRequests = [])) :=
  C21_bulk_all_removed (runCalls Store.empty scenarioB)
    (Reachable.inv ⟨scenarioB, rfl⟩).schema [] "T2" ["bu2", "bu3"]
    { TeamName := "T2", DeactivatedUserIDs := ["bu2", "bu3"], ReassignedCount := 0,
      RemovedAssignments := 10 } rfl (by decide)

/-! ## `GetStats` -/

theorem lexLE_total : ∀ a b : List Nat, lexLE a b = true ∨ lexLE b a = true
  | [], _ => Or.inl (by simp [lexLE])
  | _ :: _, [] => Or.inr (by simp [lexLE])
  | a :: as, b :: bs => by
    rcases Nat.lt_trichotomy a b with h | h | h
    · left; simp [lexLE, h]
    · subst h
      simpa [lexLE] using lexLE_total as bs
    · right; simp [lexLE, h]

theorem lexLE_trans : ∀ a b c : List Nat, lexLE a b = true → lexLE b c = true →
    lexLE a c = true
  | [], _, _, _, _ => by simp [lexLE]
  | _ :: _, [], _, h, _ => by simp [lexLE] at h
  | _ :: _, _ :: _, [], _, h => by simp [lexLE] at h
  | a :: as, b :: bs, c :: cs, h1, h2 => by
    simp only [lexLE] at h1 h2 ⊢
    by_cases hab : a < b
    · by_cases hbc : b < c
      · simp [Nat.lt_trans hab hbc]
      · rw [if_neg hbc] at h2
        by_cases hcb : c < b
        · simp [hcb] at h2
        · have : b = c := by omega
          subst this
          simp [hab]
    · rw [if_neg hab] at h1
      by_cases hba : b < a
      · simp [hba] at h1
      · have : a = b := by omega
        subst this
        rw [if_neg hba] at h1
        by_cases hac : a < c
        · simp [hac]
        · rw [if_neg hac] at h2 ⊢
          by_cases hca : c < a
          · simp [hca] at h2
          · rw [if_neg hca] at h2 ⊢
            exact lexLE_trans as bs cs h1 h2

theorem lexLE_antisymm : ∀ a b : List Nat, lexLE a b = true → lexLE b a = true → a = b
  | [], [], _, _ => rfl
  | [], _ :: _, _, h => by simp [lexLE] at h
  | _ :: _, [], h, _ => by simp [lexLE] at h
  | a :: as, b :: bs, h1, h2 => by
    simp only [lexLE] at h1 h2
    by_cases hab : a < b
    · have hba : ¬ b < a := by omega
      simp [hab, hba] at h2
    · rw [if_neg hab] at h1
      by_cases hba : b < a
      · simp [hba] at h1
      · rw [if_neg hba] at h1 h2
        rw [if_neg hab] at h2
        have : a = b := by omega
        subst this
        rw [lexLE_antisymm as bs h1 h2]

/-- The order of the external ids is antisymmetric: two ids that are each at most the other
are the same id. -/
theorem textLE_antisymm {a b : String} (h1 : textLE a b = true) (h2 : textLE b a = true) :
    a = b := by
  have h := lexLE_antisymm _ _ h1 h2
  have hinj : Function.Injective Char.toNat := fun x y hxy => by
    apply Char.ext
    apply UInt32.ext
    exact hxy
  exact String.ext ((List.map_injective_iff.mpr hinj) h)

theorem statBefore_total (a b : ReviewerAssignmentStat) : statBefore a b ∨ statBefore b a := by
  unfold statBefore textLE
  rcases Nat.lt_trichotomy a.AssignedCount b.AssignedCount with h | h | h
  · exact Or.inr (Or.inl h)
  · rcases lexLE_total (a.UserID.toList.map Char.toNat) (b.UserID.toList.map Char.toNat)
      with h2 | h2
    · exact Or.inl (Or.inr ⟨h, h2⟩)
    · exact Or.inr (Or.inr ⟨h.symm, h2⟩)
  · exact Or.inl (Or.inl h)

theorem statBefore_trans {a b c : ReviewerAssignmentStat} (h1 : statBefore a b)
    (h2 : statBefore b c) : statBefore a c := by
  unfold statBefore textLE at *
  rcases h1 with h1 | ⟨h1, h1'⟩ <;> rcases h2 with h2 | ⟨h2, h2'⟩
  · exact Or.inl (by omega)
  · exact Or.inl (by omega)
  · exact Or.inl (by omega)
  · exact Or.inr ⟨h1.trans h2, lexLE_trans _ _ _ h1' h2'⟩

theorem mem_reviewerJoin {s : Store} {uid : String} :
    uid ∈ reviewerJoin s ↔
      ∃ r ∈ s.pr_reviewers, ∃ u ∈ s.users, r.reviewer_id = u.id ∧ u.user_id = uid := by
  unfold reviewerJoin
  simp only [List.mem_flatMap, List.mem_map, List.mem_filter, decide_eq_true_eq]
  constructor
  · rintro ⟨r, hr, u, ⟨hu, h1⟩, h2⟩
    exact ⟨r, hr, u, hu, h1, h2⟩
  · rintro ⟨r, hr, u, hu, h1, h2⟩
    exact ⟨r, hr, u, ⟨hu, h1⟩, h2⟩

/-- With the keys of `users`, the group of a user in the join has as many rows as the user
has assignment rows. -/
theorem count_reviewerJoin {s : Store} (hpk : (s.users.map fun u => u.id).Nodup)
    (hext : (s.users.map fun u => u.user_id).Nodup) {u : UserRow} (hu : u ∈ s.users) :
    (reviewerJoin s).count u.user_id =
      (s.pr_reviewers.filter fun r => r.reviewer_id = u.id).length := by
  unfold reviewerJoin
  induction s.pr_reviewers with
  | nil => rfl
  | cons r t ih =>
    rw [List.flatMap_cons, List.count_append, ih, List.filter_cons]
    by_cases hr : r.reviewer_id = u.id
    · rw [filter_id_eq hpk hu hr]
      simp [hr]
      omega
    · have : ((s.users.filter fun v => r.reviewer_id = v.id).map fun v => v.user_id).count
          u.user_id = 0 := by
        rw [List.count_eq_zero]
        intro hm
        obtain ⟨v, hv, hv2⟩ := List.mem_map.mp hm
        obtain ⟨hv1, hv3⟩ := List.mem_filter.mp hv
        have := key_inj (fun u : UserRow => u.user_id) hext hv1 hu hv2
        subst this
        exact hr (of_decide_eq_true hv3)
      rw [this]
      simp [hr]

/-- The list returned by `GetStats` in `AssignmentsByReviewer`: a permutation of the groups,
sorted. -/
theorem GetStats_ok (s : Store) :
    ∃ st, GetStats s = .ok st ∧
      st.TotalPullRequests = s.pull_requests.length ∧
      st.AssignmentsByReviewer.Perm
        ((reviewerJoin s).dedup.map fun uid =>
          ({ UserID := uid, AssignedCount := (reviewerJoin s).count uid } :
            ReviewerAssignmentStat)) ∧
      st.AssignmentsByReviewer.Pairwise statBefore :=
  ⟨_, rfl, rfl, List.perm_insertionSort _ _,
    @List.sorted_insertionSort _ statBefore _ ⟨statBefore_total⟩ ⟨fun _ _ _ => statBefore_trans⟩ _⟩

/-- C22: in every state satisfying the schema, `GetStats` succeeds and `AssignmentsByReviewer`
has no two entries for the same user; a user has an entry exactly when it has an assignment
row, on a pull request of any status; the `AssignedCount` of an entry is the number of
assignment rows of its user, at least one; and of two entries the earlier one has the larger
count or, for the same count, the strictly smaller external id. -/
theorem C22_stats_assignments (s : Store) (hs : SchemaOK s) :
    ∃ st, GetStats s = .ok st ∧
      (st.AssignmentsByReviewer.map fun e => e.UserID).Nodup ∧
      (∀ u ∈ s.users,
        (u.user_id ∈ st.AssignmentsByReviewer.map fun e => e.UserID) ↔
          ∃ r ∈ s.pr_reviewers, r.reviewer_id = u.id) ∧
      (∀ e ∈ st.AssignmentsByReviewer, ∃ u ∈ s.users, u.user_id = e.UserID ∧
        e.AssignedCount = (s.pr_reviewers.filter fun r => r.reviewer_id = u.id).length ∧
        0 < e.AssignedCount) ∧
      st.AssignmentsByReviewer.Pairwise (fun a b =>
        b.AssignedCount < a.AssignedCount ∨
          (a.AssignedCount = b.AssignedCount ∧ textLE a.UserID b.UserID = true ∧
            a.UserID ≠ b.UserID)) := by
  obtain ⟨st, hst, _, hperm, hsorted⟩ := GetStats_ok s
  have hids : (st.AssignmentsByReviewer.map fun e => e.UserID).Perm (reviewerJoin s).dedup := by
    have := hperm.map fun e => e.UserID
    rw [List.map_map] at this
    have hid : (reviewerJoin s).dedup.map ((fun e : ReviewerAssignmentStat => e.UserID) ∘
        fun uid => { UserID := uid, AssignedCount := (reviewerJoin s).count uid }) =
        (reviewerJoin s).dedup := by
      conv_rhs => rw [← List.map_id (reviewerJoin s).dedup]
      rfl
    rw [hid] at this
    exact this
  have hnodup : (st.AssignmentsByReviewer.map fun e => e.UserID).Nodup :=
    hids.nodup_iff.mpr (List.nodup_dedup _)
  have hmem : ∀ uid, (uid ∈ st.AssignmentsByReviewer.map fun e => e.UserID) ↔
      ∃ r ∈ s.pr_reviewers, ∃ u ∈ s.users, r.reviewer_id = u.id ∧ u.user_id = uid := by
    intro uid
    rw [hids.mem_iff, List.mem_dedup, mem_reviewerJoin]
  refine ⟨st, hst, hnodup, ?_, ?_, ?_⟩
  · intro u hu
    rw [hmem]
    constructor
    · rintro ⟨r, hr, v, hv, h1, h2⟩
      have := key_inj (fun u : UserRow => u.user_id) hs.users_user_id hv hu h2
      subst this
      exact ⟨r, hr, h1⟩
    · rintro ⟨r, hr, h1⟩
      exact ⟨r, hr, u, hu, h1, rfl⟩
  · intro e he
    obtain ⟨uid, huid, rfl⟩ := List.mem_map.mp (hperm.mem_iff.mp he)
    rw [List.mem_dedup] at huid
    obtain ⟨r, hr, u, hu, h1, rfl⟩ := mem_reviewerJoin.mp huid
    refine ⟨u, hu, rfl, count_reviewerJoin hs.users_pk hs.users_user_id hu, ?_⟩
    exact List.count_pos_iff.mpr huid
  · have hne : st.AssignmentsByReviewer.Pairwise fun a b => a.UserID ≠ b.UserID :=
      List.pairwise_map.mp hnodup
    refine (hsorted.and hne).imp ?_
    rintro a b ⟨h1 | ⟨h1, h2⟩, h3⟩
    · exact Or.inl h1
    · exact Or.inr ⟨h1, h2, h3⟩

theorem C22_witness :
    ∃ st, GetStats (runCalls Store.empty scenarioStats) = .ok st ∧
      (st.AssignmentsByReviewer.map fun e => e.UserID).Nodup ∧
      (∀ u ∈ (runCalls Store.empty scenarioStats).users,
        (u.user_id ∈ st.AssignmentsByReviewer.map fun e => e.UserID) ↔
          ∃ r ∈ (runCalls Store.empty scenarioStats).pr_reviewers, r.reviewer_id = u.id) ∧
      (∀ e ∈ st.AssignmentsByReviewer,
        ∃ u ∈ (runCalls Store.empty scenarioStats).users, u.user_id = e.UserID ∧
          e.AssignedCount = ((runCalls Store.empty scenarioStats).pr_reviewers.filter
            fun r => r.reviewer_id = u.id).length ∧
          0 < e.AssignedCount) ∧
      st.AssignmentsByReviewer.Pairwise (fun a b =>
        b.AssignedCount < a.AssignedCount ∨
          (a.AssignedCount = b.AssignedCount ∧ textLE a.UserID b.UserID = true ∧
            a.UserID ≠ b.UserID)) :=
  C22_stats_assignments (runCalls Store.empty scenarioStats)
    (Reachable.inv ⟨scenarioStats, rfl⟩).schema

/-! ## `GetUserReviews`, exactly -/

theorem GetUserReviews_of_absent {s : Store} {userID : String}
    (h : ∀ u ∈ s.users, u.user_id ≠ userID) : GetUserReviews s userID = .error .ErrNotFound := by
  have h1 : (s.users.find? fun u => u.user_id = userID) = none :=
    List.find?_eq_none.mpr fun u hu => by simpa using h u hu
  unfold GetUserReviews
  rw [h1]

theorem flatMap_map_singleton {α β : Type} (g : α → β) (l : List α) :
    (l.flatMap fun a => [g a]) = l.map g := by
  induction l with
  | nil => rfl
  | cons a t ih => rw [List.flatMap_cons, ih]; rfl

/-- With the keys of the schema, the join of `GetUserReviews` is the list of the assignment
rows of the user, each with its pull request and the author of it. -/
theorem GetUserReviews_eq {s : Store} (hs : SchemaOK s) {u : UserRow} (hu : u ∈ s.users) :
    GetUserReviews s u.user_id =
      .ok
        { UserID := u.user_id
          PullRequests := (s.pr_reviewers.filter fun r => r.reviewer_id = u.id).flatMap fun r =>
            (s.pull_requests.filter fun pr => r.pr_id = pr.id).flatMap fun pr =>
              (s.users.filter fun au => pr.author_id = au.id).map fun au =>
                { ID := pr.pull_request_id, Name := pr.name, AuthorID := au.user_id,
                  Status := pr.status } } := by
  have hfind := find?_key (fun u : UserRow => u.user_id) hs.users_user_id hu rfl
  unfold GetUserReviews
  rw [hfind]
  simp only []
  congr 2
  induction s.pr_reviewers with
  | nil => rfl
  | cons r t ih =>
    rw [List.flatMap_cons, ih, List.filter_cons]
    by_cases hr : r.reviewer_id = u.id
    · have hf : (s.users.filter fun w => r.reviewer_id = w.id ∧ w.user_id = u.user_id) = [u] := by
        rw [← filter_id_eq hs.users_pk hu hr]
        apply List.filter_congr
        intro w hw
        by_cases hw2 : r.reviewer_id = w.id
        · have : w = u := key_inj (fun u : UserRow => u.id) hs.users_pk hw hu (hw2.symm.trans hr)
          subst this
          simp [hw2]
        · simp [hw2]
      rw [if_pos (by simpa using hr), List.flatMap_cons, hf]
      congr 1
      apply List.flatMap_congr
      intro pr _
      rw [← flatMap_map_singleton]
      rfl
    · have hf : (s.users.filter fun w => r.reviewer_id = w.id ∧ w.user_id = u.user_id) = [] := by
        rw [List.filter_eq_nil_iff]
        intro w hw hc
        simp only [decide_eq_true_eq] at hc
        have : w = u := key_inj (fun u : UserRow => u.user_id) hs.users_user_id hw hu hc.2
        subst this
        exact hr hc.1
      rw [if_neg (by simpa using hr), hf]
      have : ((s.pull_requests.filter fun pr => r.pr_id = pr.id).flatMap fun pr =>
          (s.users.filter fun au => pr.author_id = au.id).flatMap fun au =>
            ([] : List UserRow).map fun _ =>
              ({ ID := pr.pull_request_id, Name := pr.name, AuthorID := au.user_id,
                 Status := pr.status } : PullRequestShort)) = [] := by
        rw [List.flatMap_eq_nil_iff]
        intro pr _
        rw [List.flatMap_eq_nil_iff]
        intro au _
        rfl
      rw [this, List.nil_append]

/-- The entries of `GetUserReviews`: one for every assignment row of the user, with the
external id, the name and the status of the pull request and the external id of its author;
no pull request is listed twice. -/
theorem GetUserReviews_spec {s : Store} (hs : SchemaOK s) {u : UserRow} (hu : u ∈ s.users) :
    ∃ rv, GetUserReviews s u.user_id = .ok rv ∧ rv.UserID = u.user_id ∧
      (∀ item, item ∈ rv.PullRequests ↔
        ∃ p ∈ s.pull_requests, ∃ au ∈ s.users,
          (⟨p.id, u.id⟩ : ReviewerRow) ∈ s.pr_reviewers ∧ p.author_id = au.id ∧
          item = { ID := p.pull_request_id, Name := p.name, AuthorID := au.user_id,
                   Status := p.status }) ∧
      (rv.PullRequests.map fun item => item.ID).Nodup := by
  refine ⟨_, GetUserReviews_eq hs hu, rfl, ?_, ?_⟩
  · intro item
    simp only [List.mem_flatMap, List.mem_filter, List.mem_map, decide_eq_true_eq]
    constructor
    · rintro ⟨r, ⟨hr, hr2⟩, p, ⟨hp, hp2⟩, au, ⟨hau, hau2⟩, rfl⟩
      refine ⟨p, hp, au, hau, ?_, hau2, rfl⟩
      obtain ⟨r1, r2⟩ := r
      simp only at hr2 hp2
      rw [← hp2, ← hr2]
      exact hr
    · rintro ⟨p, hp, au, hau, hr, hau2, rfl⟩
      exact ⟨⟨p.id, u.id⟩, ⟨hr, rfl⟩, p, ⟨hp, rfl⟩, au, ⟨hau, hau2⟩, rfl⟩
  · simp only []
    rw [List.map_flatMap, List.nodup_flatMap]
    constructor
    · intro r hr
      obtain ⟨hr1, _⟩ := List.mem_filter.mp hr
      obtain ⟨p, hp, hp2⟩ := List.mem_map.mp (hs.revs_pr r hr1)
      have h1 : (s.pull_requests.filter fun pr => r.pr_id = pr.id) = [p] := by
        rw [← hp2]
        exact filter_key_eq (fun p : PullRequestRow => p.id) s.pull_requests hs.prs_pk p hp
      obtain ⟨au, hau, hau2⟩ := List.mem_map.mp (hs.prs_author p hp)
      have h2 : (s.users.filter fun au => p.author_id = au.id) = [au] :=
        filter_id_eq hs.users_pk hau hau2.symm
      rw [h1, List.flatMap_singleton, h2]
      exact List.nodup_singleton _
    · refine (hs.revs_pk.sublist (List.filter_sublist _)).pairwise_of_forall_ne ?_
      intro r1 hr1 r2 hr2 hne x hx1 hx2
      obtain ⟨hr1a, hr1b⟩ := List.mem_filter.mp hr1
      obtain ⟨hr2a, hr2b⟩ := List.mem_filter.mp hr2
      simp only [decide_eq_true_eq] at hr1b hr2b
      simp only [List.mem_map, List.mem_flatMap, List.mem_filter, decide_eq_true_eq] at hx1 hx2
      obtain ⟨i1, ⟨p1, ⟨hp1, hp1b⟩, au1, _, rfl⟩, rfl⟩ := hx1
      obtain ⟨i2, ⟨p2, ⟨hp2, hp2b⟩, au2, _, rfl⟩, hx⟩ := hx2
      simp only at hx
      have : p2 = p1 :=
        key_inj (fun p : PullRequestRow => p.pull_request_id) hs.prs_pull_request_id hp2 hp1 hx
      subst this
      apply hne
      obtain ⟨a1, b1⟩ := r1
      obtain ⟨a2, b2⟩ := r2
      simp only at hr1b hr2b hp1b hp2b
      rw [hr1b, hr2b, hp1b, hp2b]

/-- A successful `CreatePullRequestWithAutoAssign` returns the projection read back from the
store it leaves. -/
theorem CreatePullRequestWithAutoAssign_ok_get {s : Store} {now : Nat} {rnd : Rand}
    {prID prName authorExternalID : String} {pr : PullRequest}
    (h : (CreatePullRequestWithAutoAssign s now rnd prID prName authorExternalID).1 = .ok pr) :
    getPullRequestByExternalID
      (CreatePullRequestWithAutoAssign s now rnd prID prName authorExternalID).2 prID =
        .ok pr := by
  cases h1 : s.pull_requests.find? fun p => decide (p.pull_request_id = prID) with
  | some p =>
    rw [CreatePullRequestWithAutoAssign_of_present now rnd prName authorExternalID
      (List.mem_of_find?_eq_some h1) (by simpa using List.find?_some h1)] at h
    cases h
  | none =>
    have hfresh : ∀ p ∈ s.pull_requests, p.pull_request_id ≠ prID :=
      fun p hp => by simpa using List.find?_eq_none.mp h1 p hp
    cases h2 : s.users.find? fun u => decide (u.user_id = authorExternalID) with
    | none =>
      rw [CreatePullRequestWithAutoAssign_of_no_author now rnd prName hfresh
        (fun u hu => by simpa using List.find?_eq_none.mp h2 u hu)] at h
      cases h
    | some au =>
      rw [CreatePullRequestWithAutoAssign_of_author now rnd prName hfresh h2] at h ⊢
      exact h

/-- C23: in every state satisfying the schema, `GetUserReviews(userID)` fails with
`ErrNotFound` exactly when no user has that external id; for a user that exists it returns
the external id with one entry for every pull request, OPEN or MERGED, on which the user has
an assignment row, carrying the external id, the name, the author's external id and the
status of the pull request, and no other entry, no pull request twice; and after a successful
`CreatePullRequestWithAutoAssign` every reviewer listed in the returned projection has the
new pull request, as returned, in its `GetUserReviews` list. -/
theorem C23_user_reviews (s : Store) (hs : SchemaOK s) (userID : String) :
    (GetUserReviews s userID = .error .ErrNotFound ↔ ∀ u ∈ s.users, u.user_id ≠ userID) ∧
    (∀ u ∈ s.users, u.user_id = userID →
      ∃ rv, GetUserReviews s userID = .ok rv ∧ rv.UserID = userID ∧
        (∀ item, item ∈ rv.PullRequests ↔
          ∃ p ∈ s.pull_requests, ∃ au ∈ s.users,
            (⟨p.id, u.id⟩ : ReviewerRow) ∈ s.pr_reviewers ∧ p.author_id = au.id ∧
            item = { ID := p.pull_request_id, Name := p.name, AuthorID := au.user_id,
                     Status := p.status }) ∧
        (rv.PullRequests.map fun item => item.ID).Nodup) ∧
    (∀ (now : Nat) (rnd : Rand) (prID prName authorExternalID : String) (pr : PullRequest),
      (CreatePullRequestWithAutoAssign s now rnd prID prName authorExternalID).1 = .ok pr →
      pr.ID = prID ∧
      ∀ x ∈ pr.AssignedReviewers,
        ∃ rv, GetUserReviews
            (CreatePullRequestWithAutoAssign s now rnd prID prName authorExternalID).2 x =
              .ok rv ∧
          ({ ID := pr.ID, Name := pr.Name, AuthorID := pr.AuthorID, Status := pr.Status } :
            PullRequestShort) ∈ rv.PullRequests) := by
  refine ⟨⟨?_, GetUserReviews_of_absent⟩, ?_, ?_⟩
  · intro h u hu hid
    obtain ⟨rv, hrv, _⟩ := GetUserReviews_isOk hu hid
    rw [h] at hrv
    cases hrv
  · rintro u hu rfl
    exact GetUserReviews_spec hs hu
  · intro now rnd prID prName authorExternalID pr h
    have hs2 := CreatePullRequestWithAutoAssign_schemaOK hs now rnd prID prName authorExternalID
    obtain ⟨p, hp, au, hau, hid, ha, rfl⟩ :=
      getPullRequestByExternalID_ok hs2 (CreatePullRequestWithAutoAssign_ok_get h)
    refine ⟨hid, ?_⟩
    intro x hx
    obtain ⟨u, hu, rfl⟩ := List.mem_map.mp hx
    obtain ⟨hu1, hu2⟩ := mem_assignedUsers hu
    obtain ⟨rv, hrv, _, hmem, _⟩ := GetUserReviews_spec hs2 hu1
    exact ⟨rv, hrv, (hmem _).mpr ⟨p, hp, au, hau, hu2, ha, rfl⟩⟩

theorem C23_witness :
    (GetUserReviews (runCalls Store.empty scenarioStats) "b" = .error .ErrNotFound ↔
      ∀ u ∈ (runCalls Store.empty scenarioStats).users, u.user_id ≠ "b") ∧
    (∀ u ∈ (runCalls Store.empty scenarioStats).users, u.user_id = "b" →
      ∃ rv, GetUserReviews (runCalls Store.empty scenarioStats) "b" = .ok rv ∧
        rv.UserID = "b" ∧
        (∀ item, item ∈ rv.PullRequests ↔
          ∃ p ∈ (runCalls Store.empty scenarioStats).pull_requests,
            ∃ au ∈ (runCalls Store.empty scenarioStats).users,
              (⟨p.id, u.id⟩ : ReviewerRow) ∈
                (runCalls Store.empty scenarioStats).pr_reviewers ∧
              p.author_id = au.id ∧
              item = { ID := p.pull_request_id, Name := p.name, AuthorID := au.user_id,
                       Status := p.status }) ∧
        (rv.PullRequests.map fun item => item.ID).Nodup) ∧
    (∀ (now : Nat) (rnd : Rand) (prID prName authorExternalID : String) (pr : PullRequest),
      (CreatePullRequestWithAutoAssign (runCalls Store.empty scenarioStats) now rnd prID prName
        authorExternalID).1 = .ok pr →
      pr.ID = prID ∧
      ∀ x ∈ pr.AssignedReviewers,
        ∃ rv, GetUserReviews
            (CreatePullRequestWithAutoAssign (runCalls Store.empty scenarioStats) now rnd prID
              prName authorExternalID).2 x = .ok rv ∧
          ({ ID := pr.ID, Name := pr.Name, AuthorID := pr.AuthorID, Status := pr.Status } :
            PullRequestShort) ∈ rv.PullRequests) :=
  C23_user_reviews (runCalls Store.empty scenarioStats)
    (Reachable.inv ⟨scenarioStats, rfl⟩).schema "b"

/-! ## `CreateTeam` and `GetTeam`, exactly -/

theorem GetTeam_error {s : Store} {teamName : String} {e : Error}
    (h : GetTeam s teamName = .error e) : e = .ErrNotFound := by
  unfold GetTeam at h
  split at h
  · injection h with h; exact h.symm
  · cases h

/-- With unique team names, `GetTeam` of a team of the store lists the users whose `team_id`
is the id of the team, in table order. -/
theorem GetTeam_of_mem {s : Store} (hn : (s.teams.map fun t => t.name).Nodup) {t : TeamRow}
    (ht : t ∈ s.teams) :
    GetTeam s t.name =
      .ok { TeamName := t.name
            Members := (s.users.filter fun u => u.team_id = t.id).map fun u =>
              ({ UserID := u.user_id, Username := u.username, IsActive := u.is_active = 1 } :
                TeamMember) } := by
  have hf := find?_key (fun t : TeamRow => t.name) hn ht rfl
  unfold GetTeam
  rw [hf]

theorem CreateTeam_of_present {s : Store} {teamName : String} (members : List TeamMember)
    {t : TeamRow} (ht : t ∈ s.teams) (hname : t.name = teamName) :
    CreateTeam s teamName members = (.error .ErrTeamExists, s) := by
  obtain ⟨b, hb⟩ := find?_some_of_mem (p := fun t : TeamRow => decide (t.name = teamName)) ht
    (by simpa using hname)
  unfold CreateTeam
  rw [hb]

theorem CreateTeam_of_fresh {s : Store} {teamName : String} (members : List TeamMember)
    (hfresh : ∀ t ∈ s.teams, t.name ≠ teamName) :
    CreateTeam s teamName members =
      (GetTeam
        { s with
          teams := s.teams ++ [{ id := nextID (s.teams.map fun t => t.id), name := teamName }]
          users := members.foldl (upsertMember (nextID (s.teams.map fun t => t.id))) s.users }
        teamName,
       { s with
          teams := s.teams ++ [{ id := nextID (s.teams.map fun t => t.id), name := teamName }]
          users := members.foldl (upsertMember (nextID (s.teams.map fun t => t.id)))
            s.users }) := by
  have h1 : (s.teams.find? fun t => t.name = teamName) = none :=
    List.find?_eq_none.mpr fun t ht => by simpa using hfresh t ht
  unfold CreateTeam
  rw [h1]

theorem lastMember_some : ∀ {members : List TeamMember} {uid : String} {m : TeamMember},
    lastMember members uid = some m → m ∈ members ∧ m.UserID = uid
  | [], _, _, h => by cases h
  | x :: t, uid, m, h => by
    unfold lastMember at h
    split at h
    · rename_i y hy
      injection h with h
      subst h
      exact ⟨List.mem_cons_of_mem _ (lastMember_some hy).1, (lastMember_some hy).2⟩
    · split at h
      · rename_i hx
        injection h with h
        subst h
        exact ⟨List.mem_cons_self _ _, hx⟩
      · cases h

theorem lastMember_none : ∀ {members : List TeamMember} {uid : String},
    uid ∉ members.map (fun m => m.UserID) → lastMember members uid = none
  | [], _, _ => rfl
  | x :: t, uid, h => by
    rw [List.map_cons, List.mem_cons, not_or] at h
    unfold lastMember
    rw [lastMember_none h.2]
    simp only []
    rw [if_neg fun e => h.1 e.symm]

theorem lastMember_isSome : ∀ {members : List TeamMember} {uid : String},
    uid ∈ members.map (fun m => m.UserID) → ∃ m, lastMember members uid = some m
  | [], _, h => by cases h
  | x :: t, uid, h => by
    unfold lastMember
    cases hl : lastMember t uid with
    | some y => exact ⟨y, rfl⟩
    | none =>
      rw [List.map_cons, List.mem_cons] at h
      rcases h with h | h
      · exact ⟨x, by simp [h]⟩
      · obtain ⟨m, hm⟩ := lastMember_isSome h
        rw [hm] at hl
        cases hl

theorem lastMember_cons_of_mem {x : TeamMember} {t : List TeamMember} {uid : String}
    (h : uid ∈ t.map fun m => m.UserID) : lastMember (x :: t) uid = lastMember t uid := by
  obtain ⟨m, hm⟩ := lastMember_isSome h
  conv_lhs => unfold lastMember
  rw [hm]

theorem lastMember_cons_of_not_mem {x : TeamMember} {t : List TeamMember}
    (h : x.UserID ∉ t.map fun m => m.UserID) : lastMember (x :: t) x.UserID = some x := by
  conv_lhs => unfold lastMember
  rw [lastMember_none h]
  simp

/-- A row of `users` after one turn of the member loop: an old row of another user, or the
row of the member, in the team, with the name and the flag of the member. -/
theorem mem_upsertMember {teamID : Nat} {users : List UserRow} {m : TeamMember} {u : UserRow}
    (h : u ∈ upsertMember teamID users m) :
    (u.user_id ≠ m.UserID ∧ u ∈ users) ∨
    (u.user_id = m.UserID ∧ u.team_id = teamID ∧ u.username = m.Username ∧
      u.is_active = boolToInt m.IsActive) := by
  rcases upsertMember_cases teamID users m with ⟨hn, he⟩ | ⟨_, he⟩
  · rw [he] at h
    rcases List.mem_append.mp h with h | h
    · exact Or.inl ⟨hn u h, h⟩
    · rw [List.mem_singleton] at h
      subst h
      exact Or.inr ⟨rfl, rfl, rfl, rfl⟩
  · rw [he] at h
    obtain ⟨v, hv, rfl⟩ := List.mem_map.mp h
    by_cases hc : v.user_id = m.UserID
    · rw [if_pos hc]
      exact Or.inr ⟨hc, rfl, rfl, rfl⟩
    · rw [if_neg hc]
      exact Or.inl ⟨hc, hv⟩

theorem upsertMember_exists (teamID : Nat) (users : List UserRow) (m : TeamMember) :
    ∃ u ∈ upsertMember teamID users m, u.user_id = m.UserID := by
  rcases upsertMember_cases teamID users m with ⟨_, he⟩ | ⟨⟨v, hv, hv2⟩, he⟩
  · rw [he]
    exact ⟨_, List.mem_append_right _ (List.mem_singleton.mpr rfl), rfl⟩
  · rw [he]
    refine ⟨_, List.mem_map.mpr ⟨v, hv, rfl⟩, ?_⟩
    rw [if_pos hv2]
    exact hv2

theorem upsertMember_keeps {teamID : Nat} {users : List UserRow} {m : TeamMember} {u : UserRow}
    (h : u ∈ users) (hne : u.user_id ≠ m.UserID) : u ∈ upsertMember teamID users m := by
  rcases upsertMember_cases teamID users m with ⟨_, he⟩ | ⟨_, he⟩
  · rw [he]
    exact List.mem_append_left _ h
  · rw [he]
    exact List.mem_map.mpr ⟨u, h, by rw [if_neg hne]⟩

theorem upsertMember_keys {teamID : Nat} {users : List UserRow} (m : TeamMember) {u : UserRow}
    (h : u ∈ users) : ∃ v ∈ upsertMember teamID users m, v.id = u.id ∧ v.user_id = u.user_id := by
  rcases upsertMember_cases teamID users m with ⟨_, he⟩ | ⟨_, he⟩
  · rw [he]
    exact ⟨u, List.mem_append_left _ h, rfl, rfl⟩
  · rw [he]
    refine ⟨_, List.mem_map.mpr ⟨u, h, rfl⟩, ?_⟩
    split <;> exact ⟨rfl, rfl⟩

theorem upsertAll_keys (teamID : Nat) (members : List TeamMember) :
    ∀ (users : List UserRow) (u : UserRow), u ∈ users →
      ∃ v ∈ members.foldl (upsertMember teamID) users, v.id = u.id ∧ v.user_id = u.user_id := by
  induction members with
  | nil => exact fun users u hu => ⟨u, hu, rfl, rfl⟩
  | cons m t ih =>
    intro users u hu
    obtain ⟨v, hv, h1, h2⟩ := @upsertMember_keys teamID users m u hu
    obtain ⟨w, hw, h3, h4⟩ := ih _ v hv
    exact ⟨w, hw, h3.trans h1, h4.trans h2⟩

/-- The table `users` after the member loop of `CreateTeam`: a row is an old row of a user
that is not in the member list, or is in the team with the name and the flag of the last
occurrence of its external id in the list; every id of the list has a row; the rows of the
users that are not in the list are kept. -/
theorem upsertAll_spec (teamID : Nat) (members : List TeamMember) :
    ∀ users : List UserRow,
      (∀ u ∈ members.foldl (upsertMember teamID) users,
        (u.user_id ∉ members.map (fun m => m.UserID) ∧ u ∈ users) ∨
        (u.team_id = teamID ∧ ∃ m, lastMember members u.user_id = some m ∧
          u.username = m.Username ∧ u.is_active = boolToInt m.IsActive)) ∧
      (∀ uid ∈ members.map (fun m => m.UserID),
        ∃ u ∈ members.foldl (upsertMember teamID) users, u.user_id = uid) ∧
      (∀ u ∈ users, u.user_id ∉ members.map (fun m => m.UserID) →
        u ∈ members.foldl (upsertMember teamID) users) := by
  induction members with
  | nil =>
    intro users
    exact ⟨fun u hu => Or.inl ⟨fun h => (by cases h), hu⟩, fun _ h => (by cases h),
      fun u hu _ => hu⟩
  | cons m t ih =>
    intro users
    obtain ⟨h1, h2, h3⟩ := ih (upsertMember teamID users m)
    rw [List.foldl_cons]
    refine ⟨?_, ?_, ?_⟩
    · intro u hu
      rcases h1 u hu with ⟨hn, hmem⟩ | ⟨ht, x, hx, hx2⟩
      · rcases mem_upsertMember hmem with ⟨hne, hold⟩ | ⟨he, ht, hname, hflag⟩
        · left
          refine ⟨?_, hold⟩
          rw [List.map_cons, List.mem_cons, not_or]
          exact ⟨hne, hn⟩
        · right
          refine ⟨ht, m, ?_, hname, hflag⟩
          rw [he]
          exact lastMember_cons_of_not_mem (he ▸ hn)
      · right
        refine ⟨ht, x, ?_, hx2⟩
        rw [lastMember_cons_of_mem, hx]
        rw [← (lastMember_some hx).2]
        exact List.mem_map_of_mem (fun m => m.UserID) (lastMember_some hx).1
    · intro uid huid
      by_cases ht : uid ∈ t.map fun m => m.UserID
      · exact h2 uid ht
      · rw [List.map_cons, List.mem_cons] at huid
        rcases huid with rfl | huid
        · obtain ⟨u, hu, hu2⟩ := upsertMember_exists teamID users m
          exact ⟨u, h3 u hu (hu2 ▸ ht), hu2⟩
        · exact absurd huid ht
    · intro u hu hn
      rw [List.map_cons, List.mem_cons, not_or] at hn
      exact h3 u (upsertMember_keeps hu hn.1) hn.2

/-! ## The claims on teams and users -/

/-- C24: in every state and for every member list, `CreateTeam` fails with `ErrTeamExists`
exactly when a team with the given name is in the store, and then the store is left as it
was: the table `users` in particular, so no user of the member list is created, moved,
renamed or has its flag overwritten. -/
theorem C24_create_team_exists (s : Store) (teamName : String) (members : List TeamMember) :
    ((CreateTeam s teamName members).1 = .error .ErrTeamExists ↔
      ∃ t ∈ s.teams, t.name = teamName) ∧
    ((CreateTeam s teamName members).1 = .error .ErrTeamExists →
      (CreateTeam s teamName members).2 = s ∧
      (CreateTeam s teamName members).2.users = s.users) := by
  by_cases ht : ∃ t ∈ s.teams, t.name = teamName
  · obtain ⟨t, ht1, ht2⟩ := ht
    rw [CreateTeam_of_present members ht1 ht2]
    exact ⟨⟨fun _ => ⟨t, ht1, ht2⟩, fun _ => rfl⟩, fun _ => ⟨rfl, rfl⟩⟩
  · have hfresh : ∀ t ∈ s.teams, t.name ≠ teamName := fun t h1 h2 => ht ⟨t, h1, h2⟩
    rw [CreateTeam_of_fresh members hfresh]
    have hne : ∀ tx : Store, GetTeam tx teamName ≠ .error .ErrTeamExists := by
      intro tx h
      have := GetTeam_error h
      cases this
    exact ⟨⟨fun h => absurd h (hne _), fun h => absurd h ht⟩, fun h => absurd h (hne _)⟩

/-- C25: in every state satisfying the schema, `CreateTeam(name, members)` with a name that
no team has appends the team and leaves the other teams, the pull requests and the
assignments as they were. Afterwards every external id of `members` denotes exactly one
user, in the new team, with the username and the flag of the last occurrence of the id in
`members`; a user that existed keeps its internal id and is in the new team, the users not in
`members` are as before, and `GetTeam` of every older team succeeds and lists no id of
`members`. The call returns the team with the given name and one member for each distinct id
of `members`, each equal to the last occurrence of its id. -/
theorem C25_create_team (s : Store) (hs : SchemaOK s) (teamName : String)
    (members : List TeamMember) (hfresh : ∀ t ∈ s.teams, t.name ≠ teamName) :
    ∃ t : TeamRow, t.name = teamName ∧ t.id ∉ s.teams.map (fun t => t.id) ∧
      (CreateTeam s teamName members).2.teams = s.teams ++ [t] ∧
      (CreateTeam s teamName members).2.pull_requests = s.pull_requests ∧
      (CreateTeam s teamName members).2.pr_reviewers = s.pr_reviewers ∧
      (∀ uid ∈ members.map (fun m => m.UserID),
        ∃ u ∈ (CreateTeam s teamName members).2.users, u.user_id = uid ∧
          (∀ v ∈ (CreateTeam s teamName members).2.users, v.user_id = uid → v = u) ∧
          u.team_id = t.id ∧
          ∃ m, lastMember members uid = some m ∧ u.username = m.Username ∧
            u.is_active = boolToInt m.IsActive) ∧
      (∀ u0 ∈ s.users, u0.user_id ∈ members.map (fun m => m.UserID) →
        ∃ u ∈ (CreateTeam s teamName members).2.users,
          u.id = u0.id ∧ u.user_id = u0.user_id ∧ u.team_id = t.id) ∧
      (∀ u ∈ s.users, u.user_id ∉ members.map (fun m => m.UserID) →
        u ∈ (CreateTeam s teamName members).2.users) ∧
      (∀ t0 ∈ s.teams, ∃ tm, GetTeam (CreateTeam s teamName members).2 t0.name = .ok tm ∧
        ∀ m ∈ tm.Members, m.UserID ∉ members.map fun m => m.UserID) ∧
      (∃ team, (CreateTeam s teamName members).1 = .ok team ∧ team.TeamName = teamName ∧
        (team.Members.map fun m => m.UserID).Nodup ∧
        (∀ uid, (uid ∈ team.Members.map fun m => m.UserID) ↔
          uid ∈ members.map fun m => m.UserID) ∧
        team.Members.length = (members.map fun m => m.UserID).dedup.length ∧
        (∀ m ∈ team.Members, lastMember members m.UserID = some m)) := by
  rw [CreateTeam_of_fresh members hfresh]
  simp only []
  obtain ⟨h1, h2, h3⟩ := upsertAll_spec (nextID (s.teams.map fun t => t.id)) members s.users
  have hnew : nextID (s.teams.map fun t => t.id) ∉ s.teams.map fun t => t.id :=
    nextID_not_mem _
  have hmem : nextID (s.teams.map fun t => t.id) ∈
      (s.teams ++ [({ id := nextID (s.teams.map fun t => t.id), name := teamName } :
        TeamRow)]).map fun t => t.id := by
    simp
  obtain ⟨_, kext, _, _⟩ := upsertAll_ok _ hmem members s.users hs.users_pk hs.users_user_id (by
    intro u hu
    rw [List.map_append]
    exact List.mem_append_left _ (hs.users_team u hu))
  have hnames : ((s.teams ++ [({ id := nextID (s.teams.map fun t => t.id), name := teamName } :
      TeamRow)]).map fun t => t.name).Nodup := by
    rw [List.map_append]
    refine List.Nodup.append hs.teams_name (List.nodup_singleton _) ?_
    intro n hn hx
    rw [List.map_cons, List.map_nil, List.mem_singleton] at hx
    obtain ⟨t, ht, rfl⟩ := List.mem_map.mp hn
    exact hfresh t ht hx
  -- a row in the new team is the row of an id of the list
  have hteam : ∀ u ∈ members.foldl (upsertMember (nextID (s.teams.map fun t => t.id))) s.users,
      (u.team_id = nextID (s.teams.map fun t => t.id) ↔
        u.user_id ∈ members.map fun m => m.UserID) ∧
      (u.user_id ∈ members.map (fun m => m.UserID) →
        ∃ m, lastMember members u.user_id = some m ∧ u.username = m.Username ∧
          u.is_active = boolToInt m.IsActive) := by
    intro u hu
    rcases h1 u hu with ⟨hn, hold⟩ | ⟨ht, m, hm, hm2⟩
    · refine ⟨⟨fun e => absurd (e ▸ hs.users_team u hold) hnew, fun h => absurd h hn⟩,
        fun h => absurd h hn⟩
    · have : u.user_id ∈ members.map fun m => m.UserID := by
        rw [← (lastMember_some hm).2]
        exact List.mem_map_of_mem (fun m => m.UserID) (lastMember_some hm).1
      exact ⟨⟨fun _ => this, fun _ => ht⟩, fun _ => ⟨m, hm, hm2⟩⟩
  refine ⟨{ id := nextID (s.teams.map fun t => t.id), name := teamName }, rfl, hnew, rfl, trivial,
    trivial, ?_, ?_, h3, ?_, ?_⟩
  · intro uid huid
    obtain ⟨u, hu, rfl⟩ := h2 uid huid
    obtain ⟨k1, k2⟩ := hteam u hu
    exact ⟨u, hu, rfl, fun v hv e => key_inj (fun u : UserRow => u.user_id) kext hv hu e,
      k1.mpr huid, k2 huid⟩
  · intro u0 hu0 hnamed
    obtain ⟨u, hu, k1, k2⟩ := upsertAll_keys (nextID (s.teams.map fun t => t.id)) members
      s.users u0 hu0
    exact ⟨u, hu, k1, k2, ((hteam u hu).1).mpr (k2 ▸ hnamed)⟩
  · intro t0 ht0
    refine ⟨_, @GetTeam_of_mem
      ⟨s.teams ++ [⟨nextID (s.teams.map fun t => t.id), teamName⟩],
        members.foldl (upsertMember (nextID (s.teams.map fun t => t.id))) s.users,
        s.pull_requests, s.pr_reviewers⟩ hnames t0 (List.mem_append_left _ ht0), ?_⟩
    intro m hm hnamed
    obtain ⟨u, hu, rfl⟩ := List.mem_map.mp hm
    obtain ⟨hu1, hu2⟩ := List.mem_filter.mp hu
    simp only [decide_eq_true_eq] at hu2
    have := ((hteam u hu1).1).mpr hnamed
    rw [hu2] at this
    exact hnew (this ▸ List.mem_map_of_mem (fun t => t.id) ht0)
  · have hget := @GetTeam_of_mem
      ⟨s.teams ++ [⟨nextID (s.teams.map fun t => t.id), teamName⟩],
        members.foldl (upsertMember (nextID (s.teams.map fun t => t.id))) s.users,
        s.pull_requests, s.pr_reviewers⟩ hnames ⟨nextID (s.teams.map fun t => t.id), teamName⟩
      (List.mem_append_right _ (List.mem_singleton.mpr rfl))
    simp only [] at hget
    have hids : ∀ uid, (uid ∈ (((members.foldl
        (upsertMember (nextID (s.teams.map fun t => t.id))) s.users).filter fun u =>
          u.team_id = nextID (s.teams.map fun t => t.id)).map fun u =>
          ({ UserID := u.user_id, Username := u.username, IsActive := u.is_active = 1 } :
            TeamMember)).map fun m => m.UserID) ↔ uid ∈ members.map fun m => m.UserID := by
      intro uid
      simp only [List.mem_map, List.mem_filter, decide_eq_true_eq]
      constructor
      · rintro ⟨m, ⟨u, ⟨hu, hu2⟩, rfl⟩, rfl⟩
        exact List.mem_map.mp (((hteam u hu).1).mp hu2)
      · rintro ⟨m, hm, rfl⟩
        obtain ⟨u, hu, hu2⟩ := h2 m.UserID (List.mem_map_of_mem (fun m => m.UserID) hm)
        exact ⟨_, ⟨u, ⟨hu, ((hteam u hu).1).mpr
          (hu2 ▸ List.mem_map_of_mem (fun m => m.UserID) hm)⟩, rfl⟩, hu2⟩
    have hnodup : ((((members.foldl
        (upsertMember (nextID (s.teams.map fun t => t.id))) s.users).filter fun u =>
          u.team_id = nextID (s.teams.map fun t => t.id)).map fun u =>
          ({ UserID := u.user_id, Username := u.username, IsActive := u.is_active = 1 } :
            TeamMember)).map fun m => m.UserID).Nodup := by
      rw [List.map_map]
      exact kext.sublist ((List.filter_sublist _).map _)
    refine ⟨_, hget, rfl, hnodup, hids, ?_, ?_⟩
    · have hperm := (List.perm_ext_iff_of_nodup hnodup
        (List.nodup_dedup (members.map fun m => m.UserID))).mpr
        fun uid => (hids uid).trans List.mem_dedup.symm
      have := hperm.length_eq
      rw [List.length_map] at this
      exact this
    · intro m hm
      obtain ⟨u, hu, rfl⟩ := List.mem_map.mp hm
      obtain ⟨hu1, hu2⟩ := List.mem_filter.mp hu
      simp only [decide_eq_true_eq] at hu2
      obtain ⟨x, hx, hx1, hx2⟩ := (hteam u hu1).2 (((hteam u hu1).1).mp hu2)
      simp only []
      rw [hx]
      obtain ⟨x1, x2, x3⟩ := x
      have hx3 := (lastMember_some hx).2
      simp only at hx1 hx2 hx3
      rw [hx1, hx2, hx3]
      cases x3 <;> simp [boolToInt]

theorem C25_witness :
    ∃ t : TeamRow, t.name = "B" ∧
      t.id ∉ (runCalls Store.empty scenarioStats).teams.map (fun t => t.id) ∧
      (CreateTeam (runCalls Store.empty scenarioStats) "B" membersWithRepeat).2.teams =
        (runCalls Store.empty scenarioStats).teams ++ [t] ∧
      (CreateTeam (runCalls Store.empty scenarioStats) "B" membersWithRepeat).2.pull_requests =
        (runCalls Store.empty scenarioStats).pull_requests ∧
      (CreateTeam (runCalls Store.empty scenarioStats) "B" membersWithRepeat).2.pr_reviewers =
        (runCalls Store.empty scenarioStats).pr_reviewers ∧
      (∀ uid ∈ membersWithRepeat.map (fun m => m.UserID),
        ∃ u ∈ (CreateTeam (runCalls Store.empty scenarioStats) "B" membersWithRepeat).2.users,
          u.user_id = uid ∧
          (∀ v ∈ (CreateTeam (runCalls Store.empty scenarioStats) "B"
              membersWithRepeat).2.users, v.user_id = uid → v = u) ∧
          u.team_id = t.id ∧
          ∃ m, lastMember membersWithRepeat uid = some m ∧ u.username = m.Username ∧
            u.is_active = boolToInt m.IsActive) ∧
      (∀ u0 ∈ (runCalls Store.empty scenarioStats).users,
        u0.user_id ∈ membersWithRepeat.map (fun m => m.UserID) →
        ∃ u ∈ (CreateTeam (runCalls Store.empty scenarioStats) "B" membersWithRepeat).2.users,
          u.id = u0.id ∧ u.user_id = u0.user_id ∧ u.team_id = t.id) ∧
      (∀ u ∈ (runCalls Store.empty scenarioStats).users,
        u.user_id ∉ membersWithRepeat.map (fun m => m.UserID) →
        u ∈ (CreateTeam (runCalls Store.empty scenarioStats) "B" membersWithRepeat).2.users) ∧
      (∀ t0 ∈ (runCalls Store.empty scenarioStats).teams,
        ∃ tm, GetTeam (CreateTeam (runCalls Store.empty scenarioStats) "B"
            membersWithRepeat).2 t0.name = .ok tm ∧
          ∀ m ∈ tm.Members, m.UserID ∉ membersWithRepeat.map fun m => m.UserID) ∧
      (∃ team, (CreateTeam (runCalls Store.empty scenarioStats) "B" membersWithRepeat).1 =
          .ok team ∧ team.TeamName = "B" ∧
        (team.Members.map fun m => m.UserID).Nodup ∧
        (∀ uid, (uid ∈ team.Members.map fun m => m.UserID) ↔
          uid ∈ membersWithRepeat.map fun m => m.UserID) ∧
        team.Members.length = (membersWithRepeat.map fun m => m.UserID).dedup.length ∧
        (∀ m ∈ team.Members, lastMember membersWithRepeat m.UserID = some m)) :=
  C25_create_team (runCalls Store.empty scenarioStats)
    (Reachable.inv ⟨scenarioStats, rfl⟩).schema "B" membersWithRepeat (by decide)

/-! ### `SetUserIsActive` -/

theorem SetUserIsActive_of_absent {s : Store} {userID : String} (isActive : Bool)
    (h : ∀ u ∈ s.users, u.user_id ≠ userID) :
    SetUserIsActive s userID isActive = (.error .ErrNotFound, s) := by
  have h1 : (s.users.filter fun u => u.user_id = userID) = [] := by
    rw [List.filter_eq_nil_iff]
    intro u hu
    simpa using h u hu
  have h2 : (s.users.map fun u =>
      if u.user_id = userID then { u with is_active := boolToInt isActive } else u) =
      s.users := by
    conv_rhs => rw [← List.map_id s.users]
    apply List.map_congr_left
    intro u hu
    rw [if_neg (h u hu), id]
  unfold SetUserIsActive
  simp only [h1, h2, List.length_nil, if_true]

/-- With the keys of the schema, `SetUserIsActive` on a user of the store returns the user
with its team and the new flag. -/
theorem SetUserIsActive_of_mem {s : Store} (hs : SchemaOK s) {u : UserRow} (hu : u ∈ s.users)
    (isActive : Bool) :
    ∃ t ∈ s.teams, t.id = u.team_id ∧
      (SetUserIsActive s u.user_id isActive).1 =
        .ok { UserID := u.user_id, Username := u.username, TeamName := t.name,
              IsActive := isActive } := by
  obtain ⟨t, ht, ht2⟩ := List.mem_map.mp (hs.users_team u hu)
  refine ⟨t, ht, ht2, ?_⟩
  have haff : (s.users.filter fun v => v.user_id = u.user_id).length ≠ 0 := by
    rw [Ne, List.length_eq_zero, List.filter_eq_nil_iff]
    intro hall
    simpa using hall u hu
  have hext : ((s.users.map fun v =>
      if v.user_id = u.user_id then { v with is_active := boolToInt isActive } else v).map
      fun v => v.user_id).Nodup := by
    have : ((s.users.map fun v =>
        if v.user_id = u.user_id then { v with is_active := boolToInt isActive } else v).map
        fun v => v.user_id) = s.users.map fun v => v.user_id := by
      rw [List.map_map]
      apply List.map_congr_left
      intro v _
      simp only [Function.comp]
      split <;> rfl
    rw [this]
    exact hs.users_user_id
  have hmem : ({ u with is_active := boolToInt isActive } : UserRow) ∈ s.users.map fun v =>
      if v.user_id = u.user_id then { v with is_active := boolToInt isActive } else v :=
    List.mem_map.mpr ⟨u, hu, by rw [if_pos rfl]⟩
  have hteam : (s.teams.filter fun x => u.team_id = x.id ∧ u.user_id = u.user_id) = [t] := by
    rw [← filter_key_eq (fun t : TeamRow => t.id) s.teams hs.teams_pk t ht]
    apply List.filter_congr
    intro x _
    simp [ht2]
  have hjoin := flatMap_key_eq (fun v : UserRow => v.user_id)
    (fun v : UserRow =>
      (s.teams.filter fun x => v.team_id = x.id ∧ v.user_id = u.user_id).map fun x => (v, x))
    _ hext _ hmem (by
      intro b _ hb
      have : (s.teams.filter fun x => b.team_id = x.id ∧ b.user_id = u.user_id) = [] := by
        rw [List.filter_eq_nil_iff]
        intro x _ hc
        simp only [decide_eq_true_eq] at hc
        exact hb hc.2
      show ((s.teams.filter fun x => b.team_id = x.id ∧ b.user_id = u.user_id).map
        fun x => (b, x)) = []
      rw [this]
      rfl)
  dsimp only at hjoin
  rw [hteam] at hjoin
  unfold SetUserIsActive
  simp only [if_neg haff, hjoin, List.map_cons, List.map_nil, List.head?_cons]
  cases isActive <;> simp [boolToInt]

/-- C26: in every state satisfying the schema, `SetUserIsActive(userID, active)` fails with
`ErrNotFound` exactly when no user has the external id, and then leaves the store as it was;
for a user that exists it returns the external id, the username, the name of the user's
team and the given flag, and the store differs only in the flag of that user: the row of
every other user, the teams, the pull requests and the assignment rows, those of the user on
OPEN pull requests included, are as before. -/
theorem C26_set_user_is_active (s : Store) (hs : SchemaOK s) (userID : String)
    (isActive : Bool) :
    ((SetUserIsActive s userID isActive).1 = .error .ErrNotFound ↔
      ∀ u ∈ s.users, u.user_id ≠ userID) ∧
    ((∀ u ∈ s.users, u.user_id ≠ userID) → (SetUserIsActive s userID isActive).2 = s) ∧
    (∀ u ∈ s.users, u.user_id = userID →
      (∃ t ∈ s.teams, t.id = u.team_id ∧
        (SetUserIsActive s userID isActive).1 =
          .ok { UserID := userID, Username := u.username, TeamName := t.name,
                IsActive := isActive }) ∧
      ({ u with is_active := boolToInt isActive } : UserRow) ∈
        (SetUserIsActive s userID isActive).2.users ∧
      (∀ v ∈ (SetUserIsActive s userID isActive).2.users, v.user_id = userID →
        v = { u with is_active := boolToInt isActive })) ∧
    (∀ v ∈ s.users, v.user_id ≠ userID → v ∈ (SetUserIsActive s userID isActive).2.users) ∧
    (∀ v ∈ (SetUserIsActive s userID isActive).2.users, v.user_id ≠ userID → v ∈ s.users) ∧
    (SetUserIsActive s userID isActive).2.teams = s.teams ∧
    (SetUserIsActive s userID isActive).2.pull_requests = s.pull_requests ∧
    (SetUserIsActive s userID isActive).2.pr_reviewers = s.pr_reviewers := by
  have hpost : ∀ v ∈ (SetUserIsActive s userID isActive).2.users,
      ∃ w ∈ s.users, (w.user_id ≠ userID ∧ v = w) ∨
        (w.user_id = userID ∧ v = { w with is_active := boolToInt isActive }) := by
    intro v hv
    rw [SetUserIsActive_store] at hv
    obtain ⟨w, hw, rfl⟩ := List.mem_map.mp hv
    refine ⟨w, hw, ?_⟩
    by_cases hc : w.user_id = userID
    · rw [if_pos hc]; exact Or.inr ⟨hc, rfl⟩
    · rw [if_neg hc]; exact Or.inl ⟨hc, rfl⟩
  refine ⟨⟨?_, fun h => by rw [SetUserIsActive_of_absent isActive h]⟩,
    fun h => by rw [SetUserIsActive_of_absent isActive h], ?_, ?_, ?_,
    by rw [SetUserIsActive_store], by rw [SetUserIsActive_store],
    by rw [SetUserIsActive_store]⟩
  · intro h u hu hid
    subst hid
    obtain ⟨t, _, _, hok⟩ := SetUserIsActive_of_mem hs hu isActive
    rw [hok] at h
    cases h
  · rintro u hu rfl
    refine ⟨SetUserIsActive_of_mem hs hu isActive, ?_, ?_⟩
    · rw [SetUserIsActive_store]
      exact List.mem_map.mpr ⟨u, hu, by rw [if_pos rfl]⟩
    · intro v hv hid
      obtain ⟨w, hw, ⟨hne, rfl⟩ | ⟨he, rfl⟩⟩ := hpost v hv
      · exact absurd hid hne
      · rw [key_inj (fun u : UserRow => u.user_id) hs.users_user_id hw hu he]
  · intro v hv hne
    rw [SetUserIsActive_store]
    exact List.mem_map.mpr ⟨v, hv, by rw [if_neg hne]⟩
  · intro v hv hne
    obtain ⟨w, hw, ⟨_, rfl⟩ | ⟨he, rfl⟩⟩ := hpost v hv
    · exact hw
    · exact absurd he hne

theorem C26_witness :
    ((SetUserIsActive (runCalls Store.empty scenarioStats) "c" false).1 =
        .error .ErrNotFound ↔
      ∀ u ∈ (runCalls Store.empty scenarioStats).users, u.user_id ≠ "c") ∧
    ((∀ u ∈ (runCalls Store.empty scenarioStats).users, u.user_id ≠ "c") →
      (SetUserIsActive (runCalls Store.empty scenarioStats) "c" false).2 =
        runCalls Store.empty scenarioStats) ∧
    (∀ u ∈ (runCalls Store.empty scenarioStats).users, u.user_id = "c" →
      (∃ t ∈ (runCalls Store.empty scenarioStats).teams, t.id = u.team_id ∧
        (SetUserIsActive (runCalls Store.empty scenarioStats) "c" false).1 =
          .ok { UserID := "c", Username := u.username, TeamName := t.name,
                IsActive := false }) ∧
      ({ u with is_active := boolToInt false } : UserRow) ∈
        (SetUserIsActive (runCalls Store.empty scenarioStats) "c" false).2.users ∧
      (∀ v ∈ (SetUserIsActive (runCalls Store.empty scenarioStats) "c" false).2.users,
        v.user_id = "c" → v = { u with is_active := boolToInt false })) ∧
    (∀ v ∈ (runCalls Store.empty scenarioStats).users, v.user_id ≠ "c" →
      v ∈ (SetUserIsActive (runCalls Store.empty scenarioStats) "c" false).2.users) ∧
    (∀ v ∈ (SetUserIsActive (runCalls Store.empty scenarioStats) "c" false).2.users,
      v.user_id ≠ "c" → v ∈ (runCalls Store.empty scenarioStats).users) ∧
    (SetUserIsActive (runCalls Store.empty scenarioStats) "c" false).2.teams =
      (runCalls Store.empty scenarioStats).teams ∧
    (SetUserIsActive (runCalls Store.empty scenarioStats) "c" false).2.pull_requests =
      (runCalls Store.empty scenarioStats).pull_requests ∧
    (SetUserIsActive (runCalls Store.empty scenarioStats) "c" false).2.pr_reviewers =
      (runCalls Store.empty scenarioStats).pr_reviewers :=
  C26_set_user_is_active (runCalls Store.empty scenarioStats)
    (Reachable.inv ⟨scenarioStats, rfl⟩).schema "c" false

/-! ## The life of a pull request, and the frame of the bulk deactivation -/

/-- What a call does to the table `pull_requests`: nothing, or it appends one OPEN row
without merge timestamp under a new id, or it stamps the rows with the id of a row that is
not MERGED. -/
theorem Call.exec_prs (c : Call) (s : Store) :
    (c.exec s).pull_requests = s.pull_requests ∨
    (∃ new : PullRequestRow, new.status = .OPEN ∧ new.merged_at = none ∧
      new.id ∉ s.pull_requests.map (fun p => p.id) ∧
      (c.exec s).pull_requests = s.pull_requests ++ [new]) ∨
    (∃ row ∈ s.pull_requests, row.status ≠ .MERGED ∧ ∃ now : Nat,
      (c.exec s).pull_requests = s.pull_requests.map fun pr =>
        if pr.id = row.id then { pr with status := .MERGED, merged_at := some now } else pr) := by
  cases c with
  | createTeam n ms =>
    left
    show (CreateTeam s n ms).2.pull_requests = _
    rcases CreateTeam_store s n ms with ⟨_, he⟩ | ⟨_, he⟩ <;> rw [he]
  | setUserIsActive u a =>
    left
    show (SetUserIsActive s u a).2.pull_requests = _
    rw [SetUserIsActive_store]
  | createPullRequest now rnd p n a =>
    show (CreatePullRequestWithAutoAssign s now rnd p n a).2.pull_requests = _ ∨ (∃ new, _ ∧ _ ∧ _ ∧
      (CreatePullRequestWithAutoAssign s now rnd p n a).2.pull_requests = _) ∨ _
    rcases CreatePullRequestWithAutoAssign_store s now rnd p n a with he | ⟨au, _, _, _, he⟩
    · left; rw [he]
    · right; left
      rw [he]
      exact ⟨_, rfl, rfl, nextID_not_mem _, rfl⟩
  | mergePullRequest now p =>
    show (MergePullRequest s now p).2.pull_requests = _ ∨ _ ∨ (∃ row ∈ _, _ ∧ ∃ now', 
      (MergePullRequest s now p).2.pull_requests = _)
    rcases MergePullRequest_store s now p with he | ⟨row, hrow, _, hst, he⟩
    · left; rw [he]
    · right; right
      rw [he]
      exact ⟨row, hrow, hst, now, rfl⟩
  | reassignReviewer rnd p o =>
    left
    show (ReassignReviewer s rnd p o).2.pull_requests = _
    rcases ReassignReviewer_store s rnd p o with he | ⟨_, _, _, _, _, _, _, _, _, _, _, _, he⟩ <;>
      rw [he]
  | bulkDeactivate rnd t us =>
    left
    show (BulkDeactivateUsersAndReassign s rnd t us).2.pull_requests = _
    rcases BulkDeactivateUsersAndReassign_store s rnd t us with he | ⟨_, _, _, _, _, he⟩ <;>
      rw [he]

/-- A successful `CreatePullRequestWithAutoAssign` returns an OPEN pull request without merge
timestamp. -/
theorem CreatePullRequestWithAutoAssign_ok_open {s : Store} (hs : SchemaOK s) {now : Nat}
    {rnd : Rand} {prID prName authorExternalID : String} {pr : PullRequest}
    (h : (CreatePullRequestWithAutoAssign s now rnd prID prName authorExternalID).1 = .ok pr) :
    pr.ID = prID ∧ pr.Status = .OPEN ∧ pr.MergedAt = none := by
  have hs2 := CreatePullRequestWithAutoAssign_schemaOK hs now rnd prID prName authorExternalID
  obtain ⟨p, hp, au, _, hid, _, rfl⟩ :=
    getPullRequestByExternalID_ok hs2 (CreatePullRequestWithAutoAssign_ok_get h)
  refine ⟨hid, ?_⟩
  rcases CreatePullRequestWithAutoAssign_store s now rnd prID prName authorExternalID with
    he | ⟨au2, _, _, hfresh, he⟩
  · rw [he] at hp
    cases h1 : s.pull_requests.find? fun p => decide (p.pull_request_id = prID) with
    | some q =>
      rw [CreatePullRequestWithAutoAssign_of_present now rnd prName authorExternalID
        (List.mem_of_find?_eq_some h1) (by simpa using List.find?_some h1)] at h
      cases h
    | none => exact absurd hid (by simpa using List.find?_eq_none.mp h1 p hp)
  · rw [he] at hp
    rcases List.mem_append.mp hp with hp | hp
    · exact absurd hid (hfresh p hp)
    · rw [List.mem_singleton] at hp
      subst hp
      exact ⟨rfl, rfl⟩

/-- C27: in every reachable state a pull request has a merge timestamp exactly when its
status is MERGED. For every call of a mutating method from such a state: a row under a new id
is OPEN and has no merge timestamp, and so has the pull request returned by a successful
`CreatePullRequestWithAutoAssign`; a row that is MERGED before the call is in the table after
it, unchanged, with the same status and the same timestamp; and every other row keeps its id
and is either unchanged or goes from OPEN to MERGED. -/
theorem C27_status_forward (s : Store) (hr : Reachable s) :
    (∀ p ∈ s.pull_requests, p.merged_at.isSome = true ↔ p.status = .MERGED) ∧
    (∀ c : Call, ∀ p ∈ (c.exec s).pull_requests, p.id ∉ s.pull_requests.map (fun p => p.id) →
      p.status = .OPEN ∧ p.merged_at = none) ∧
    (∀ (now : Nat) (rnd : Rand) (prID prName authorExternalID : String) (pr : PullRequest),
      (CreatePullRequestWithAutoAssign s now rnd prID prName authorExternalID).1 = .ok pr →
      pr.Status = .OPEN ∧ pr.MergedAt = none) ∧
    (∀ c : Call, ∀ p ∈ s.pull_requests, p.status = .MERGED → p ∈ (c.exec s).pull_requests) ∧
    (∀ c : Call, ∀ p ∈ s.pull_requests, ∃ q ∈ (c.exec s).pull_requests, q.id = p.id ∧
      (q = p ∨ (p.status = .OPEN ∧ q.status = .MERGED))) := by
  have hinv := hr.inv
  refine ⟨fun p hp => (hinv.merged_stamp p hp).symm, ?_, ?_, ?_, ?_⟩
  · intro c p hp hnew
    rcases Call.exec_prs c s with he | ⟨new, h1, h2, _, he⟩ | ⟨row, _, _, now, he⟩
    · rw [he] at hp
      exact absurd (List.mem_map_of_mem (fun p => p.id) hp) hnew
    · rw [he] at hp
      rcases List.mem_append.mp hp with hp | hp
      · exact absurd (List.mem_map_of_mem (fun p => p.id) hp) hnew
      · rw [List.mem_singleton] at hp
        subst hp
        exact ⟨h1, h2⟩
    · rw [he] at hp
      obtain ⟨q, hq, hid, _⟩ := merge_rows_mem hp
      exact absurd (hid ▸ List.mem_map_of_mem (fun p => p.id) hq) hnew
  · intro now rnd prID prName authorExternalID pr h
    exact (CreatePullRequestWithAutoAssign_ok_open hinv.schema h).2
  · intro c p hp hst
    rcases Call.exec_prs c s with he | ⟨new, _, _, _, he⟩ | ⟨row, hrow, hrst, now, he⟩
    · rw [he]; exact hp
    · rw [he]; exact List.mem_append_left _ hp
    · rw [he]
      refine List.mem_map.mpr ⟨p, hp, ?_⟩
      rw [if_neg]
      intro hid
      have := key_inj (fun p : PullRequestRow => p.id) hinv.schema.prs_pk hp hrow hid
      subst this
      exact hrst hst
  · intro c p hp
    rcases Call.exec_prs c s with he | ⟨new, _, _, _, he⟩ | ⟨row, hrow, hrst, now, he⟩
    · rw [he]; exact ⟨p, hp, rfl, Or.inl rfl⟩
    · rw [he]; exact ⟨p, List.mem_append_left _ hp, rfl, Or.inl rfl⟩
    · rw [he]
      by_cases hid : p.id = row.id
      · refine ⟨_, List.mem_map.mpr ⟨p, hp, rfl⟩, ?_⟩
        rw [if_pos hid]
        refine ⟨rfl, Or.inr ⟨?_, rfl⟩⟩
        have := key_inj (fun p : PullRequestRow => p.id) hinv.schema.prs_pk hp hrow hid
        subst this
        cases hst : p.status with
        | OPEN => rfl
        | MERGED => exact absurd hst hrst
      · refine ⟨_, List.mem_map.mpr ⟨p, hp, rfl⟩, ?_⟩
        rw [if_neg hid]
        exact ⟨rfl, Or.inl rfl⟩

theorem C27_witness :
    (∀ p ∈ (runCalls Store.empty scenarioC).pull_requests,
      p.merged_at.isSome = true ↔ p.status = .MERGED) ∧
    (∀ c : Call, ∀ p ∈ (c.exec (runCalls Store.empty scenarioC)).pull_requests,
      p.id ∉ (runCalls Store.empty scenarioC).pull_requests.map (fun p => p.id) →
      p.status = .OPEN ∧ p.merged_at = none) ∧
    (∀ (now : Nat) (rnd : Rand) (prID prName authorExternalID : String) (pr : PullRequest),
      (CreatePullRequestWithAutoAssign (runCalls Store.empty scenarioC) now rnd prID prName
        authorExternalID).1 = .ok pr →
      pr.Status = .OPEN ∧ pr.MergedAt = none) ∧
    (∀ c : Call, ∀ p ∈ (runCalls Store.empty scenarioC).pull_requests, p.status = .MERGED →
      p ∈ (c.exec (runCalls Store.empty scenarioC)).pull_requests) ∧
    (∀ c : Call, ∀ p ∈ (runCalls Store.empty scenarioC).pull_requests,
      ∃ q ∈ (c.exec (runCalls Store.empty scenarioC)).pull_requests, q.id = p.id ∧
        (q = p ∨ (p.status = .OPEN ∧ q.status = .MERGED))) :=
  C27_status_forward (runCalls Store.empty scenarioC) ⟨scenarioC, rfl⟩

theorem deactivateAll_keeps (ds : List (Nat × String)) :
    ∀ (users : List UserRow) (u : UserRow), u ∈ users → u.id ∉ ds.map (fun d => d.1) →
      u ∈ ds.foldl (fun us u => deactivateUser us u.1) users := by
  induction ds with
  | nil => exact fun users u hu _ => hu
  | cons d t ih =>
    intro users u hu hn
    rw [List.map_cons, List.mem_cons, not_or] at hn
    rw [List.foldl_cons]
    refine ih _ u ?_ hn.2
    unfold deactivateUser
    exact List.mem_map.mpr ⟨u, hu, by rw [if_neg hn.1]⟩

/-- C29: the frame of a successful `BulkDeactivateUsersAndReassign`, in every state
satisfying the schema and for every outcome of the shuffle. The teams and the pull requests
are as before. Every user keeps its id, external id, username and team; the row of a user
that is not named is unchanged, flag included. An assignment row that is not the assignment
of a named user on an OPEN pull request stays, so the reviewers that are not named stay
assigned; a row that was not there before is on a pull request that had such an assignment,
for an active user of the named team; and the reviewers of a pull request without such an
assignment are exactly as before. -/
theorem C29_bulk_frame (s : Store) (hs : SchemaOK s) (rnd : Rand) (teamName : String)
    (userIDs : List String) (res : BulkDeactivateResult)
    (h : (BulkDeactivateUsersAndReassign s rnd teamName userIDs).1 = .ok res) :
    (BulkDeactivateUsersAndReassign s rnd teamName userIDs).2.teams = s.teams ∧
    (BulkDeactivateUsersAndReassign s rnd teamName userIDs).2.pull_requests =
      s.pull_requests ∧
    (∀ u ∈ (BulkDeactivateUsersAndReassign s rnd teamName userIDs).2.users,
      ∃ v ∈ s.users, u.id = v.id ∧ u.user_id = v.user_id ∧ u.username = v.username ∧
        u.team_id = v.team_id ∧ (u.user_id ∉ userIDs → u = v)) ∧
    (∀ v ∈ s.users, v.user_id ∉ userIDs →
      v ∈ (BulkDeactivateUsersAndReassign s rnd teamName userIDs).2.users) ∧
    (∀ r ∈ s.pr_reviewers, r ∉ namedOpenAssignments s userIDs →
      r ∈ (BulkDeactivateUsersAndReassign s rnd teamName userIDs).2.pr_reviewers) ∧
    (∀ r ∈ s.pr_reviewers, (∀ u ∈ s.users, u.id = r.reviewer_id → u.user_id ∉ userIDs) →
      r ∈ (BulkDeactivateUsersAndReassign s rnd teamName userIDs).2.pr_reviewers) ∧
    (∀ r ∈ (BulkDeactivateUsersAndReassign s rnd teamName userIDs).2.pr_reviewers,
      r ∈ s.pr_reviewers ∨
      ∃ w ∈ namedOpenAssignments s userIDs, r.pr_id = w.pr_id ∧
        ∃ x ∈ (BulkDeactivateUsersAndReassign s rnd teamName userIDs).2.users,
          x.id = r.reviewer_id ∧ x.is_active = 1 ∧ x.user_id ∉ userIDs ∧
          ∃ t ∈ s.teams, t.name = teamName ∧ x.team_id = t.id) ∧
    (∀ prIntID, (∀ w ∈ namedOpenAssignments s userIDs, w.pr_id ≠ prIntID) →
      reviewersOf (BulkDeactivateUsersAndReassign s rnd teamName userIDs).2 prIntID =
        reviewersOf s prIntID) := by
  obtain ⟨t, ht, ds, hn, hds, hteams, hprs, husers, _, _, ⟨W, hW, hspec⟩, _, _⟩ :=
    BulkDeactivateUsersAndReassign_spec hs h
  obtain ⟨f1, f2, f3⟩ := hspec.frame
  simp only [] at f1 f2 f3
  have hnot : ∀ v ∈ s.users, v.user_id ∉ userIDs → v.id ∉ ds.map fun d => d.1 := by
    intro v hv hnn hmem
    obtain ⟨u, hu, hu1, hu2⟩ := (named_iff hs hds v.id).mp hmem
    have := key_inj (fun u : UserRow => u.id) hs.users_pk hu hv hu1
    subst this
    exact hnn hu2
  have hflag : ∀ u ∈ (BulkDeactivateUsersAndReassign s rnd teamName userIDs).2.users,
      u.user_id ∈ userIDs → u.is_active = 0 := by
    intro u hu hmem
    rw [husers] at hu
    obtain ⟨v, hv, _, h2, _, _, h5, _⟩ := mem_deactivateAll ds s.users u hu
    exact h5 ((named_iff hs hds v.id).mpr ⟨v, hv, rfl, h2 ▸ hmem⟩)
  refine ⟨hteams, hprs, ?_, ?_, ?_, ?_, ?_, ?_⟩
  · intro u hu
    rw [husers] at hu
    obtain ⟨v, hv, h1, h2, h3, h4, _, h6, _⟩ := mem_deactivateAll ds s.users u hu
    refine ⟨v, hv, h1, h2, h3, h4, fun hnn => ?_⟩
    have h7 := h6 (hnot v hv (h2 ▸ hnn))
    obtain ⟨u1, u2, u3, u4, u5⟩ := u
    obtain ⟨v1, v2, v3, v4, v5⟩ := v
    simp only at h1 h2 h3 h4 h7
    rw [h1, h2, h3, h4, h7]
  · intro v hv hnn
    rw [husers]
    exact deactivateAll_keeps ds s.users v hv (hnot v hv hnn)
  · intro r hr hnn
    exact f1 r hr fun hw => hnn (hW.mem_iff.mp hw)
  · intro r hr hnn
    refine f1 r hr fun hw => ?_
    have hw2 := hW.mem_iff.mp hw
    unfold namedOpenAssignments at hw2
    obtain ⟨_, hw3⟩ := List.mem_filter.mp hw2
    simp only [decide_eq_true_eq] at hw3
    obtain ⟨⟨u, hu, hu1, hu2⟩, _⟩ := hw3
    exact hnn u hu hu1 hu2
  · intro r hr
    rcases f2 r hr with h1 | ⟨w, hw, hw2, x, hx, hx1, hx2, hx3⟩
    · exact Or.inl h1
    · refine Or.inr ⟨w, hW.mem_iff.mp hw, hw2, x, hx, hx1, hx3, fun hmem => ?_, t, ht, hn, hx2⟩
      have := hflag x hx hmem
      rw [hx3] at this
      cases this
  · intro q hq
    unfold reviewersOf
    exact f3 q fun w hw => hq w (hW.mem_iff.mp hw)

theorem C29_witness :
    (BulkDeactivateUsersAndReassign (runCalls Store.empty scenarioC) [0] "T" ["c"]).2.teams =
      (runCalls Store.empty scenarioC).teams ∧
    (BulkDeactivateUsersAndReassign (runCalls Store.empty scenarioC) [0] "T"
      ["c"]).2.pull_requests = (runCalls Store.empty scenarioC).pull_requests ∧
    (∀ u ∈ (BulkDeactivateUsersAndReassign (runCalls Store.empty scenarioC) [0] "T"
        ["c"]).2.users,
      ∃ v ∈ (runCalls Store.empty scenarioC).users, u.id = v.id ∧ u.user_id = v.user_id ∧
        u.username = v.username ∧ u.team_id = v.team_id ∧ (u.user_id ∉ ["c"] → u = v)) ∧
    (∀ v ∈ (runCalls Store.empty scenarioC).users, v.user_id ∉ ["c"] →
      v ∈ (BulkDeactivateUsersAndReassign (runCalls Store.empty scenarioC) [0] "T"
        ["c"]).2.users) ∧
    (∀ r ∈ (runCalls Store.empty scenarioC).pr_reviewers,
      r ∉ namedOpenAssignments (runCalls Store.empty scenarioC) ["c"] →
      r ∈ (BulkDeactivateUsersAndReassign (runCalls Store.empty scenarioC) [0] "T"
        ["c"]).2.pr_reviewers) ∧
    (∀ r ∈ (runCalls Store.empty scenarioC).pr_reviewers,
      (∀ u ∈ (runCalls Store.empty scenarioC).users, u.id = r.reviewer_id →
        u.user_id ∉ ["c"]) →
      r ∈ (BulkDeactivateUsersAndReassign (runCalls Store.empty scenarioC) [0] "T"
        ["c"]).2.pr_reviewers) ∧
    (∀ r ∈ (BulkDeactivateUsersAndReassign (runCalls Store.empty scenarioC) [0] "T"
        ["c"]).2.pr_reviewers,
      r ∈ (runCalls Store.empty scenarioC).pr_reviewers ∨
      ∃ w ∈ namedOpenAssignments (runCalls Store.empty scenarioC) ["c"], r.pr_id = w.pr_id ∧
        ∃ x ∈ (BulkDeactivateUsersAndReassign (runCalls Store.empty scenarioC) [0] "T"
            ["c"]).2.users,
          x.id = r.reviewer_id ∧ x.is_active = 1 ∧ x.user_id ∉ ["c"] ∧
          ∃ t ∈ (runCalls Store.empty scenarioC).teams, t.name = "T" ∧ x.team_id = t.id) ∧
    (∀ prIntID,
      (∀ w ∈ namedOpenAssignments (runCalls Store.empty scenarioC) ["c"],
        w.pr_id ≠ prIntID) →
      reviewersOf (BulkDeactivateUsersAndReassign (runCalls Store.empty scenarioC) [0] "T"
        ["c"]).2 prIntID = reviewersOf (runCalls Store.empty scenarioC) prIntID) :=
  C29_bulk_frame (runCalls Store.empty scenarioC)
    (Reachable.inv ⟨scenarioC, rfl⟩).schema [0] "T" ["c"]
    { TeamName := "T", DeactivatedUserIDs := ["c"], ReassignedCount := 1,
      RemovedAssignments := 0 } rfl


end PRService
